import Mathlib

/-!
# ElectroWizard dashboard: allocation calculator and chatbot engine

Shallow embedding of

* `calculateDistribution` (frontend/src/components/BESSDashboard.jsx), the
  single-pass reserve allocation, and
* `ChatbotEngine` (frontend/src/utils/chatbotEngine.js), the keyword
  dispatch of the chat widget.

The allocation is embedded twice: with exact whole numbers (`calculateDistribution`),
where the branch structure is studied, and in IEEE 754 binary64 arithmetic
(`Binary64.calculateDistribution`), the arithmetic of JavaScript numbers; the two
agree on whole numbers up to `2 ^ 53`. The countdown of the hospital view
(frontend/src/components/HospitalLifeSupport.jsx) is embedded in binary64.
-/

namespace ElectroWizard

/-! ## Definitions: power distribution -/

/-- A zone of the dashboard state, `{ name, id, usage, threshold }`, with whole-number
figures. -/
structure Zone where
  name : String
  id : String
  usage : Int
  threshold : Int
deriving DecidableEq, Repr

/-- A zone of the result: `{ ...zone, regular, bessUsed, deficit }`. -/
structure DistributedZone where
  name : String
  id : String
  usage : Int
  threshold : Int
  regular : Int
  bessUsed : Int
  deficit : Int
deriving DecidableEq, Repr

/-- The callback of `zones.map` in `calculateDistribution`: one zone is
processed with the current value of the closure variable `remainingBess`;
the result is the zone's entry and the new value of `remainingBess`. The figures are
whole numbers and the arithmetic is exact; `Binary64.distributeZone` is the same
callback in the arithmetic of JavaScript numbers. -/
def distributeZone (remainingBess : Int) (zone : Zone) : DistributedZone × Int :=
  let usage := zone.usage
  let threshold := zone.threshold
  if usage ≤ threshold then
    ({ name := zone.name, id := zone.id, usage := zone.usage, threshold := zone.threshold,
       regular := usage, bessUsed := 0, deficit := 0 }, remainingBess)
  else
    let excess := usage - threshold
    if remainingBess ≥ excess then
      ({ name := zone.name, id := zone.id, usage := zone.usage, threshold := zone.threshold,
         regular := threshold, bessUsed := excess, deficit := 0 }, remainingBess - excess)
    else
      ({ name := zone.name, id := zone.id, usage := zone.usage, threshold := zone.threshold,
         regular := threshold, bessUsed := remainingBess, deficit := excess - remainingBess }, 0)

/-- The `zones.map` loop with the mutable `remainingBess` threaded through:
the entries in input order and the value of `remainingBess` at the end. -/
def distributeFrom : Int → List Zone → List DistributedZone × Int
  | remainingBess, [] => ([], remainingBess)
  | remainingBess, zone :: rest =>
    let step := distributeZone remainingBess zone
    let tail := distributeFrom step.2 rest
    (step.1 :: tail.1, tail.2)

/-- The function `calculateDistribution`, with the component state it reads
(`bessPower`, `zones`) as arguments: `remainingBess` starts at `bessPower`. -/
def calculateDistribution (bessPower : Int) (zones : List Zone) : List DistributedZone :=
  (distributeFrom bessPower zones).1

/-- The value of `remainingBess` when the pass is over. -/
def poolRemainder (bessPower : Int) (zones : List Zone) : Int :=
  (distributeFrom bessPower zones).2

/-- The values of `remainingBess` after the first, second, ... zone. -/
def poolTrace : Int → List Zone → List Int
  | _, [] => []
  | remainingBess, zone :: rest =>
    (distributeZone remainingBess zone).2 :: poolTrace (distributeZone remainingBess zone).2 rest

/-- The input condition of the allocation contract: `usage ≥ 0` and
`threshold ≥ 0` for every zone. -/
def ValidZones (zones : List Zone) : Prop :=
  ∀ z ∈ zones, 0 ≤ z.usage ∧ 0 ≤ z.threshold

instance (zones : List Zone) : Decidable (ValidZones zones) := by
  unfold ValidZones; infer_instance

/-- The initial value of the `zones` state of the dashboard. -/
def initialZones : List Zone :=
  [⟨"Zone 1", "zone1", 600000, 500000⟩, ⟨"Zone 2", "zone2", 450000, 400000⟩,
   ⟨"Zone 3", "zone3", 380000, 350000⟩, ⟨"Zone 4", "zone4", 320000, 300000⟩]

/-- The three supply figures of a result entry. -/
def DistributedZone.split (d : DistributedZone) : Int × Int × Int :=
  (d.regular, d.bessUsed, d.deficit)

/-- The component state `calculateDistribution` reads. -/
structure Dashboard where
  solarPower : Int
  windPower : Int
  bessPower : Int
  zones : List Zone
deriving DecidableEq, Repr

/-- One evaluation of `const distributedZones = calculateDistribution()` in a render:
the function reads `bessPower` and `zones`, assigns only to its local
`remainingBess`, and calls no state setter; the result and the state afterwards. -/
def Dashboard.render (st : Dashboard) : List DistributedZone × Dashboard :=
  (calculateDistribution st.bessPower st.zones, st)

/-- The need of a zone above its threshold: `max(0, usage - threshold)`. -/
def Zone.excess (z : Zone) : Int := max 0 (z.usage - z.threshold)

/-- The sum of the needs of all zones. -/
def totalExcess (zones : List Zone) : Int := (zones.map Zone.excess).sum

/-- The sum of `bessUsed` over a result. -/
def totalBessUsed (result : List DistributedZone) : Int :=
  (result.map DistributedZone.bessUsed).sum

/-- The sum of `deficit` over a result. -/
def totalDeficit (result : List DistributedZone) : Int :=
  (result.map DistributedZone.deficit).sum

/-! ## Definitions: chatbot engine

JavaScript strings are modelled as Lean strings (sequences of Unicode characters).
`toLowerCase` follows the Unicode default case conversion with the tables of the
Unicode Character Database, version 14.0. -/

/-- The method `String.prototype.includes`, on character lists: `sub` occurs in
`s` as a contiguous run. -/
def includesChars : List Char → List Char → Bool
  | [], sub => sub.isEmpty
  | c :: s, sub => sub.isPrefixOf (c :: s) || includesChars s sub

/-- The call `s.includes(sub)`. -/
def includes (s sub : String) : Bool := includesChars s.data sub.data

/-- The simple lower-case mappings of the Unicode Character Database (version 14.0)
outside ASCII, by page (code point divided by 256), as runs
`(first, last, step, target)`: every `step`-th code point from `first` to `last` has a
lower case, `first` has `target`, and the following ones shift along. U+0130, whose
lower case is two characters, is apart. -/
def lowerCasePages : List (Nat × List (Nat × Nat × Nat × Nat)) :=
  [(0x00, [(0x00C0, 0x00D6, 1, 0x00E0), (0x00D8, 0x00DE, 1, 0x00F8)]),
   (0x01, [(0x0100, 0x012E, 2, 0x0101), (0x0132, 0x0136, 2, 0x0133), (0x0139, 0x0147, 2, 0x013A),
      (0x014A, 0x0176, 2, 0x014B), (0x0178, 0x0178, 1, 0x00FF), (0x0179, 0x017D, 2, 0x017A),
      (0x0181, 0x0181, 1, 0x0253), (0x0182, 0x0184, 2, 0x0183), (0x0186, 0x0186, 1, 0x0254),
      (0x0187, 0x0187, 1, 0x0188), (0x0189, 0x018A, 1, 0x0256), (0x018B, 0x018B, 1, 0x018C),
      (0x018E, 0x018E, 1, 0x01DD), (0x018F, 0x018F, 1, 0x0259), (0x0190, 0x0190, 1, 0x025B),
      (0x0191, 0x0191, 1, 0x0192), (0x0193, 0x0193, 1, 0x0260), (0x0194, 0x0194, 1, 0x0263),
      (0x0196, 0x0196, 1, 0x0269), (0x0197, 0x0197, 1, 0x0268), (0x0198, 0x0198, 1, 0x0199),
      (0x019C, 0x019C, 1, 0x026F), (0x019D, 0x019D, 1, 0x0272), (0x019F, 0x019F, 1, 0x0275),
      (0x01A0, 0x01A4, 2, 0x01A1), (0x01A6, 0x01A6, 1, 0x0280), (0x01A7, 0x01A7, 1, 0x01A8),
      (0x01A9, 0x01A9, 1, 0x0283), (0x01AC, 0x01AC, 1, 0x01AD), (0x01AE, 0x01AE, 1, 0x0288),
      (0x01AF, 0x01AF, 1, 0x01B0), (0x01B1, 0x01B2, 1, 0x028A), (0x01B3, 0x01B5, 2, 0x01B4),
      (0x01B7, 0x01B7, 1, 0x0292), (0x01B8, 0x01B8, 1, 0x01B9), (0x01BC, 0x01BC, 1, 0x01BD),
      (0x01C4, 0x01C4, 1, 0x01C6), (0x01C5, 0x01C5, 1, 0x01C6), (0x01C7, 0x01C7, 1, 0x01C9),
      (0x01C8, 0x01C8, 1, 0x01C9), (0x01CA, 0x01CA, 1, 0x01CC), (0x01CB, 0x01DB, 2, 0x01CC),
      (0x01DE, 0x01EE, 2, 0x01DF), (0x01F1, 0x01F1, 1, 0x01F3), (0x01F2, 0x01F4, 2, 0x01F3),
      (0x01F6, 0x01F6, 1, 0x0195), (0x01F7, 0x01F7, 1, 0x01BF), (0x01F8, 0x01FE, 2, 0x01F9)]),
   (0x02, [(0x0200, 0x021E, 2, 0x0201), (0x0220, 0x0220, 1, 0x019E), (0x0222, 0x0232, 2, 0x0223),
      (0x023A, 0x023A, 1, 0x2C65), (0x023B, 0x023B, 1, 0x023C), (0x023D, 0x023D, 1, 0x019A),
      (0x023E, 0x023E, 1, 0x2C66), (0x0241, 0x0241, 1, 0x0242), (0x0243, 0x0243, 1, 0x0180),
      (0x0244, 0x0244, 1, 0x0289), (0x0245, 0x0245, 1, 0x028C), (0x0246, 0x024E, 2, 0x0247)]),
   (0x03, [(0x0370, 0x0372, 2, 0x0371), (0x0376, 0x0376, 1, 0x0377), (0x037F, 0x037F, 1, 0x03F3),
      (0x0386, 0x0386, 1, 0x03AC), (0x0388, 0x038A, 1, 0x03AD), (0x038C, 0x038C, 1, 0x03CC),
      (0x038E, 0x038F, 1, 0x03CD), (0x0391, 0x03A1, 1, 0x03B1), (0x03A3, 0x03AB, 1, 0x03C3),
      (0x03CF, 0x03CF, 1, 0x03D7), (0x03D8, 0x03EE, 2, 0x03D9), (0x03F4, 0x03F4, 1, 0x03B8),
      (0x03F7, 0x03F7, 1, 0x03F8), (0x03F9, 0x03F9, 1, 0x03F2), (0x03FA, 0x03FA, 1, 0x03FB),
      (0x03FD, 0x03FF, 1, 0x037B)]),
   (0x04, [(0x0400, 0x040F, 1, 0x0450), (0x0410, 0x042F, 1, 0x0430), (0x0460, 0x0480, 2, 0x0461),
      (0x048A, 0x04BE, 2, 0x048B), (0x04C0, 0x04C0, 1, 0x04CF), (0x04C1, 0x04CD, 2, 0x04C2),
      (0x04D0, 0x04FE, 2, 0x04D1)]),
   (0x05, [(0x0500, 0x052E, 2, 0x0501), (0x0531, 0x0556, 1, 0x0561)]),
   (0x10, [(0x10A0, 0x10C5, 1, 0x2D00), (0x10C7, 0x10C7, 1, 0x2D27), (0x10CD, 0x10CD, 1, 0x2D2D)]),
   (0x13, [(0x13A0, 0x13EF, 1, 0xAB70), (0x13F0, 0x13F5, 1, 0x13F8)]),
   (0x1C, [(0x1C90, 0x1CBA, 1, 0x10D0), (0x1CBD, 0x1CBF, 1, 0x10FD)]),
   (0x1E, [(0x1E00, 0x1E94, 2, 0x1E01), (0x1E9E, 0x1E9E, 1, 0x00DF), (0x1EA0, 0x1EFE, 2, 0x1EA1)]),
   (0x1F, [(0x1F08, 0x1F0F, 1, 0x1F00), (0x1F18, 0x1F1D, 1, 0x1F10), (0x1F28, 0x1F2F, 1, 0x1F20),
      (0x1F38, 0x1F3F, 1, 0x1F30), (0x1F48, 0x1F4D, 1, 0x1F40), (0x1F59, 0x1F5F, 2, 0x1F51),
      (0x1F68, 0x1F6F, 1, 0x1F60), (0x1F88, 0x1F8F, 1, 0x1F80), (0x1F98, 0x1F9F, 1, 0x1F90),
      (0x1FA8, 0x1FAF, 1, 0x1FA0), (0x1FB8, 0x1FB9, 1, 0x1FB0), (0x1FBA, 0x1FBB, 1, 0x1F70),
      (0x1FBC, 0x1FBC, 1, 0x1FB3), (0x1FC8, 0x1FCB, 1, 0x1F72), (0x1FCC, 0x1FCC, 1, 0x1FC3),
      (0x1FD8, 0x1FD9, 1, 0x1FD0), (0x1FDA, 0x1FDB, 1, 0x1F76), (0x1FE8, 0x1FE9, 1, 0x1FE0),
      (0x1FEA, 0x1FEB, 1, 0x1F7A), (0x1FEC, 0x1FEC, 1, 0x1FE5), (0x1FF8, 0x1FF9, 1, 0x1F78),
      (0x1FFA, 0x1FFB, 1, 0x1F7C), (0x1FFC, 0x1FFC, 1, 0x1FF3)]),
   (0x21, [(0x2126, 0x2126, 1, 0x03C9), (0x212A, 0x212A, 1, 0x006B), (0x212B, 0x212B, 1, 0x00E5),
      (0x2132, 0x2132, 1, 0x214E), (0x2160, 0x216F, 1, 0x2170), (0x2183, 0x2183, 1, 0x2184)]),
   (0x24, [(0x24B6, 0x24CF, 1, 0x24D0)]),
   (0x2C, [(0x2C00, 0x2C2F, 1, 0x2C30), (0x2C60, 0x2C60, 1, 0x2C61), (0x2C62, 0x2C62, 1, 0x026B),
      (0x2C63, 0x2C63, 1, 0x1D7D), (0x2C64, 0x2C64, 1, 0x027D), (0x2C67, 0x2C6B, 2, 0x2C68),
      (0x2C6D, 0x2C6D, 1, 0x0251), (0x2C6E, 0x2C6E, 1, 0x0271), (0x2C6F, 0x2C6F, 1, 0x0250),
      (0x2C70, 0x2C70, 1, 0x0252), (0x2C72, 0x2C72, 1, 0x2C73), (0x2C75, 0x2C75, 1, 0x2C76),
      (0x2C7E, 0x2C7F, 1, 0x023F), (0x2C80, 0x2CE2, 2, 0x2C81), (0x2CEB, 0x2CED, 2, 0x2CEC),
      (0x2CF2, 0x2CF2, 1, 0x2CF3)]),
   (0xA6, [(0xA640, 0xA66C, 2, 0xA641), (0xA680, 0xA69A, 2, 0xA681)]),
   (0xA7, [(0xA722, 0xA72E, 2, 0xA723), (0xA732, 0xA76E, 2, 0xA733), (0xA779, 0xA77B, 2, 0xA77A),
      (0xA77D, 0xA77D, 1, 0x1D79), (0xA77E, 0xA786, 2, 0xA77F), (0xA78B, 0xA78B, 1, 0xA78C),
      (0xA78D, 0xA78D, 1, 0x0265), (0xA790, 0xA792, 2, 0xA791), (0xA796, 0xA7A8, 2, 0xA797),
      (0xA7AA, 0xA7AA, 1, 0x0266), (0xA7AB, 0xA7AB, 1, 0x025C), (0xA7AC, 0xA7AC, 1, 0x0261),
      (0xA7AD, 0xA7AD, 1, 0x026C), (0xA7AE, 0xA7AE, 1, 0x026A), (0xA7B0, 0xA7B0, 1, 0x029E),
      (0xA7B1, 0xA7B1, 1, 0x0287), (0xA7B2, 0xA7B2, 1, 0x029D), (0xA7B3, 0xA7B3, 1, 0xAB53),
      (0xA7B4, 0xA7C2, 2, 0xA7B5), (0xA7C4, 0xA7C4, 1, 0xA794), (0xA7C5, 0xA7C5, 1, 0x0282),
      (0xA7C6, 0xA7C6, 1, 0x1D8E), (0xA7C7, 0xA7C9, 2, 0xA7C8), (0xA7D0, 0xA7D0, 1, 0xA7D1),
      (0xA7D6, 0xA7D8, 2, 0xA7D7), (0xA7F5, 0xA7F5, 1, 0xA7F6)]),
   (0xFF, [(0xFF21, 0xFF3A, 1, 0xFF41)]),
   (0x104, [(0x10400, 0x10427, 1, 0x10428), (0x104B0, 0x104D3, 1, 0x104D8)]),
   (0x105, [(0x10570, 0x1057A, 1, 0x10597), (0x1057C, 0x1058A, 1, 0x105A3),
      (0x1058C, 0x10592, 1, 0x105B3), (0x10594, 0x10595, 1, 0x105BB)]),
   (0x10C, [(0x10C80, 0x10CB2, 1, 0x10CC0)]),
   (0x118, [(0x118A0, 0x118BF, 1, 0x118C0)]),
   (0x16E, [(0x16E40, 0x16E5F, 1, 0x16E60)]),
   (0x1E9, [(0x1E900, 0x1E921, 1, 0x1E922)])]

/-- The ranges of the characters with the property `Case_Ignorable` (Unicode 14.0). -/
def caseIgnorableRanges : List (Nat × Nat) :=
  [(0x0027, 0x0027), (0x002E, 0x002E), (0x003A, 0x003A), (0x005E, 0x005E), (0x0060, 0x0060), (0x00A8, 0x00A8),
   (0x00AD, 0x00AD), (0x00AF, 0x00AF), (0x00B4, 0x00B4), (0x00B7, 0x00B8), (0x02B0, 0x036F), (0x0374, 0x0375),
   (0x037A, 0x037A), (0x0384, 0x0385), (0x0387, 0x0387), (0x0483, 0x0489), (0x0559, 0x0559), (0x055F, 0x055F),
   (0x0591, 0x05BD), (0x05BF, 0x05BF), (0x05C1, 0x05C2), (0x05C4, 0x05C5), (0x05C7, 0x05C7), (0x05F4, 0x05F4),
   (0x0600, 0x0605), (0x0610, 0x061A), (0x061C, 0x061C), (0x0640, 0x0640), (0x064B, 0x065F), (0x0670, 0x0670),
   (0x06D6, 0x06DD), (0x06DF, 0x06E8), (0x06EA, 0x06ED), (0x070F, 0x070F), (0x0711, 0x0711), (0x0730, 0x074A),
   (0x07A6, 0x07B0), (0x07EB, 0x07F5), (0x07FA, 0x07FA), (0x07FD, 0x07FD), (0x0816, 0x082D), (0x0859, 0x085B),
   (0x0888, 0x0888), (0x0890, 0x0891), (0x0898, 0x089F), (0x08C9, 0x0902), (0x093A, 0x093A), (0x093C, 0x093C),
   (0x0941, 0x0948), (0x094D, 0x094D), (0x0951, 0x0957), (0x0962, 0x0963), (0x0971, 0x0971), (0x0981, 0x0981),
   (0x09BC, 0x09BC), (0x09C1, 0x09C4), (0x09CD, 0x09CD), (0x09E2, 0x09E3), (0x09FE, 0x09FE), (0x0A01, 0x0A02),
   (0x0A3C, 0x0A3C), (0x0A41, 0x0A42), (0x0A47, 0x0A48), (0x0A4B, 0x0A4D), (0x0A51, 0x0A51), (0x0A70, 0x0A71),
   (0x0A75, 0x0A75), (0x0A81, 0x0A82), (0x0ABC, 0x0ABC), (0x0AC1, 0x0AC5), (0x0AC7, 0x0AC8), (0x0ACD, 0x0ACD),
   (0x0AE2, 0x0AE3), (0x0AFA, 0x0AFF), (0x0B01, 0x0B01), (0x0B3C, 0x0B3C), (0x0B3F, 0x0B3F), (0x0B41, 0x0B44),
   (0x0B4D, 0x0B4D), (0x0B55, 0x0B56), (0x0B62, 0x0B63), (0x0B82, 0x0B82), (0x0BC0, 0x0BC0), (0x0BCD, 0x0BCD),
   (0x0C00, 0x0C00), (0x0C04, 0x0C04), (0x0C3C, 0x0C3C), (0x0C3E, 0x0C40), (0x0C46, 0x0C48), (0x0C4A, 0x0C4D),
   (0x0C55, 0x0C56), (0x0C62, 0x0C63), (0x0C81, 0x0C81), (0x0CBC, 0x0CBC), (0x0CBF, 0x0CBF), (0x0CC6, 0x0CC6),
   (0x0CCC, 0x0CCD), (0x0CE2, 0x0CE3), (0x0D00, 0x0D01), (0x0D3B, 0x0D3C), (0x0D41, 0x0D44), (0x0D4D, 0x0D4D),
   (0x0D62, 0x0D63), (0x0D81, 0x0D81), (0x0DCA, 0x0DCA), (0x0DD2, 0x0DD4), (0x0DD6, 0x0DD6), (0x0E31, 0x0E31),
   (0x0E34, 0x0E3A), (0x0E46, 0x0E4E), (0x0EB1, 0x0EB1), (0x0EB4, 0x0EBC), (0x0EC6, 0x0EC6), (0x0EC8, 0x0ECD),
   (0x0F18, 0x0F19), (0x0F35, 0x0F35), (0x0F37, 0x0F37), (0x0F39, 0x0F39), (0x0F71, 0x0F7E), (0x0F80, 0x0F84),
   (0x0F86, 0x0F87), (0x0F8D, 0x0F97), (0x0F99, 0x0FBC), (0x0FC6, 0x0FC6), (0x102D, 0x1030), (0x1032, 0x1037),
   (0x1039, 0x103A), (0x103D, 0x103E), (0x1058, 0x1059), (0x105E, 0x1060), (0x1071, 0x1074), (0x1082, 0x1082),
   (0x1085, 0x1086), (0x108D, 0x108D), (0x109D, 0x109D), (0x10FC, 0x10FC), (0x135D, 0x135F), (0x1712, 0x1714),
   (0x1732, 0x1733), (0x1752, 0x1753), (0x1772, 0x1773), (0x17B4, 0x17B5), (0x17B7, 0x17BD), (0x17C6, 0x17C6),
   (0x17C9, 0x17D3), (0x17D7, 0x17D7), (0x17DD, 0x17DD), (0x180B, 0x180F), (0x1843, 0x1843), (0x1885, 0x1886),
   (0x18A9, 0x18A9), (0x1920, 0x1922), (0x1927, 0x1928), (0x1932, 0x1932), (0x1939, 0x193B), (0x1A17, 0x1A18),
   (0x1A1B, 0x1A1B), (0x1A56, 0x1A56), (0x1A58, 0x1A5E), (0x1A60, 0x1A60), (0x1A62, 0x1A62), (0x1A65, 0x1A6C),
   (0x1A73, 0x1A7C), (0x1A7F, 0x1A7F), (0x1AA7, 0x1AA7), (0x1AB0, 0x1ACE), (0x1B00, 0x1B03), (0x1B34, 0x1B34),
   (0x1B36, 0x1B3A), (0x1B3C, 0x1B3C), (0x1B42, 0x1B42), (0x1B6B, 0x1B73), (0x1B80, 0x1B81), (0x1BA2, 0x1BA5),
   (0x1BA8, 0x1BA9), (0x1BAB, 0x1BAD), (0x1BE6, 0x1BE6), (0x1BE8, 0x1BE9), (0x1BED, 0x1BED), (0x1BEF, 0x1BF1),
   (0x1C2C, 0x1C33), (0x1C36, 0x1C37), (0x1C78, 0x1C7D), (0x1CD0, 0x1CD2), (0x1CD4, 0x1CE0), (0x1CE2, 0x1CE8),
   (0x1CED, 0x1CED), (0x1CF4, 0x1CF4), (0x1CF8, 0x1CF9), (0x1D2C, 0x1D6A), (0x1D78, 0x1D78), (0x1D9B, 0x1DFF),
   (0x1FBD, 0x1FBD), (0x1FBF, 0x1FC1), (0x1FCD, 0x1FCF), (0x1FDD, 0x1FDF), (0x1FED, 0x1FEF), (0x1FFD, 0x1FFE),
   (0x200B, 0x200F), (0x2018, 0x2019), (0x2024, 0x2024), (0x2027, 0x2027), (0x202A, 0x202E), (0x2060, 0x2064),
   (0x2066, 0x206F), (0x2071, 0x2071), (0x207F, 0x207F), (0x2090, 0x209C), (0x20D0, 0x20F0), (0x2C7C, 0x2C7D),
   (0x2CEF, 0x2CF1), (0x2D6F, 0x2D6F), (0x2D7F, 0x2D7F), (0x2DE0, 0x2DFF), (0x2E2F, 0x2E2F), (0x3005, 0x3005),
   (0x302A, 0x302D), (0x3031, 0x3035), (0x303B, 0x303B), (0x3099, 0x309E), (0x30FC, 0x30FE), (0xA015, 0xA015),
   (0xA4F8, 0xA4FD), (0xA60C, 0xA60C), (0xA66F, 0xA672), (0xA674, 0xA67D), (0xA67F, 0xA67F), (0xA69C, 0xA69F),
   (0xA6F0, 0xA6F1), (0xA700, 0xA721), (0xA770, 0xA770), (0xA788, 0xA78A), (0xA7F2, 0xA7F4), (0xA7F8, 0xA7F9),
   (0xA802, 0xA802), (0xA806, 0xA806), (0xA80B, 0xA80B), (0xA825, 0xA826), (0xA82C, 0xA82C), (0xA8C4, 0xA8C5),
   (0xA8E0, 0xA8F1), (0xA8FF, 0xA8FF), (0xA926, 0xA92D), (0xA947, 0xA951), (0xA980, 0xA982), (0xA9B3, 0xA9B3),
   (0xA9B6, 0xA9B9), (0xA9BC, 0xA9BD), (0xA9CF, 0xA9CF), (0xA9E5, 0xA9E6), (0xAA29, 0xAA2E), (0xAA31, 0xAA32),
   (0xAA35, 0xAA36), (0xAA43, 0xAA43), (0xAA4C, 0xAA4C), (0xAA70, 0xAA70), (0xAA7C, 0xAA7C), (0xAAB0, 0xAAB0),
   (0xAAB2, 0xAAB4), (0xAAB7, 0xAAB8), (0xAABE, 0xAABF), (0xAAC1, 0xAAC1), (0xAADD, 0xAADD), (0xAAEC, 0xAAED),
   (0xAAF3, 0xAAF4), (0xAAF6, 0xAAF6), (0xAB5B, 0xAB5F), (0xAB69, 0xAB6B), (0xABE5, 0xABE5), (0xABE8, 0xABE8),
   (0xABED, 0xABED), (0xFB1E, 0xFB1E), (0xFBB2, 0xFBC2), (0xFE00, 0xFE0F), (0xFE13, 0xFE13), (0xFE20, 0xFE2F),
   (0xFE52, 0xFE52), (0xFE55, 0xFE55), (0xFEFF, 0xFEFF), (0xFF07, 0xFF07), (0xFF0E, 0xFF0E), (0xFF1A, 0xFF1A),
   (0xFF3E, 0xFF3E), (0xFF40, 0xFF40), (0xFF70, 0xFF70), (0xFF9E, 0xFF9F), (0xFFE3, 0xFFE3), (0xFFF9, 0xFFFB),
   (0x101FD, 0x101FD), (0x102E0, 0x102E0), (0x10376, 0x1037A), (0x10780, 0x10785), (0x10787, 0x107B0), (0x107B2, 0x107BA),
   (0x10A01, 0x10A03), (0x10A05, 0x10A06), (0x10A0C, 0x10A0F), (0x10A38, 0x10A3A), (0x10A3F, 0x10A3F), (0x10AE5, 0x10AE6),
   (0x10D24, 0x10D27), (0x10EAB, 0x10EAC), (0x10F46, 0x10F50), (0x10F82, 0x10F85), (0x11001, 0x11001), (0x11038, 0x11046),
   (0x11070, 0x11070), (0x11073, 0x11074), (0x1107F, 0x11081), (0x110B3, 0x110B6), (0x110B9, 0x110BA), (0x110BD, 0x110BD),
   (0x110C2, 0x110C2), (0x110CD, 0x110CD), (0x11100, 0x11102), (0x11127, 0x1112B), (0x1112D, 0x11134), (0x11173, 0x11173),
   (0x11180, 0x11181), (0x111B6, 0x111BE), (0x111C9, 0x111CC), (0x111CF, 0x111CF), (0x1122F, 0x11231), (0x11234, 0x11234),
   (0x11236, 0x11237), (0x1123E, 0x1123E), (0x112DF, 0x112DF), (0x112E3, 0x112EA), (0x11300, 0x11301), (0x1133B, 0x1133C),
   (0x11340, 0x11340), (0x11366, 0x1136C), (0x11370, 0x11374), (0x11438, 0x1143F), (0x11442, 0x11444), (0x11446, 0x11446),
   (0x1145E, 0x1145E), (0x114B3, 0x114B8), (0x114BA, 0x114BA), (0x114BF, 0x114C0), (0x114C2, 0x114C3), (0x115B2, 0x115B5),
   (0x115BC, 0x115BD), (0x115BF, 0x115C0), (0x115DC, 0x115DD), (0x11633, 0x1163A), (0x1163D, 0x1163D), (0x1163F, 0x11640),
   (0x116AB, 0x116AB), (0x116AD, 0x116AD), (0x116B0, 0x116B5), (0x116B7, 0x116B7), (0x1171D, 0x1171F), (0x11722, 0x11725),
   (0x11727, 0x1172B), (0x1182F, 0x11837), (0x11839, 0x1183A), (0x1193B, 0x1193C), (0x1193E, 0x1193E), (0x11943, 0x11943),
   (0x119D4, 0x119D7), (0x119DA, 0x119DB), (0x119E0, 0x119E0), (0x11A01, 0x11A0A), (0x11A33, 0x11A38), (0x11A3B, 0x11A3E),
   (0x11A47, 0x11A47), (0x11A51, 0x11A56), (0x11A59, 0x11A5B), (0x11A8A, 0x11A96), (0x11A98, 0x11A99), (0x11C30, 0x11C36),
   (0x11C38, 0x11C3D), (0x11C3F, 0x11C3F), (0x11C92, 0x11CA7), (0x11CAA, 0x11CB0), (0x11CB2, 0x11CB3), (0x11CB5, 0x11CB6),
   (0x11D31, 0x11D36), (0x11D3A, 0x11D3A), (0x11D3C, 0x11D3D), (0x11D3F, 0x11D45), (0x11D47, 0x11D47), (0x11D90, 0x11D91),
   (0x11D95, 0x11D95), (0x11D97, 0x11D97), (0x11EF3, 0x11EF4), (0x13430, 0x13438), (0x16AF0, 0x16AF4), (0x16B30, 0x16B36),
   (0x16B40, 0x16B43), (0x16F4F, 0x16F4F), (0x16F8F, 0x16F9F), (0x16FE0, 0x16FE1), (0x16FE3, 0x16FE4), (0x1AFF0, 0x1AFF3),
   (0x1AFF5, 0x1AFFB), (0x1AFFD, 0x1AFFE), (0x1BC9D, 0x1BC9E), (0x1BCA0, 0x1BCA3), (0x1CF00, 0x1CF2D), (0x1CF30, 0x1CF46),
   (0x1D167, 0x1D169), (0x1D173, 0x1D182), (0x1D185, 0x1D18B), (0x1D1AA, 0x1D1AD), (0x1D242, 0x1D244), (0x1DA00, 0x1DA36),
   (0x1DA3B, 0x1DA6C), (0x1DA75, 0x1DA75), (0x1DA84, 0x1DA84), (0x1DA9B, 0x1DA9F), (0x1DAA1, 0x1DAAF), (0x1E000, 0x1E006),
   (0x1E008, 0x1E018), (0x1E01B, 0x1E021), (0x1E023, 0x1E024), (0x1E026, 0x1E02A), (0x1E130, 0x1E13D), (0x1E2AE, 0x1E2AE),
   (0x1E2EC, 0x1E2EF), (0x1E8D0, 0x1E8D6), (0x1E944, 0x1E94B), (0x1F3FB, 0x1F3FF), (0xE0001, 0xE0001), (0xE0020, 0xE007F),
   (0xE0100, 0xE01EF)]

/-- The ranges of the characters with the property `Cased` and without the property
`Case_Ignorable` (Unicode 14.0). -/
def casedRanges : List (Nat × Nat) :=
  [(0x0041, 0x005A), (0x0061, 0x007A), (0x00AA, 0x00AA), (0x00B5, 0x00B5), (0x00BA, 0x00BA), (0x00C0, 0x00D6),
   (0x00D8, 0x00F6), (0x00F8, 0x01BA), (0x01BC, 0x01BF), (0x01C4, 0x0293), (0x0295, 0x02AF), (0x0370, 0x0373),
   (0x0376, 0x0377), (0x037B, 0x037D), (0x037F, 0x037F), (0x0386, 0x0386), (0x0388, 0x038A), (0x038C, 0x038C),
   (0x038E, 0x03A1), (0x03A3, 0x03F5), (0x03F7, 0x0481), (0x048A, 0x052F), (0x0531, 0x0556), (0x0560, 0x0588),
   (0x10A0, 0x10C5), (0x10C7, 0x10C7), (0x10CD, 0x10CD), (0x10D0, 0x10FA), (0x10FD, 0x10FF), (0x13A0, 0x13F5),
   (0x13F8, 0x13FD), (0x1C80, 0x1C88), (0x1C90, 0x1CBA), (0x1CBD, 0x1CBF), (0x1D00, 0x1D2B), (0x1D6B, 0x1D77),
   (0x1D79, 0x1D9A), (0x1E00, 0x1F15), (0x1F18, 0x1F1D), (0x1F20, 0x1F45), (0x1F48, 0x1F4D), (0x1F50, 0x1F57),
   (0x1F59, 0x1F59), (0x1F5B, 0x1F5B), (0x1F5D, 0x1F5D), (0x1F5F, 0x1F7D), (0x1F80, 0x1FB4), (0x1FB6, 0x1FBC),
   (0x1FBE, 0x1FBE), (0x1FC2, 0x1FC4), (0x1FC6, 0x1FCC), (0x1FD0, 0x1FD3), (0x1FD6, 0x1FDB), (0x1FE0, 0x1FEC),
   (0x1FF2, 0x1FF4), (0x1FF6, 0x1FFC), (0x2102, 0x2102), (0x2107, 0x2107), (0x210A, 0x2113), (0x2115, 0x2115),
   (0x2119, 0x211D), (0x2124, 0x2124), (0x2126, 0x2126), (0x2128, 0x2128), (0x212A, 0x212D), (0x212F, 0x2134),
   (0x2139, 0x2139), (0x213C, 0x213F), (0x2145, 0x2149), (0x214E, 0x214E), (0x2160, 0x217F), (0x2183, 0x2184),
   (0x24B6, 0x24E9), (0x2C00, 0x2C7B), (0x2C7E, 0x2CE4), (0x2CEB, 0x2CEE), (0x2CF2, 0x2CF3), (0x2D00, 0x2D25),
   (0x2D27, 0x2D27), (0x2D2D, 0x2D2D), (0xA640, 0xA66D), (0xA680, 0xA69B), (0xA722, 0xA76F), (0xA771, 0xA787),
   (0xA78B, 0xA78E), (0xA790, 0xA7CA), (0xA7D0, 0xA7D1), (0xA7D3, 0xA7D3), (0xA7D5, 0xA7D9), (0xA7F5, 0xA7F6),
   (0xA7FA, 0xA7FA), (0xAB30, 0xAB5A), (0xAB60, 0xAB68), (0xAB70, 0xABBF), (0xFB00, 0xFB06), (0xFB13, 0xFB17),
   (0xFF21, 0xFF3A), (0xFF41, 0xFF5A), (0x10400, 0x1044F), (0x104B0, 0x104D3), (0x104D8, 0x104FB), (0x10570, 0x1057A),
   (0x1057C, 0x1058A), (0x1058C, 0x10592), (0x10594, 0x10595), (0x10597, 0x105A1), (0x105A3, 0x105B1), (0x105B3, 0x105B9),
   (0x105BB, 0x105BC), (0x10C80, 0x10CB2), (0x10CC0, 0x10CF2), (0x118A0, 0x118DF), (0x16E40, 0x16E7F), (0x1D400, 0x1D454),
   (0x1D456, 0x1D49C), (0x1D49E, 0x1D49F), (0x1D4A2, 0x1D4A2), (0x1D4A5, 0x1D4A6), (0x1D4A9, 0x1D4AC), (0x1D4AE, 0x1D4B9),
   (0x1D4BB, 0x1D4BB), (0x1D4BD, 0x1D4C3), (0x1D4C5, 0x1D505), (0x1D507, 0x1D50A), (0x1D50D, 0x1D514), (0x1D516, 0x1D51C),
   (0x1D51E, 0x1D539), (0x1D53B, 0x1D53E), (0x1D540, 0x1D544), (0x1D546, 0x1D546), (0x1D54A, 0x1D550), (0x1D552, 0x1D6A5),
   (0x1D6A8, 0x1D6C0), (0x1D6C2, 0x1D6DA), (0x1D6DC, 0x1D6FA), (0x1D6FC, 0x1D714), (0x1D716, 0x1D734), (0x1D736, 0x1D74E),
   (0x1D750, 0x1D76E), (0x1D770, 0x1D788), (0x1D78A, 0x1D7A8), (0x1D7AA, 0x1D7C2), (0x1D7C4, 0x1D7CB), (0x1DF00, 0x1DF09),
   (0x1DF0B, 0x1DF1E), (0x1E900, 0x1E943), (0x1F130, 0x1F149), (0x1F150, 0x1F169), (0x1F170, 0x1F189)]

/-- The run of `lowerCasePages` that holds the code point `n`, if any. -/
def lowerCaseRun (n : Nat) : Option (Nat × Nat × Nat × Nat) :=
  match lowerCasePages.find? fun p => p.1 == n / 256 with
  | some p =>
    p.2.find? fun r =>
      decide (r.1 ≤ n) && decide (n ≤ r.2.1) && decide ((n - r.1) % r.2.2.1 = 0)
  | none => none

/-- The lower case of one character apart from its context: `Char.toLower` on ASCII
and the table elsewhere; U+0130 becomes `i` followed by U+0307. -/
def lowerChar (c : Char) : List Char :=
  if c.toNat < 128 then [c.toLower]
  else if c.toNat = 0x130 then ['i', Char.ofNat 0x307]
  else
    match lowerCaseRun c.toNat with
    | some r => [Char.ofNat (r.2.2.2 + (c.toNat - r.1))]
    | none => [c]

/-- The code point lies in one of the ranges. -/
def inRanges (ranges : List (Nat × Nat)) (n : Nat) : Bool :=
  ranges.any fun r => decide (r.1 ≤ n) && decide (n ≤ r.2)

/-- The next character that is not case-ignorable exists and is cased. -/
def casedNext : List Char → Bool
  | [] => false
  | c :: rest =>
    if inRanges caseIgnorableRanges c.toNat then casedNext rest
    else inRanges casedRanges c.toNat

/-- The condition `Final_Sigma` of the Unicode case algorithm, for the characters
before (nearest first) and after a capital sigma: a cased letter comes before, and
none comes after, case-ignorable characters skipped. -/
def finalSigma (before after : List Char) : Bool := casedNext before && !casedNext after

/-- The scan of `toLowerCase`; `before` holds the characters already passed, nearest
first. -/
def lowerGo (before : List Char) : List Char → List Char
  | [] => []
  | c :: rest =>
    (if c.toNat = 0x3A3 then
        [if finalSigma before rest then Char.ofNat 0x3C2 else Char.ofNat 0x3C3]
      else lowerChar c) ++ lowerGo (c :: before) rest

/-- The call `message.toLowerCase()`: the lower-case mapping of the Unicode default
case conversion, with the context rule for a final sigma; no locale is involved. -/
def toLowerCase (s : List Char) : List Char := lowerGo [] s

/-- The case mapping of ASCII letters, character by character; on ASCII text
`toLowerCase` is this map. -/
def lowerAscii (s : List Char) : List Char := s.map Char.toLower

/-- Lower-casing leaves the character as it is, whatever its context. -/
def isLowered (c : Char) : Bool := c.toNat != 0x3A3 && lowerChar c == [c]

/-- White space and line terminators of ECMAScript, the characters `trim` strips. -/
def isJsWhiteSpace (c : Char) : Bool :=
  c.toNat ∈ [0x09, 0x0A, 0x0B, 0x0C, 0x0D, 0x20, 0xA0, 0x1680, 0x2028, 0x2029,
    0x202F, 0x205F, 0x3000, 0xFEFF] || (0x2000 ≤ c.toNat && c.toNat ≤ 0x200A)

/-- The call `s.trim()`. -/
def trim (s : List Char) : List Char :=
  ((s.dropWhile isJsWhiteSpace).reverse.dropWhile isJsWhiteSpace).reverse

/-- Word characters of a regular expression without the `u` flag: `[A-Za-z0-9_]`. -/
def isWordChar (c : Char) : Bool := c.isAlphanum || c == '_'

/-- The assertion `\b` between two neighbouring positions: exactly one side is
a word character (`none` is the start or the end of the string). -/
def wordBoundary (before after : Option Char) : Bool :=
  (before.map isWordChar).getD false != (after.map isWordChar).getD false

/-- The pattern characters match a prefix of `s` under the `i` flag. -/
def matchesAt : List Char → List Char → Bool
  | [], _ => true
  | _ :: _, [] => false
  | p :: ps, c :: cs => (p.toLower == c.toLower) && matchesAt ps cs

/-- The expression `\btypo\b` matches at the start of `s`, where `before` is the
character in front of `s`. -/
def wordMatchAt (typo : List Char) (before : Option Char) (s : List Char) : Bool :=
  wordBoundary before s.head? && matchesAt typo s &&
    wordBoundary (s.take typo.length).getLast? (s.drop typo.length).head?

/-- The scan of a global `replace`: `before` is the previous character of the
subject and `skip` counts the characters of the current match still to be
consumed. Matches are found left to right and do not overlap. -/
def replaceGo (typo canonical : List Char) : Option Char → Nat → List Char → List Char
  | _, _, [] => []
  | before, skip, c :: rest =>
    if skip > 0 then replaceGo typo canonical (some c) (skip - 1) rest
    else if wordMatchAt typo before (c :: rest) then
      canonical ++ replaceGo typo canonical (some c) (typo.length - 1) rest
    else c :: replaceGo typo canonical (some c) 0 rest

/-- The call `normalized.replace(new RegExp("\\b" + typo + "\\b", "gi"), canonical)`
for a key `typo` of `typoMap` (a non-empty word of letters). -/
def replaceTypo (typo canonical : String) (normalized : List Char) : List Char :=
  replaceGo typo.data canonical.data none 0 normalized

/-- The table `typoMap`, in the order of `Object.keys`. -/
def typoMap : List (String × String) :=
  [("staus", "status"), ("stauts", "status"), ("satus", "status"),
   ("gird", "grid"), ("girds", "grid"),
   ("critcal", "critical"), ("critica", "critical"),
   ("zonse", "zones"), ("zons", "zones"),
   ("aler", "alert"), ("alrt", "alert"),
   ("hosptial", "hospital"), ("hospitl", "hospital"),
   ("breech", "breach"),
   ("restor", "restoration"), ("restoraion", "restoration"),
   ("repiar", "repair"), ("repir", "repair"),
   ("explin", "explain"), ("explan", "explain"),
   ("shw", "show"), ("opn", "open"), ("navigat", "navigate"), ("tak", "take"),
   ("hlp", "help"), ("asist", "assist"), ("assit", "assist")]

/-- The method `normalizeMessage`; `none` is a `null` or `undefined` argument. -/
def normalizeMessage (message : Option String) : String :=
  match message with
  | none => ""
  | some m =>
    if m.data.isEmpty then ""
    else
      String.mk (typoMap.foldl (fun normalized entry => replaceTypo entry.1 entry.2 normalized)
        (trim (toLowerCase m.data)))

/-- The method `matchesPattern`: `keywords.some(keyword => message.includes(keyword))`. -/
def matchesPattern (message : String) (keywords : List String) : Bool :=
  keywords.any (fun keyword => includes message keyword)

/-- The field `risk_distribution` of the statistics object. -/
structure RiskDistribution where
  Medium : Option Int
  Low : Option Int
deriving DecidableEq, Repr

/-- The statistics object `res.data`; an absent field is `none`. -/
structure GridStats where
  critical_zones : Option Int
  high_risk_zones : Option Int
  total_zones : Option Int
  risk_distribution : Option RiskDistribution
deriving DecidableEq, Repr

/-- The field `context` of the engine. -/
structure Context where
  currentTab : String
  gridStats : Option GridStats
  lastQuery : Option String
deriving DecidableEq, Repr

/-- What `getResponse` resolves to: a plain string or the object
`\x7b text, action, target \x7d`. -/
inductive Response where
  | text (s : String)
  | directive (text : String) (action : String) (target : String)
deriving DecidableEq, Repr

/-- The array `greetings` of `getGreeting`. -/
def greetings : List String :=
  ["👋 Hello! I'm ElectroWizard AI Assistant. I can help you analyze the power grid, identify critical zones, and guide restoration decisions. What would you like to know?",
   "Hi there! I'm here to assist with grid management. Ask me about zone status, risk levels, or restoration priorities.",
   "Welcome! I can provide real-time grid insights and decision support. How can I help you today?"]

/-- The method `getGreeting`; `rnd` is the value of
`Math.floor(Math.random() * greetings.length)`. -/
def getGreeting (rnd : Fin 3) : String :=
  greetings.getD rnd.val ""

/-- The expression `value || fallback` on a numeric field: `0` and an absent
value are falsy. -/
def orDefault (value : Option Int) (fallback : Int) : Int :=
  match value with
  | some n => if n = 0 then fallback else n
  | none => fallback

/-- The method `getGridStatus`. -/
def getGridStatus (context : Context) : String :=
  match context.gridStats with
  | none => "⚡ **Current Grid Status:**\n- I'm fetching the latest data...\n- Please ask again in a moment."
  | some stats =>
    "⚡ **Live Grid Status Update:**\n\n📊 Zone Distribution:\n- 🔴 Critical: "
      ++ toString (orDefault stats.critical_zones 687)
      ++ "\n- 🟠 High Risk: " ++ toString (orDefault stats.high_risk_zones 58)
      ++ "\n- 🟡 Medium: "
      ++ toString (orDefault (stats.risk_distribution.bind (fun d => d.Medium)) 206)
      ++ "\n- 🟢 Low Risk: "
      ++ toString (orDefault (stats.risk_distribution.bind (fun d => d.Low)) 49)
      ++ "\n\n💡 Total Monitored Zones: " ++ toString (orDefault stats.total_zones 1000)
      ++ "\n\nWould you like details on any specific zone?"

/-- The method `getCriticalZones`. -/
def getCriticalZones : String :=
  "🚨 **Critical Zone Alert:**\n\n687 zones are currently marked as CRITICAL priority.\n\n**Top Concerns:**\n1. High hospital density areas\n2. Major industrial zones\n3. High population density regions\n\n**Recommended Action:**\n- View the Risk Map for detailed locations\n- Check Restoration Planner for priority sequence\n- Review AI explanations for root causes\n\n[Would you like me to open the Risk Map?]"

/-- The method `getHelpMessage`. -/
def getHelpMessage : String :=
  "🤖 **I can help you with:**\n\n📊 **Grid Analysis:**\n- \"What's the current grid status?\"\n- \"Show me critical zones\"\n- \"How many breaches today?\"\n\n🔧 **Decision Support:**\n- \"What should I do about Zone X?\"\n- \"Show restoration plan\"\n- \"Explain this alert\"\n\n🗺️ **Navigation:**\n- \"Open the risk map\"\n- \"Take me to energy thresholds\"\n- \"Show hospital monitor\"\n\n💡 **AI Insights:**\n- \"Why is Zone X critical?\"\n- \"Predict next outage\"\n- \"Explain this failure\"\n\nJust ask naturally - I understand context!"

/-- The method `getBreachInfo`. -/
def getBreachInfo : String :=
  "⚠️ **Recent Breach Analysis:**\n\nLast 30 days: 12 threshold breaches detected\n\n**Most Recent:**\n- Location: Chennai Sector 4 Hub\n- Type: Hospital Energy Surge\n- Cause: Medical equipment spike (MRI + 3 ventilators)\n- Status: Auto-alert sent to supervisors\n\n**AI Diagnosis:**\nConfidence: 94%\nPredicted transformer failure in 45 mins if load not reduced.\n\n🔧 Automated rerouting already initiated.\n\n[View Energy Thresholds Tab for details]"

/-- The method `getRestorationGuidance`. -/
def getRestorationGuidance : String :=
  "🔧 **Restoration Guidance:**\n\n**Current Strategy:**\n- Phase 1: Critical (Healthcare) - 51 min ETA\n- Phase 2: High Priority (Industrial) - 81 min ETA\n- Phase 3: Medium Priority - 2.5 hrs ETA\n- Phase 4: Standard (Residential) - 4 hrs ETA\n\n**Active Crews:** 5 teams deployed\n\n**Optimization:**\nAI has sequenced repairs to minimize impact on critical infrastructure.\n\n💡 Total restoration time: 9h 15m\n\n[Open Restoration Planner for full details]"

/-- The method `getHospitalInfo`. -/
def getHospitalInfo : String :=
  "🏥 **Hospital Power Status:**\n\n**General Hospital Block A:**\n- Status: ⚠️ Running on Backup\n- Backup Duration: 45 mins remaining\n- ICU Patients: 12 active\n- Critical Equipment: 3 Ventilators + MRI Scanner\n\n**City Medical Center:**\n- Status: ⚠️ Generator Switch (G2 Active)\n- O2 Supply Stability: 92%\n- ICU Patients: 5\n\n🚨 URGENT: Hospital Block A requires priority restoration.\n\n[View Hospital Life-Support tab for real-time monitoring]"

/-- The plain string `getNavigationResponse` returns for no destination. -/
def navigationHelp : String :=
  "I can help you navigate! Try: 'Show me the risk map' or 'Open energy thresholds'"

/-- The method `getNavigationResponse`. -/
def getNavigationResponse (message : String) : Response :=
  if includes message "risk map" || includes message "map" then
    .directive "🗺️ Opening Risk Map visualization..." "navigate" "risk-map"
  else if includes message "energy" || includes message "threshold" then
    .directive "⚡ Taking you to Energy Thresholds..." "navigate" "energy"
  else if includes message "restoration" || includes message "plan" then
    .directive "🔧 Opening Restoration Planner..." "navigate" "restoration"
  else if includes message "hospital" then
    .directive "🏥 Navigating to Hospital Monitor..." "navigate" "hospital"
  else if includes message "ai" || includes message "explain" then
    .directive "🧠 Opening Explainable AI panel..." "navigate" "xai"
  else .text navigationHelp

/-- The method `getPredictionInfo`. -/
def getPredictionInfo : String :=
  "🔮 **AI Predictions:**\n\n**Next 24 Hours:**\n- Probability of new critical zone: 23%\n- Expected load spike: 6 PM - 9 PM\n- High-risk zones: 12 likely to escalate\n\n**Machine Learning Models Active:**\n- XGBoost Impact Predictor: 91.2% accuracy\n- Random Forest Classifier: 89.7%\n- Decision Tree (Explainable): 87.3%\n\n**Confidence Level:** HIGH\n\nRecommendation: Pre-position crews near T. Nagar and Guindy zones.\n\n[View AI Models tab for detailed analysis]"

/-- The method `getExplanation` (its argument is not used). -/
def getExplanation (_message : String) : String :=
  "🧠 **AI Explainability:**\n\nI use multiple AI models to analyze the grid:\n\n1. **XGBoost** - Predicts impact severity\n2. **Random Forest** - Classifies risk levels\n3. **Decision Tree** - Provides interpretable rules\n4. **K-Means** - Groups similar zones\n\n**How I make decisions:**\n- Analyze historical patterns\n- Consider real-time sensor data\n- Factor in critical infrastructure (hospitals, industries)\n- Apply SHAP values for transparency\n\nEvery prediction includes:\n- Confidence score\n- Contributing factors\n- Recommended actions\n\n[Check the XAI tab to see feature importance visualizations]"

/-- A test `/a|b|c/i.test(msg)` of `getSmartFallback`: one of the alternatives
occurs in `msg`. The subject is lower-cased and the alternatives are lower-case
words, so the `i` flag adds nothing. -/
def testAny (msg : String) (alternatives : List String) : Bool :=
  alternatives.any (fun a => includes msg a)

/-- The array `suggestions` of `getSmartFallback`, for the lower-cased `msg`. -/
def fallbackSuggestions (msg : String) : List String :=
  (if testAny msg ["zone", "area", "location", "sector", "region"] then
    ["💡 Try: 'Show critical zones' or 'What zones need attention?'"] else [])
  ++ (if testAny msg ["power", "energy", "electric", "load"] then
    ["💡 Ask: 'What's the grid status?' or 'Show energy levels'"] else [])
  ++ (if testAny msg ["break", "fail", "outage", "problem", "issue", "down"] then
    ["💡 Try: 'Show breach status' or 'What's the emergency?'"] else [])
  ++ (if testAny msg ["when", "time", "how long", "duration"] then
    ["💡 Ask: 'Show restoration timeline' or 'How long for repairs?'"] else [])
  ++ (if testAny msg ["where", "map", "show me", "find"] then
    ["💡 Say: 'Open the risk map' or 'Navigate to zones'"] else [])

/-- The generic capability menu, the last return of `getSmartFallback`. -/
def genericFallback : String :=
  "🤔 Hmm, I'm not sure about that specific question.\n\nI'm specialized in:\n\n⚡ Grid status & zone analysis\n🚨 Emergency alerts & breaches\n🗺️ Dashboard navigation\n🤖 AI predictions & insights\n\nTry: \"What's the grid status?\" or \"help\""

/-- A JavaScript exception. -/
inductive JsError where
  | typeError
deriving DecidableEq, Repr

/-- The method `getSmartFallback`; on `null` or `undefined` the call
`userMsg.toLowerCase()` throws a `TypeError`. -/
def getSmartFallback (userMsg : Option String) : Except JsError String :=
  match userMsg with
  | none => .error .typeError
  | some raw =>
    let msg := String.mk (toLowerCase raw.data)
    let suggestions := fallbackSuggestions msg
    if suggestions.length > 0 then
      .ok ("I think I can help with that!\n\n" ++ "\n".intercalate suggestions
        ++ "\n\n📚 Type \"help\" for all capabilities.")
    else .ok genericFallback

/-- What one call of `getResponse` does: the value the promise resolves to or
the exception it rejects with, the context afterwards, and whether
`api.getStatistics()` was called. -/
structure Outcome where
  result : Except JsError Response
  context : Context
  fetched : Bool

/-- The statistics step at the head of `getResponse`: when `context.gridStats`
is falsy the statistics are requested; `fetch` is the outcome of the request
(`none`: it failed, and the failure is caught and logged). -/
def refreshStats (context : Context) (fetch : Option GridStats) : Context × Bool :=
  match context.gridStats with
  | some _ => (context, false)
  | none =>
    match fetch with
    | some data => (⟨context.currentTab, some data, context.lastQuery⟩, true)
    | none => (context, true)

/-- The keyword dispatch of `getResponse`, after normalisation and the
statistics step: `message` is the normalised message, `context` the context
after the statistics step. -/
def dispatch (context : Context) (rnd : Fin 3) (userMessage : Option String)
    (message : String) : Except JsError Response :=
  if matchesPattern message ["hello", "hi", "hey", "start"] then
    .ok (.text (getGreeting rnd))
  else if matchesPattern message ["status", "grid", "current", "now"] then
    .ok (.text (getGridStatus context))
  else if matchesPattern message ["critical", "zones", "dangerous", "risk"] then
    .ok (.text getCriticalZones)
  else if matchesPattern message ["help", "what can you", "assist"] then
    .ok (.text getHelpMessage)
  else if matchesPattern message ["breach", "alert", "emergency"] then
    .ok (.text getBreachInfo)
  else if matchesPattern message ["restoration", "repair", "fix"] then
    .ok (.text getRestorationGuidance)
  else if matchesPattern message ["hospital", "medical"] then
    .ok (.text getHospitalInfo)
  else if matchesPattern message ["show", "navigate", "take me", "open"] then
    .ok (getNavigationResponse message)
  else if matchesPattern message ["predict", "forecast", "future"] then
    .ok (.text getPredictionInfo)
  else if matchesPattern message ["how", "why", "explain"] then
    .ok (.text (getExplanation message))
  else
    (getSmartFallback userMessage).map Response.text

/-- The method `getResponse`. `context` is the engine context before the
call, `fetch` the outcome of `api.getStatistics()` should it be called, `rnd`
the random index `getGreeting` would draw. -/
def getResponse (context : Context) (fetch : Option GridStats) (rnd : Fin 3)
    (userMessage : Option String) : Outcome :=
  let message := normalizeMessage userMessage
  let refreshed := refreshStats context fetch
  ⟨dispatch refreshed.1 rnd userMessage message, refreshed.1, refreshed.2⟩

/-- The intent categories of `getResponse`, named as the spec names them. The
fallback is what remains when no category matches. -/
inductive Intent where
  | greeting
  | status
  | criticalZones
  | help
  | breach
  | restoration
  | hospital
  | navigation
  | prediction
  | explanation
deriving DecidableEq, Repr

/-- The position of a category in the fixed priority order. -/
def Intent.rank : Intent → Nat
  | .greeting => 0
  | .status => 1
  | .criticalZones => 2
  | .help => 3
  | .breach => 4
  | .restoration => 5
  | .hospital => 6
  | .navigation => 7
  | .prediction => 8
  | .explanation => 9

/-- The keyword list the `if` of a category passes to `matchesPattern`. -/
def Intent.keywords : Intent → List String
  | .greeting => ["hello", "hi", "hey", "start"]
  | .status => ["status", "grid", "current", "now"]
  | .criticalZones => ["critical", "zones", "dangerous", "risk"]
  | .help => ["help", "what can you", "assist"]
  | .breach => ["breach", "alert", "emergency"]
  | .restoration => ["restoration", "repair", "fix"]
  | .hospital => ["hospital", "medical"]
  | .navigation => ["show", "navigate", "take me", "open"]
  | .prediction => ["predict", "forecast", "future"]
  | .explanation => ["how", "why", "explain"]

/-- The value the handler of a category returns. -/
def Intent.handler (context : Context) (rnd : Fin 3) (message : String) : Intent → Response
  | .greeting => .text (getGreeting rnd)
  | .status => .text (getGridStatus context)
  | .criticalZones => .text getCriticalZones
  | .help => .text getHelpMessage
  | .breach => .text getBreachInfo
  | .restoration => .text getRestorationGuidance
  | .hospital => .text getHospitalInfo
  | .navigation => getNavigationResponse message
  | .prediction => .text getPredictionInfo
  | .explanation => .text (getExplanation message)

/-- The five navigation targets the spec recognises. -/
def navigationTargets : List String :=
  ["risk-map", "energy", "restoration", "hospital", "xai"]

/-- The response shape of the chatbot contract: a plain string, or an object
whose `action` is `"navigate"` and whose `target` is a recognised target. -/
def Response.WellFormed : Response → Prop
  | .text _ => True
  | .directive _ action target => action = "navigate" ∧ target ∈ navigationTargets

/-- The destination words `getNavigationResponse` looks for. -/
def destinationWords : List String :=
  ["map", "energy", "threshold", "restoration", "plan", "hospital", "ai", "explain"]

/-- The empty context of the constructor. -/
def initialContext : Context :=
  ⟨"home", none, none⟩

/-! ## Definitions: words of a message -/

/-- Whether the character next to a position, if there is one, is a word character. -/
def isWordOpt (c : Option Char) : Bool := (c.map isWordChar).getD false

/-- The run `w` is a whole word of `pre ++ w ++ post`: it is not empty, consists of
word characters, and no word character stands directly before or after it. -/
def WholeWordAt (pre w post : List Char) : Prop :=
  w ≠ [] ∧ (∀ c ∈ w, isWordChar c = true) ∧
    isWordOpt pre.getLast? = false ∧ isWordOpt post.head? = false

/-- The string `s` contains `w` as a whole word. -/
def ContainsWord (s w : List Char) : Prop :=
  ∃ pre post, s = pre ++ w ++ post ∧ WholeWordAt pre w post

/-- The whole words of a string, left to right; `acc` is the word being read. -/
def wholeWordsGo : List Char → List Char → List (List Char)
  | acc, [] => if acc.isEmpty then [] else [acc]
  | acc, c :: rest =>
    if isWordChar c then wholeWordsGo (acc ++ [c]) rest
    else (if acc.isEmpty then [] else [acc]) ++ wholeWordsGo [] rest

/-- The whole words of a string: its maximal runs of word characters. -/
def wholeWords (s : List Char) : List (List Char) := wholeWordsGo [] s

/-- The leading half of `trim`. -/
def trimStart (s : List Char) : List Char := s.dropWhile isJsWhiteSpace

/-- The trailing half of `trim`. -/
def trimEnd (s : List Char) : List Char := (s.reverse.dropWhile isJsWhiteSpace).reverse


/-- A key or a canonical word of the table: a non-empty word of lower-case letters. -/
def isLowerWord (t : List Char) : Bool := !t.isEmpty && t.all Char.isLower

/-- The loop `Object.keys(table).forEach(...)` of `normalizeMessage`, for a table of
(typo, canonical) pairs. -/
def applyTable (table : List (String × String)) (normalized : List Char) : List Char :=
  table.foldl (fun normalized entry => replaceTypo entry.1 entry.2 normalized) normalized

/-- The loop of `normalizeMessage` over `Object.keys(this.typoMap)`. -/
def applyTypos (normalized : List Char) : List Char := applyTable typoMap normalized

/-- Every key and every canonical word of the table is a non-empty word of
lower-case letters. -/
def GoodTable (table : List (String × String)) : Prop :=
  ∀ e ∈ table, isLowerWord e.1.data = true ∧ isLowerWord e.2.data = true

/-- No canonical word of the table is a key of `typoMap`. -/
def CanonicalNotKey (table : List (String × String)) : Prop :=
  ∀ e ∈ table, ∀ k ∈ typoMap, e.2.data ≠ k.1.data

/-- Whether the character next to a position, if there is one, is white space. -/
def isSpaceOpt (c : Option Char) : Bool := (c.map isJsWhiteSpace).getD false

/-- One call of `getResponse` in a session: the outcome of `api.getStatistics()`
should the call make the request, the random index `getGreeting` would draw, and
the message. -/
structure Call where
  fetch : Option GridStats
  rnd : Fin 3
  userMessage : Option String

/-- Successive calls of `getResponse` on the one engine instance: each call runs on
the context the previous call left. -/
def getResponses : Context → List Call → List Outcome
  | _, [] => []
  | context, call :: rest =>
    (getResponse context call.fetch call.rnd call.userMessage) ::
      getResponses (getResponse context call.fetch call.rnd call.userMessage).context rest

/-- The hint `getSmartFallback` adds for outage vocabulary, without its emoji. -/
def breachHint : String :=
  "Try: 'Show breach status' or 'What's the emergency?'"

/-- A statistics object as the backend returns it, with the figures the templates
fall back to. -/
def sampleStats : GridStats :=
  ⟨some 687, some 58, some 1000, some ⟨some 206, some 49⟩⟩

/-- The status text shows `shown` for a statistic `field` with default `fallback`: the
default when the statistic is missing or `0`, the statistic itself when it is a
non-zero number. -/
def Shows (field : Option Int) (fallback shown : Int) : Prop :=
  ((field = none ∨ field = some 0) → shown = fallback) ∧
    ∀ v : Int, v ≠ 0 → field = some v → shown = v

/-! ## Definitions: chat widget -/

/-- A message of the log: `{ text, sender, timestamp }`; the time stamp is the clock
reading `new Date()` gives. -/
structure ChatMessage where
  text : String
  sender : String
  timestamp : Nat
deriving DecidableEq, Repr

/-- The state update of `addUserMessage`: `prev => [...prev, { text, sender: 'user',
timestamp }]`. -/
def addUserMessage (text : String) (now : Nat) (prev : List ChatMessage) : List ChatMessage :=
  prev ++ [⟨text, "user", now⟩]

/-- The state update of `addBotMessage`, run when its timer fires. -/
def addBotMessage (text : String) (now : Nat) (prev : List ChatMessage) : List ChatMessage :=
  prev ++ [⟨text, "bot", now⟩]

/-- The two calls of `setMessages` in the widget, the only operations on the log. -/
inductive LogOperation where
  | user (text : String) (now : Nat)
  | bot (text : String) (now : Nat)
deriving DecidableEq, Repr

/-- The state update an operation makes. -/
def LogOperation.apply : LogOperation → List ChatMessage → List ChatMessage
  | .user text now, prev => addUserMessage text now prev
  | .bot text now, prev => addBotMessage text now prev

/-- The log after a sequence of operations. -/
def applyOperations (log : List ChatMessage) (operations : List LogOperation) :
    List ChatMessage :=
  operations.foldl (fun log operation => operation.apply log) log

/-- What one run of `handleSend` does, in order. -/
inductive SendEffect where
  | addUserMessage (text : String)
  | setInput (value : String)
  | setIsTyping (value : Bool)
  | addBotMessage (text : String) (delay : Nat)
  | addBotObject (response : Response) (delay : Nat)
  | navigate (target : String) (delay : Nat)
  | logError
deriving DecidableEq, Repr

/-- The function `handleSend`: `input` is the text of the input box, `onNavigate` tells
whether the host passed the `onNavigate` callback, `engine` is
`chatbotEngine.getResponse`. The effect `navigate target 1200` is the timer that calls
`onNavigate(target)`; `addBotObject` is `addBotMessage` called with an object. -/
def handleSend (input : String) (onNavigate : Bool)
    (engine : String → Except JsError Response) : List SendEffect :=
  let userMessage := String.mk (trim input.data)
  if userMessage.data.isEmpty then []
  else
    [.addUserMessage userMessage, .setInput "", .setIsTyping true] ++
      match engine userMessage with
      | .ok (.directive text action target) =>
        if action = "navigate" then
          [.addBotMessage text 800] ++
            (if onNavigate && !target.data.isEmpty then [.navigate target 1200] else [])
        else [.addBotObject (.directive text action target) 800]
      | .ok (.text response) => [.addBotMessage response 800]
      | .error _ =>
        [.logError, .addBotMessage "Sorry, I encountered an error. Please try again." 500]

/-- Whether a run of `handleSend` schedules a call of `onNavigate`. -/
def schedulesNavigation (effects : List SendEffect) : Bool :=
  effects.any fun effect =>
    match effect with
    | .navigate _ _ => true
    | _ => false

/-! ## Definitions: binary64 numbers -/

/-- A JavaScript number, an IEEE 754 binary64 value. Every finite double is a whole
multiple of `2 ^ (-1074)`, and `finite units` stands for `units * 2 ^ (-1074)`. The sign
of zero is not kept: the embedded code neither divides by zero nor prints a zero with
its sign. -/
inductive Number where
  | finite (units : Int)
  | posInfinity
  | negInfinity
  | nan
deriving DecidableEq, Repr

namespace Number

/-- The number of units in the value 1. -/
def unitsPerOne : Nat := 2 ^ 1074

/-- The quotient `n / d` rounded to the nearest whole number, a tie going to the even
neighbour. -/
def roundHalfEven (n d : Nat) : Nat :=
  let q := n / d
  let r := n % d
  if 2 * r < d then q else if d < 2 * r then q + 1 else if q % 2 = 0 then q else q + 1

/-- The exponent `k` of the spacing `2 ^ k` (in units) between the doubles around `q`
units: `0` below `2 ^ 53` units, where every multiple of the unit is a double (the
subnormal range and the first binade), and one more for every further binade. -/
def spacingExp : Nat → Nat → Nat
  | 0, _ => 0
  | fuel + 1, q => if q < 2 ^ 53 then 0 else spacingExp fuel (q / 2) + 1

/-- The magnitude, in units, of the double nearest to `n / d` units, ties to even;
the exponent range is not yet bounded here. -/
def roundUnits (n d : Nat) : Nat :=
  let k := spacingExp (n / d) (n / d)
  roundHalfEven n (d * 2 ^ k) * 2 ^ k

/-- The first magnitude, in units, that is above every finite double: `2 ^ 1024`. -/
def overflowUnits : Nat := 2 ^ 2098

/-- The double for the exact value `num / den` units (`den > 0`): round to nearest,
ties to even, and overflow to an infinity. Every arithmetic operation is its exact
result passed through this function. -/
def round (num : Int) (den : Nat) : Number :=
  let m := roundUnits num.natAbs den
  if overflowUnits ≤ m then (if num < 0 then negInfinity else posInfinity)
  else finite (if num < 0 then -(m : Int) else (m : Int))

/-- The double nearest to a whole number (a numeric literal of the source). -/
def ofInt (n : Int) : Number := round (n * (unitsPerOne : Int)) 1

/-- The double nearest to the decimal `digits * 10 ^ (-places)` (a numeric literal with
a fraction part). -/
def ofDecimal (digits : Int) (places : Nat) : Number :=
  round (digits * (unitsPerOne : Int)) (10 ^ places)

/-- The test `isNaN(a)`. -/
def isNaN : Number → Bool
  | nan => true
  | _ => false

/-- Unary minus. -/
def neg : Number → Number
  | finite a => finite (-a)
  | posInfinity => negInfinity
  | negInfinity => posInfinity
  | nan => nan

/-- The operator `a + b`. -/
def add : Number → Number → Number
  | finite a, finite b => round (a + b) 1
  | nan, _ => nan
  | _, nan => nan
  | posInfinity, negInfinity => nan
  | negInfinity, posInfinity => nan
  | posInfinity, _ => posInfinity
  | _, posInfinity => posInfinity
  | negInfinity, _ => negInfinity
  | _, negInfinity => negInfinity

/-- The operator `a - b`. -/
def sub (a b : Number) : Number := add a (neg b)

/-- The comparison `a <= b`; false when either side is `NaN`. -/
def le : Number → Number → Bool
  | finite a, finite b => decide (a ≤ b)
  | nan, _ => false
  | _, nan => false
  | negInfinity, _ => true
  | _, posInfinity => true
  | _, negInfinity => false
  | posInfinity, _ => false

/-- The comparison `a < b`; false when either side is `NaN`. -/
def lt : Number → Number → Bool
  | finite a, finite b => decide (a < b)
  | nan, _ => false
  | _, nan => false
  | posInfinity, _ => false
  | _, negInfinity => false
  | negInfinity, _ => true
  | _, posInfinity => true

/-- The comparison `a >= b`. -/
def ge (a b : Number) : Bool := le b a

/-- The comparison `a > b`. -/
def gt (a b : Number) : Bool := lt b a

/-- The operator `a * b`; the exact product of two finite values is
`a * b / 2 ^ 1074` units. -/
def mul : Number → Number → Number
  | finite a, finite b => round (a * b) unitsPerOne
  | nan, _ => nan
  | _, nan => nan
  | finite a, posInfinity => if a = 0 then nan else if a < 0 then negInfinity else posInfinity
  | finite a, negInfinity => if a = 0 then nan else if a < 0 then posInfinity else negInfinity
  | posInfinity, finite b => if b = 0 then nan else if b < 0 then negInfinity else posInfinity
  | negInfinity, finite b => if b = 0 then nan else if b < 0 then posInfinity else negInfinity
  | posInfinity, posInfinity => posInfinity
  | negInfinity, negInfinity => posInfinity
  | posInfinity, negInfinity => negInfinity
  | negInfinity, posInfinity => negInfinity

/-- The quotient `a / d` for a whole number `d > 0` (the source divides by the literal
`60` only); the exact quotient of a finite value is `a / d` units. -/
def divWhole : Number → Nat → Number
  | finite a, d => round a d
  | posInfinity, _ => posInfinity
  | negInfinity, _ => negInfinity
  | nan, _ => nan

/-- The function `Math.floor`. -/
def floor : Number → Number
  | finite a => finite (a / (unitsPerOne : Int) * (unitsPerOne : Int))
  | posInfinity => posInfinity
  | negInfinity => negInfinity
  | nan => nan

/-- The operator `a % b`: the remainder has the sign of `a` and is exact. -/
def mod : Number → Number → Number
  | finite a, finite b =>
    if b = 0 then nan
    else if a < 0 then finite (-((a.natAbs % b.natAbs : Nat) : Int))
    else finite ((a.natAbs % b.natAbs : Nat) : Int)
  | finite a, posInfinity => finite a
  | finite a, negInfinity => finite a
  | _, _ => nan

/-- The number of zeros between the decimal point and the first digit of a value
`u` units below 1 (`u > 0`), by search. -/
def leadingZeros : Nat → Nat → Nat → Nat
  | 0, _, j => j
  | fuel + 1, u, j => if unitsPerOne ≤ u * 10 ^ (j + 1) then j else leadingZeros fuel u (j + 1)

/-- The decimal exponent `n` of a value `u` units, `u > 0`:
`10 ^ (n - 1) ≤ value < 10 ^ n`. -/
def decimalExponent (u : Nat) : Int :=
  if unitsPerOne ≤ u then ((Nat.toDigits 10 (u / unitsPerOne)).length : Int)
  else -((leadingZeros 400 u 0 : Nat) : Int)

/-- The decimals `s * 10 ^ (n - k)` with `k` digits (`10 ^ (k - 1) ≤ s < 10 ^ k`) that
read back as the double `u` units, for `n` the decimal exponent `n0` or `n0 + 1`: each
with `s`, `n` and its distance from the value (times a common power of ten). On each
side of the value only the nearest `s` can read back without a nearer one doing so. -/
def decimalCandidates (u : Nat) (n0 : Int) (k : Nat) : List (Nat × Int × Nat) :=
  let e := ((k : Int) - n0).toNat
  let target := u * 10 ^ e
  [n0, n0 + 1].flatMap fun n =>
    let step := unitsPerOne * 10 ^ (n - (k : Int) + (e : Int)).toNat
    let below := target / step
    [below, below + 1].filterMap fun s =>
      if 10 ^ (k - 1) ≤ s ∧ s < 10 ^ k ∧ round ((s * step : Nat) : Int) (10 ^ e) = finite (u : Int)
      then some (s, n, if s * step ≤ target then target - s * step else s * step - target)
      else none

/-- The candidate nearest to the value; of two equally near the one with even `s`. -/
def nearestCandidate : List (Nat × Int × Nat) → Option (Nat × Int × Nat)
  | [] => none
  | c :: rest =>
    match nearestCandidate rest with
    | none => some c
    | some b =>
      if c.2.2 < b.2.2 then some c
      else if b.2.2 < c.2.2 then some b
      else if c.1 % 2 = 0 then some c else some b

/-- The shortest decimal that reads back as the double `u` units: the digits `s`, their
number `k` and the exponent `n` of `Number::toString`, trying `k = start, start + 1, …`. -/
def shortestDecimal : Nat → Nat → Nat → Option (Nat × Int × Nat)
  | 0, _, _ => none
  | fuel + 1, u, k =>
    match nearestCandidate (decimalCandidates u (decimalExponent u) k) with
    | some c => some (c.1, c.2.1, k)
    | none => shortestDecimal fuel u (k + 1)

/-- The text of `Number::toString` for the digits `s` (`k` of them) and exponent `n`. -/
def formatDecimal (s : Nat) (n : Int) (k : Nat) : List Char :=
  let digits := Nat.toDigits 10 s
  if (k : Int) ≤ n ∧ n ≤ 21 then digits ++ List.replicate (n - (k : Int)).toNat '0'
  else if 0 < n ∧ n ≤ 21 then digits.take n.toNat ++ '.' :: digits.drop n.toNat
  else if -6 < n ∧ n ≤ 0 then '0' :: '.' :: List.replicate (-n).toNat '0' ++ digits
  else
    let exponent := (if n - 1 < 0 then '-' else '+') :: Nat.toDigits 10 (n - 1).natAbs
    if k = 1 then digits ++ 'e' :: exponent
    else digits.take 1 ++ '.' :: digits.drop 1 ++ 'e' :: exponent

/-- The text for a magnitude of `u` units. A whole number below `2 ^ 53` is printed digit
for digit: every whole number near it is a double, so no shorter decimal reads back as
it apart from dropping final zeros, which the format puts back. -/
def magnitudeToString (u : Nat) : List Char :=
  if u % unitsPerOne = 0 ∧ u / unitsPerOne < 2 ^ 53 then Nat.toDigits 10 (u / unitsPerOne)
  else
    match shortestDecimal 17 u 1 with
    | some c => formatDecimal c.1 c.2.1 c.2.2
    | none => []

/-- The method `toString()` of a number (radix 10). -/
def toString : Number → List Char
  | finite a => if a < 0 then '-' :: magnitudeToString a.natAbs else magnitudeToString a.natAbs
  | posInfinity => "Infinity".data
  | negInfinity => "-Infinity".data
  | nan => "NaN".data

end Number

/-! ## Definitions: power distribution in binary64 -/

namespace Binary64

/-- A zone of the dashboard state with its figures as the doubles they are. -/
structure Zone where
  name : String
  id : String
  usage : Number
  threshold : Number
deriving DecidableEq, Repr

/-- A zone of the result with its figures as doubles. -/
structure DistributedZone where
  name : String
  id : String
  usage : Number
  threshold : Number
  regular : Number
  bessUsed : Number
  deficit : Number
deriving DecidableEq, Repr

/-- The callback of `zones.map` in `calculateDistribution`, in binary64 arithmetic:
`usage <= threshold`, `usage - threshold`, `remainingBess >= excess`,
`remainingBess -= excess` and `excess - bessUsed` are the operations of the source. -/
def distributeZone (remainingBess : Number) (zone : Zone) : DistributedZone × Number :=
  let usage := zone.usage
  let threshold := zone.threshold
  if Number.le usage threshold then
    ({ name := zone.name, id := zone.id, usage := zone.usage, threshold := zone.threshold,
       regular := usage, bessUsed := Number.ofInt 0, deficit := Number.ofInt 0 },
      remainingBess)
  else
    let excess := Number.sub usage threshold
    if Number.ge remainingBess excess then
      ({ name := zone.name, id := zone.id, usage := zone.usage, threshold := zone.threshold,
         regular := threshold, bessUsed := excess, deficit := Number.ofInt 0 },
        Number.sub remainingBess excess)
    else
      ({ name := zone.name, id := zone.id, usage := zone.usage, threshold := zone.threshold,
         regular := threshold, bessUsed := remainingBess,
         deficit := Number.sub excess remainingBess }, Number.ofInt 0)

/-- The `zones.map` loop with the mutable `remainingBess` threaded through. -/
def distributeFrom : Number → List Zone → List DistributedZone × Number
  | remainingBess, [] => ([], remainingBess)
  | remainingBess, zone :: rest =>
    let step := distributeZone remainingBess zone
    let tail := distributeFrom step.2 rest
    (step.1 :: tail.1, tail.2)

/-- The function `calculateDistribution` in binary64 arithmetic. -/
def calculateDistribution (bessPower : Number) (zones : List Zone) : List DistributedZone :=
  (distributeFrom bessPower zones).1

/-- The three supply figures of a result entry. -/
def DistributedZone.split (d : DistributedZone) : Number × Number × Number :=
  (d.regular, d.bessUsed, d.deficit)

/-- The sum `regular + bessUsed + deficit` as JavaScript evaluates it. -/
def DistributedZone.supplied (d : DistributedZone) : Number :=
  Number.add (Number.add d.regular d.bessUsed) d.deficit

/-- A sum of doubles taken from left to right, starting at `0`. -/
def sum (figures : List Number) : Number := figures.foldl Number.add (Number.ofInt 0)

/-- The sum of `bessUsed` over a result. -/
def totalBessUsed (result : List DistributedZone) : Number :=
  sum (result.map DistributedZone.bessUsed)

/-- The sum of `deficit` over a result. -/
def totalDeficit (result : List DistributedZone) : Number :=
  sum (result.map DistributedZone.deficit)

/-- A zone with whole-number figures, as doubles. -/
def Zone.ofWhole (z : ElectroWizard.Zone) : Zone :=
  { name := z.name, id := z.id, usage := Number.ofInt z.usage,
    threshold := Number.ofInt z.threshold }

/-- A result entry with whole-number figures, as doubles. -/
def DistributedZone.ofWhole (d : ElectroWizard.DistributedZone) : DistributedZone :=
  { name := d.name, id := d.id, usage := Number.ofInt d.usage,
    threshold := Number.ofInt d.threshold, regular := Number.ofInt d.regular,
    bessUsed := Number.ofInt d.bessUsed, deficit := Number.ofInt d.deficit }

end Binary64

/-- Whole-number inputs that binary64 holds exactly: every `usage` and `threshold`
between `0` and `2 ^ 53`. -/
def WholeZones (zones : List Zone) : Prop :=
  ∀ z ∈ zones, 0 ≤ z.usage ∧ z.usage ≤ 2 ^ 53 ∧ 0 ≤ z.threshold ∧ z.threshold ≤ 2 ^ 53

instance (zones : List Zone) : Decidable (WholeZones zones) := by
  unfold WholeZones; infer_instance

/-! ## Definitions: hospital countdown -/

/-- A hospital record of the life-support view; `others` stands for the fields the
view does not read. -/
structure Hospital where
  name : String
  backup_status : String
  icu_patients : Int
  why_matters : String
  others : List (String × String)
deriving DecidableEq, Repr

/-- The value of a decimal digit. -/
def digitValue (c : Char) : Nat := c.toNat - 48

/-- The value of a hexadecimal digit. -/
def hexDigitValue (c : Char) : Nat :=
  if c.isDigit then c.toNat - 48 else if c.isLower then c.toNat - 87 else c.toNat - 55

/-- Hexadecimal digits: `[0-9a-fA-F]`. -/
def isHexDigit (c : Char) : Bool :=
  c.isDigit || (97 ≤ c.toNat && c.toNat ≤ 102) || (65 ≤ c.toNat && c.toNat ≤ 70)

/-- The whole number a run of decimal digits denotes. -/
def decimalValue (digits : List Char) : Nat :=
  digits.foldl (fun acc c => acc * 10 + digitValue c) 0

/-- The whole number a run of hexadecimal digits denotes. -/
def hexValue (digits : List Char) : Nat :=
  digits.foldl (fun acc c => acc * 16 + hexDigitValue c) 0

/-- The string begins with `0x` or `0X`. -/
def hasHexMarker (s : List Char) : Bool :=
  s.head? == some '0' && (s.tail.head? == some 'x' || s.tail.head? == some 'X')

/-- The global function `parseInt(string)` without a radix. Leading white space is
skipped, a sign is read, `0x` selects radix 16, and the longest run of digits is read;
the result is the double nearest to the whole number read, `NaN` when no digit is.
Every digit counts: the specification lets an implementation read the decimal digits
after the twentieth as zeros, and V8 does not. -/
def parseInt (string : List Char) : Number :=
  let s := string.dropWhile isJsWhiteSpace
  let negative := s.head? == some '-'
  let unsigned := if s.head? == some '-' || s.head? == some '+' then s.tail else s
  if hasHexMarker unsigned then
    let digits := (unsigned.drop 2).takeWhile isHexDigit
    if digits.isEmpty then Number.nan
    else Number.ofInt (if negative then -(hexValue digits : Int) else (hexValue digits : Int))
  else
    let digits := unsigned.takeWhile Char.isDigit
    if digits.isEmpty then Number.nan
    else Number.ofInt
      (if negative then -(decimalValue digits : Int) else (decimalValue digits : Int))

/-- The scan of `split`: `acc` is the part being read. -/
def splitGo (separator : Char) : List Char → List Char → List (List Char)
  | acc, [] => [acc]
  | acc, c :: rest =>
    if c == separator then acc :: splitGo separator [] rest
    else splitGo separator (acc ++ [c]) rest

/-- The call `s.split(separator)` for a one-character separator. -/
def split (s : List Char) (separator : Char) : List (List Char) := splitGo separator [] s

/-- The variable `minutes` of the countdown callback. -/
def statusMinutes (status : String) : Number :=
  if includes status ":" then parseInt ((split status.data ':').getD 0 [])
  else parseInt status.data

/-- The variable `seconds` of the countdown callback. -/
def statusSeconds (status : String) : Number :=
  if includes status ":" then parseInt ((split status.data ':').getD 1 [])
  else Number.ofInt 0

/-- The call `s.padStart(2, '0')`. -/
def padStart2 (s : List Char) : List Char := List.replicate (2 - s.length) '0' ++ s

/-- The expression `(minutes * 60) + seconds` of the callback. -/
def statusTotal (status : String) : Number :=
  Number.add (Number.mul (statusMinutes status) (Number.ofInt 60)) (statusSeconds status)

/-- The string `formatted` for the decremented `totalSeconds`: `Math.floor(t / 60)` and
`t % 60`, each printed with `toString` and padded to two places. -/
def formatClock (totalSeconds : Number) : String :=
  String.mk
    (padStart2 (Number.floor (Number.divWhole totalSeconds 60)).toString ++
      ':' :: padStart2 (Number.mod totalSeconds (Number.ofInt 60)).toString)

/-- The callback of `currentHospitals.map` in the one-second timer, in binary64
arithmetic. -/
def tickHospital (h : Hospital) : Hospital :=
  if !(statusMinutes h.backup_status).isNaN then
    let totalSeconds := statusTotal h.backup_status
    if Number.gt totalSeconds (Number.ofInt 0) then
      { h with backup_status := formatClock (Number.sub totalSeconds (Number.ofInt 1)) }
    else h
  else h

/-- One tick of the timer on the list of hospitals. -/
def tick (currentHospitals : List Hospital) : List Hospital :=
  currentHospitals.map tickHospital

/-- A non-empty run of decimal digits. -/
def isDigits (s : List Char) : Bool := !s.isEmpty && s.all Char.isDigit

/-- The status is `MM:SS` or a bare minute count, and `total` is
`60 * minutes + seconds`. -/
def ClockStatus (status : String) (total : Nat) : Prop :=
  (∃ mm ss, isDigits mm = true ∧ isDigits ss = true ∧ status.data = mm ++ ':' :: ss ∧
      total = 60 * decimalValue mm + decimalValue ss) ∨
    (isDigits status.data = true ∧ total = 60 * decimalValue status.data)

/-- The zero-padded `MM:SS` rendering of a number of seconds. -/
def clockText (total : Nat) : String :=
  String.mk (padStart2 (Nat.toDigits 10 (total / 60)) ++
    ':' :: padStart2 (Nat.toDigits 10 (total % 60)))

/-! ## Theorems: power distribution -/

theorem distributeZone_sum (p : Int) (z : Zone) :
    (distributeZone p z).1.regular + (distributeZone p z).1.bessUsed
      + (distributeZone p z).1.deficit = z.usage := by
  unfold distributeZone
  by_cases h : z.usage ≤ z.threshold
  · simp [h]
  · by_cases h2 : p ≥ z.usage - z.threshold
    · simp [h, h2]
    · simp [h, h2]

theorem distributeZone_regular_le (p : Int) (z : Zone) :
    (distributeZone p z).1.regular ≤ z.threshold := by
  unfold distributeZone
  by_cases h : z.usage ≤ z.threshold
  · simp [h]
  · by_cases h2 : p ≥ z.usage - z.threshold
    · simp [h, h2]
    · simp [h, h2]

theorem distributeZone_usage (p : Int) (z : Zone) :
    (distributeZone p z).1.usage = z.usage ∧ (distributeZone p z).1.threshold = z.threshold := by
  unfold distributeZone
  by_cases h : z.usage ≤ z.threshold
  · simp [h]
  · by_cases h2 : p ≥ z.usage - z.threshold
    · simp [h, h2]
    · simp [h, h2]

theorem distributeFrom_invariant (zones : List Zone) :
    ∀ (p : Int), ∀ d ∈ (distributeFrom p zones).1,
      d.regular + d.bessUsed + d.deficit = d.usage ∧ d.regular ≤ d.threshold := by
  induction zones with
  | nil => intro p d hd; simp [distributeFrom] at hd
  | cons z rest ih =>
    intro p d hd
    simp only [distributeFrom, List.mem_cons] at hd
    rcases hd with rfl | hd
    · have h1 := distributeZone_sum p z
      have h2 := distributeZone_regular_le p z
      have h3 := distributeZone_usage p z
      constructor
      · rw [h3.1]; exact h1
      · rw [h3.2]; exact h2
    · exact ih _ d hd

theorem distributeFrom_append (pre rest : List Zone) :
    ∀ p : Int, distributeFrom p (pre ++ rest) =
      ((distributeFrom p pre).1 ++ (distributeFrom (distributeFrom p pre).2 rest).1,
        (distributeFrom (distributeFrom p pre).2 rest).2) := by
  induction pre with
  | nil => intro p; simp [distributeFrom]
  | cons z pre ih => intro p; simp [distributeFrom, ih]

theorem distributeFrom_length (zones : List Zone) :
    ∀ p : Int, (distributeFrom p zones).1.length = zones.length := by
  induction zones with
  | nil => intro p; simp [distributeFrom]
  | cons z rest ih => intro p; simp [distributeFrom, ih]

/-- The entry of the zone at position `pre.length` is the callback applied to
the pool left by the zones in front of it. -/
theorem calculateDistribution_entry (bessPower : Int) (pre post : List Zone) (zone : Zone) :
    (calculateDistribution bessPower (pre ++ zone :: post))[pre.length]? =
      some (distributeZone (poolRemainder bessPower pre) zone).1 := by
  unfold calculateDistribution poolRemainder
  rw [distributeFrom_append]
  have hlen := distributeFrom_length pre bessPower
  simp only [distributeFrom]
  rw [List.getElem?_append_right (by omega)]
  simp [hlen]

/-- The pool after the zone at position `pre.length`. -/
theorem poolRemainder_snoc (bessPower : Int) (pre : List Zone) (zone : Zone) :
    poolRemainder bessPower (pre ++ [zone]) =
      (distributeZone (poolRemainder bessPower pre) zone).2 := by
  unfold poolRemainder
  rw [distributeFrom_append]
  simp [distributeFrom]

theorem distributeZone_pool (p : Int) (z : Zone) (hp : 0 ≤ p) :
    (distributeZone p z).2 ≤ p ∧ 0 ≤ (distributeZone p z).2 := by
  unfold distributeZone
  by_cases h : z.usage ≤ z.threshold
  · simp [h, hp]
  · by_cases h2 : p ≥ z.usage - z.threshold
    · simp only [h, h2, if_true, if_false]
      constructor <;> omega
    · simp [h, h2, hp]

theorem poolTrace_chain (zones : List Zone) :
    ∀ p : Int, 0 ≤ p →
      List.Chain (fun a b => a ≥ b) p (poolTrace p zones) ∧ ∀ q ∈ poolTrace p zones, 0 ≤ q := by
  induction zones with
  | nil => intro p _; simp [poolTrace]
  | cons z rest ih =>
    intro p hp
    have hstep := distributeZone_pool p z hp
    have hrest := ih (distributeZone p z).2 hstep.2
    simp only [poolTrace, List.chain_cons, List.mem_cons]
    refine ⟨⟨hstep.1, hrest.1⟩, ?_⟩
    intro q hq
    rcases hq with rfl | hq
    · exact hstep.2
    · exact hrest.2 q hq

/-- The last entry of the trace is the pool left when the pass is over. -/
theorem poolTrace_last (zones : List Zone) :
    ∀ p : Int, (poolTrace p zones).getLast? = 
      if zones = [] then none else some (poolRemainder p zones) := by
  induction zones with
  | nil => intro p; simp [poolTrace]
  | cons z rest ih =>
    intro p
    cases rest with
    | nil => simp [poolTrace, poolRemainder, distributeFrom]
    | cons y ys =>
      have := ih (distributeZone p z).2
      simp only [poolTrace, poolRemainder, distributeFrom] at this ⊢
      simp [List.getLast?_cons_cons, this]

/-- C2: a zone with `usage > threshold` that `calculateDistribution` reaches with
remaining pool `p ≥ 0` gets `regular = threshold`; with `excess = usage - threshold`,
if `p ≥ excess` then `bessUsed = excess`, `deficit = 0` and the pool becomes
`p - excess`, otherwise `bessUsed = p`, `deficit = excess - p` and the pool becomes `0`.
In particular usage 600000, threshold 500000 gives (500000, 100000, 0) and remainder
100000 with pool 200000, and (500000, 50000, 50000) and remainder 0 with pool 50000. -/
theorem calculateDistribution_over_threshold :
    (∀ (bessPower : Int) (pre post : List Zone) (zone : Zone),
      0 ≤ poolRemainder bessPower pre → zone.usage > zone.threshold →
      ∃ d, (calculateDistribution bessPower (pre ++ zone :: post))[pre.length]? = some d ∧
        d.regular = zone.threshold ∧
        (poolRemainder bessPower pre ≥ zone.usage - zone.threshold →
          d.bessUsed = zone.usage - zone.threshold ∧ d.deficit = 0 ∧
          poolRemainder bessPower (pre ++ [zone]) =
            poolRemainder bessPower pre - (zone.usage - zone.threshold)) ∧
        (¬ poolRemainder bessPower pre ≥ zone.usage - zone.threshold →
          d.bessUsed = poolRemainder bessPower pre ∧
          d.deficit = zone.usage - zone.threshold - poolRemainder bessPower pre ∧
          poolRemainder bessPower (pre ++ [zone]) = 0)) ∧
    ((calculateDistribution 200000 [⟨"Zone 1", "zone1", 600000, 500000⟩]).map
        DistributedZone.split = [(500000, 100000, 0)] ∧
      poolRemainder 200000 [⟨"Zone 1", "zone1", 600000, 500000⟩] = 100000) ∧
    ((calculateDistribution 50000 [⟨"Zone 1", "zone1", 600000, 500000⟩]).map
        DistributedZone.split = [(500000, 50000, 50000)] ∧
      poolRemainder 50000 [⟨"Zone 1", "zone1", 600000, 500000⟩] = 0) := by
  refine ⟨?_, by decide, by decide⟩
  intro bessPower pre post zone _hp hover
  refine ⟨_, calculateDistribution_entry bessPower pre post zone, ?_⟩
  rw [poolRemainder_snoc]
  have hnot : ¬ zone.usage ≤ zone.threshold := by omega
  unfold distributeZone
  by_cases h2 : poolRemainder bessPower pre ≥ zone.usage - zone.threshold
  · simp [hnot, h2]
  · simp [hnot, h2]

theorem calculateDistribution_over_threshold_witness :
    ∃ d, (calculateDistribution 6200000 (initialZones ++
        ⟨"Zone 5", "zone5", 7000000, 1000000⟩ :: []))[initialZones.length]? = some d ∧
      d.regular = 1000000 ∧ d.bessUsed = 6000000 ∧ d.deficit = 0 ∧
      poolRemainder 6200000 (initialZones ++ [⟨"Zone 5", "zone5", 7000000, 1000000⟩]) = 0 := by
  obtain ⟨d, hd, hreg, henough, _⟩ := calculateDistribution_over_threshold.1 6200000
    initialZones [] ⟨"Zone 5", "zone5", 7000000, 1000000⟩ (by decide) (by decide)
  have h := henough (by decide)
  refine ⟨d, hd, hreg, ?_, h.2.1, ?_⟩
  · rw [h.1]; decide
  · rw [h.2.2]; decide

/-- C3: a zone with `usage ≤ threshold` gets `regular = usage`, `bessUsed = 0` and
`deficit = 0`, and the remaining pool after the zone is the pool before it,
whatever the pool value. -/
theorem calculateDistribution_within_threshold (bessPower : Int) (pre post : List Zone)
    (zone : Zone) (hwithin : zone.usage ≤ zone.threshold) :
    ∃ d, (calculateDistribution bessPower (pre ++ zone :: post))[pre.length]? = some d ∧
      d.regular = zone.usage ∧ d.bessUsed = 0 ∧ d.deficit = 0 ∧
      poolRemainder bessPower (pre ++ [zone]) = poolRemainder bessPower pre := by
  refine ⟨_, calculateDistribution_entry bessPower pre post zone, ?_⟩
  rw [poolRemainder_snoc]
  unfold distributeZone
  simp [hwithin]

theorem calculateDistribution_within_threshold_witness :
    ∃ d, (calculateDistribution (-5) (initialZones ++
        ⟨"Zone 5", "zone5", 100, 100⟩ :: initialZones))[initialZones.length]? = some d ∧
      d.regular = 100 ∧ d.bessUsed = 0 ∧ d.deficit = 0 ∧
      poolRemainder (-5) (initialZones ++ [⟨"Zone 5", "zone5", 100, 100⟩]) =
        poolRemainder (-5) initialZones :=
  calculateDistribution_within_threshold (-5) initialZones initialZones
    ⟨"Zone 5", "zone5", 100, 100⟩ (by decide)

/-- C4: for zones with `usage ≥ 0` and `threshold ≥ 0` and an initial pool `≥ 0`, the
remaining pool never grows from one zone to the next (starting from the initial
pool) and is `≥ 0` after every zone. -/
theorem poolTrace_nonincreasing_nonneg (bessPower : Int) (zones : List Zone)
    (_hzones : ValidZones zones) (hpool : 0 ≤ bessPower) :
    List.Chain' (fun a b => a ≥ b) (bessPower :: poolTrace bessPower zones) ∧
      ∀ q ∈ poolTrace bessPower zones, 0 ≤ q := by
  have h := poolTrace_chain zones bessPower hpool
  exact ⟨by simpa [List.Chain'] using h.1, h.2⟩

theorem poolTrace_nonincreasing_nonneg_witness :
    ValidZones initialZones ∧ (0 : Int) ≤ 120000 ∧
      List.Chain' (fun a b => a ≥ b) ((120000 : Int) :: poolTrace 120000 initialZones) ∧
      ∀ q ∈ poolTrace 120000 initialZones, 0 ≤ q :=
  ⟨by decide, by decide,
    poolTrace_nonincreasing_nonneg 120000 initialZones (by decide) (by decide)⟩

/-! ## Theorems: chatbot engine -/

theorem getSmartFallback_some (raw : String) :
    ∃ t, getSmartFallback (some raw) = .ok t := by
  unfold getSmartFallback
  simp only []
  split
  · exact ⟨_, rfl⟩
  · exact ⟨_, rfl⟩

theorem getNavigationResponse_wellFormed (message : String) :
    (getNavigationResponse message).WellFormed := by
  unfold getNavigationResponse
  split_ifs <;> simp [Response.WellFormed, navigationTargets]

/-- First match wins: the dispatch returns the handler of the earliest
category one of whose keywords the message contains. -/
theorem dispatch_first_match (context : Context) (rnd : Fin 3) (userMessage : Option String)
    (message : String) (i : Intent)
    (hi : matchesPattern message i.keywords = true)
    (hfirst : ∀ k : Intent, k.rank < i.rank → matchesPattern message k.keywords = false) :
    dispatch context rnd userMessage message = .ok (i.handler context rnd message) := by
  have e0 := hfirst .greeting
  have e1 := hfirst .status
  have e2 := hfirst .criticalZones
  have e3 := hfirst .help
  have e4 := hfirst .breach
  have e5 := hfirst .restoration
  have e6 := hfirst .hospital
  have e7 := hfirst .navigation
  have e8 := hfirst .prediction
  cases i <;> simp only [Intent.rank, Intent.keywords] at e0 e1 e2 e3 e4 e5 e6 e7 e8 hi <;>
    simp_all [dispatch, Intent.handler]

theorem ite_ne_of {α : Type} {c : Prop} [Decidable c] {a b x : α}
    (ha : c → a ≠ x) (hb : ¬ c → b ≠ x) : (if c then a else b) ≠ x := by
  by_cases h : c
  · rw [if_pos h]; exact ha h
  · rw [if_neg h]; exact hb h

theorem text_ne_directive (s t a g : String) :
    (Except.ok (Response.text s) : Except JsError Response) ≠ .ok (.directive t a g) := by
  intro h
  injection h with h
  injection h

theorem getNavigationResponse_hospital (message text action : String)
    (h : getNavigationResponse message = .directive text action "hospital") :
    includes message "hospital" = true := by
  by_contra hno
  revert h
  unfold getNavigationResponse
  rw [if_neg hno]
  refine ite_ne_of (fun _ h => ?_) (fun _ => ite_ne_of (fun _ h => ?_) (fun _ =>
    ite_ne_of (fun _ h => ?_) (fun _ => ite_ne_of (fun _ h => ?_) (fun _ h => ?_))))
  · injection h with _ _ ht; exact absurd ht (by decide)
  · injection h with _ _ ht; exact absurd ht (by decide)
  · injection h with _ _ ht; exact absurd ht (by decide)
  · injection h with _ _ ht; exact absurd ht (by decide)
  · injection h

theorem dispatch_never_hospital (context : Context) (rnd : Fin 3) (userMessage : Option String)
    (message text action : String) :
    dispatch context rnd userMessage message ≠ .ok (.directive text action "hospital") := by
  unfold dispatch
  refine ite_ne_of (fun _ => text_ne_directive _ _ _ _) (fun _ => ?_)
  refine ite_ne_of (fun _ => text_ne_directive _ _ _ _) (fun _ => ?_)
  refine ite_ne_of (fun _ => text_ne_directive _ _ _ _) (fun _ => ?_)
  refine ite_ne_of (fun _ => text_ne_directive _ _ _ _) (fun _ => ?_)
  refine ite_ne_of (fun _ => text_ne_directive _ _ _ _) (fun _ => ?_)
  refine ite_ne_of (fun _ => text_ne_directive _ _ _ _) (fun _ => ?_)
  refine ite_ne_of (fun _ => text_ne_directive _ _ _ _) (fun h6 => ?_)
  refine ite_ne_of (fun _ h => ?_) (fun _ => ?_)
  · have hno : includes message "hospital" = false := by
      simp only [matchesPattern, List.any_cons, List.any_nil, Bool.or_false, Bool.or_eq_true,
        not_or, Bool.not_eq_true] at h6
      exact h6.1
    injection h with h
    have hyes := getNavigationResponse_hospital message text action h
    rw [hyes] at hno
    exact Bool.noConfusion hno
  · refine ite_ne_of (fun _ => text_ne_directive _ _ _ _) (fun _ => ?_)
    refine ite_ne_of (fun _ => text_ne_directive _ _ _ _) (fun _ => ?_)
    cases getSmartFallback userMessage with
    | error e => intro h; injection h
    | ok t => exact text_ne_directive _ _ _ _

/-- C5 (as amended): for every message whose normalised form contains a keyword of
category `i` and a keyword of a later category `j`, and no keyword of a category
earlier than `i`, `getResponse` resolves to what the handler of category `i`
returns (run on the context left by the statistics step). -/
theorem getResponse_first_match (context : Context) (fetch : Option GridStats) (rnd : Fin 3)
    (userMessage : Option String) (i j : Intent)
    (hi : matchesPattern (normalizeMessage userMessage) i.keywords = true)
    (_hj : matchesPattern (normalizeMessage userMessage) j.keywords = true)
    (_hij : i.rank < j.rank)
    (hfirst : ∀ k : Intent, k.rank < i.rank →
      matchesPattern (normalizeMessage userMessage) k.keywords = false) :
    (getResponse context fetch rnd userMessage).result =
      .ok (i.handler (refreshStats context fetch).1 rnd (normalizeMessage userMessage)) :=
  dispatch_first_match _ rnd userMessage _ i hi hfirst

theorem getResponse_first_match_witness :
    matchesPattern (normalizeMessage (some "Grid staus of critical zones"))
        Intent.status.keywords = true ∧
      matchesPattern (normalizeMessage (some "Grid staus of critical zones"))
        Intent.criticalZones.keywords = true ∧
      (getResponse initialContext none 0 (some "Grid staus of critical zones")).result =
        .ok (Intent.status.handler (refreshStats initialContext none).1 0
          (normalizeMessage (some "Grid staus of critical zones"))) :=
  ⟨by decide, by decide,
    getResponse_first_match initialContext none 0 (some "Grid staus of critical zones")
      .status .criticalZones (by decide) (by decide) (by decide)
      (by intro k; cases k <;> decide)⟩

/-- C5 (as stated) fails: the message below contains keywords of the status
category and of the later critical-zones category, yet the response is a
greeting and not what the status handler returns, because it also contains
the greeting keyword `hello`. -/
theorem getResponse_first_of_two_counterexample :
    matchesPattern (normalizeMessage (some "hello, what is the grid status of critical zones"))
        Intent.status.keywords = true ∧
      matchesPattern (normalizeMessage (some "hello, what is the grid status of critical zones"))
        Intent.criticalZones.keywords = true ∧
      Intent.status.rank < Intent.criticalZones.rank ∧
      (getResponse initialContext none 0
          (some "hello, what is the grid status of critical zones")).result =
        .ok (.text (getGreeting 0)) ∧
      Response.text (getGreeting 0) ≠
        Intent.status.handler (refreshStats initialContext none).1 0
          (normalizeMessage (some "hello, what is the grid status of critical zones")) := by
  refine ⟨by decide, by decide, by decide, ?_, by decide⟩
  exact dispatch_first_match (refreshStats initialContext none).1 0 (some "hello, what is the grid status of critical zones")
    (normalizeMessage (some "hello, what is the grid status of critical zones")) .greeting
    (by decide) (by intro k; cases k <;> decide)

/-- C6 (code at the failing input): on "open the risk map" the response is the
plain critical-zones text, for every context, fetch outcome and random draw:
the keyword `risk` of the critical-zones category is checked before the
navigation keywords. -/
theorem getResponse_open_the_risk_map (context : Context) (fetch : Option GridStats)
    (rnd : Fin 3) :
    (getResponse context fetch rnd (some "open the risk map")).result =
      .ok (.text getCriticalZones) :=
  dispatch_first_match (refreshStats context fetch).1 rnd (some "open the risk map")
    (normalizeMessage (some "open the risk map")) .criticalZones
    (by decide) (by intro k; cases k <;> decide)

/-- C7: on "take me to energy thresholds" `getResponse` resolves to the object with
`action = "navigate"` and `target = "energy"`. -/
theorem getResponse_take_me_to_energy_thresholds (context : Context)
    (fetch : Option GridStats) (rnd : Fin 3) :
    (getResponse context fetch rnd (some "take me to energy thresholds")).result =
      .ok (.directive "⚡ Taking you to Energy Thresholds..." "navigate" "energy") := by
  have h := dispatch_first_match (refreshStats context fetch).1 rnd
    (some "take me to energy thresholds")
    (normalizeMessage (some "take me to energy thresholds")) .navigation
    (by decide) (by intro k; cases k <;> decide)
  have hnav : Intent.navigation.handler (refreshStats context fetch).1 rnd
      (normalizeMessage (some "take me to energy thresholds")) =
      .directive "⚡ Taking you to Energy Thresholds..." "navigate" "energy" := by
    simp only [Intent.handler]
    decide
  rw [← hnav]
  exact h

/-- The four other navigation targets are produced: by "open map", "open energy",
"show plan" and "open ai". -/
theorem getResponse_other_targets (context : Context) (fetch : Option GridStats) (rnd : Fin 3) :
    (getResponse context fetch rnd (some "open map")).result =
        .ok (.directive "🗺️ Opening Risk Map visualization..." "navigate" "risk-map") ∧
      (getResponse context fetch rnd (some "open energy")).result =
        .ok (.directive "⚡ Taking you to Energy Thresholds..." "navigate" "energy") ∧
      (getResponse context fetch rnd (some "show plan")).result =
        .ok (.directive "🔧 Opening Restoration Planner..." "navigate" "restoration") ∧
      (getResponse context fetch rnd (some "open ai")).result =
        .ok (.directive "🧠 Opening Explainable AI panel..." "navigate" "xai") := by
  have key : ∀ (raw : String) (r : Response),
      matchesPattern (normalizeMessage (some raw)) Intent.navigation.keywords = true →
      (∀ k : Intent, k.rank < Intent.navigation.rank →
        matchesPattern (normalizeMessage (some raw)) k.keywords = false) →
      getNavigationResponse (normalizeMessage (some raw)) = r →
      (getResponse context fetch rnd (some raw)).result = .ok r := by
    intro raw r hnav hfirst hr
    rw [← hr]
    exact dispatch_first_match (refreshStats context fetch).1 rnd (some raw)
      (normalizeMessage (some raw)) .navigation hnav hfirst
  refine ⟨key _ _ (by decide) (by intro k; cases k <;> decide) (by decide),
    key _ _ (by decide) (by intro k; cases k <;> decide) (by decide),
    key _ _ (by decide) (by intro k; cases k <;> decide) (by decide),
    key _ _ (by decide) (by intro k; cases k <;> decide) (by decide)⟩

/-- C8 (code at the failing input): "Show hospital monitor" resolves to the plain
hospital text, and no input at all resolves to a directive with target
`"hospital"`. -/
theorem getResponse_hospital_target_unreachable :
    (∀ (context : Context) (fetch : Option GridStats) (rnd : Fin 3),
      (getResponse context fetch rnd (some "Show hospital monitor")).result =
        .ok (.text getHospitalInfo)) ∧
    (∀ (context : Context) (fetch : Option GridStats) (rnd : Fin 3)
      (userMessage : Option String) (text action : String),
      (getResponse context fetch rnd userMessage).result ≠
        .ok (.directive text action "hospital")) := by
  constructor
  · intro context fetch rnd
    exact dispatch_first_match (refreshStats context fetch).1 rnd (some "Show hospital monitor")
      (normalizeMessage (some "Show hospital monitor")) .hospital
      (by decide) (by intro k; cases k <;> decide)
  · intro context fetch rnd userMessage text action
    exact dispatch_never_hospital _ rnd userMessage _ text action

/-- The model of `includes` agrees with the contiguous-sublist relation. -/
theorem includesChars_iff (s sub : List Char) :
    includesChars s sub = true ↔ sub <:+: s := by
  induction s with
  | nil => simp [includesChars, List.infix_nil]
  | cons c s ih =>
    simp only [includesChars, Bool.or_eq_true, ih, List.infix_cons_iff,
      List.isPrefixOf_iff_prefix]

theorem includes_of_infix (message long short : String)
    (hsub : short.data <:+: long.data) (h : includes message long = true) :
    includes message short = true := by
  unfold includes at *
  rw [includesChars_iff] at *
  exact hsub.trans h

theorem getNavigationResponse_of_no_destination (message : String)
    (hdest : ∀ w ∈ destinationWords, includes message w = false) :
    getNavigationResponse message = .text navigationHelp := by
  have hmap := hdest "map" (by simp [destinationWords])
  have henergy := hdest "energy" (by simp [destinationWords])
  have hthreshold := hdest "threshold" (by simp [destinationWords])
  have hrestoration := hdest "restoration" (by simp [destinationWords])
  have hplan := hdest "plan" (by simp [destinationWords])
  have hhospital := hdest "hospital" (by simp [destinationWords])
  have hai := hdest "ai" (by simp [destinationWords])
  have hexplain := hdest "explain" (by simp [destinationWords])
  have hriskmap : includes message "risk map" = false := by
    cases hrm : includes message "risk map" with
    | false => rfl
    | true =>
      have := includes_of_infix message "risk map" "map" ⟨"risk ".data, [], rfl⟩ hrm
      rw [hmap] at this
      exact Bool.noConfusion this
  unfold getNavigationResponse
  rw [hmap, henergy, hthreshold, hrestoration, hplan, hhospital, hai, hexplain, hriskmap]
  rfl

/-- C9: for every message dispatched to the navigation intent whose normalised form
contains none of the destination words (map, energy, threshold, restoration, plan,
hospital, ai, explain), `getNavigationResponse` returns the plain help string
"I can help you navigate! ..." (a string, not an object with an action field), and
that string is what `getResponse` resolves to. -/
theorem getNavigationResponse_no_destination (context : Context) (fetch : Option GridStats)
    (rnd : Fin 3) (userMessage : Option String)
    (hnav : matchesPattern (normalizeMessage userMessage) Intent.navigation.keywords = true)
    (hfirst : ∀ k : Intent, k.rank < Intent.navigation.rank →
      matchesPattern (normalizeMessage userMessage) k.keywords = false)
    (hdest : ∀ w ∈ destinationWords, includes (normalizeMessage userMessage) w = false) :
    getNavigationResponse (normalizeMessage userMessage) =
        .text "I can help you navigate! Try: 'Show me the risk map' or 'Open energy thresholds'" ∧
      (getResponse context fetch rnd userMessage).result =
        .ok (.text
          "I can help you navigate! Try: 'Show me the risk map' or 'Open energy thresholds'") := by
  have hhelp := getNavigationResponse_of_no_destination (normalizeMessage userMessage) hdest
  have hdisp := dispatch_first_match (refreshStats context fetch).1 rnd userMessage
    (normalizeMessage userMessage) .navigation hnav hfirst
  refine ⟨hhelp, ?_⟩
  have hres : (getResponse context fetch rnd userMessage).result =
      .ok (getNavigationResponse (normalizeMessage userMessage)) := hdisp
  rw [hres, hhelp]
  rfl

theorem getNavigationResponse_no_destination_witness :
    matchesPattern (normalizeMessage (some "Opn the dashboard")) Intent.navigation.keywords = true ∧
      (getResponse initialContext none 0 (some "Opn the dashboard")).result =
        .ok (.text
          "I can help you navigate! Try: 'Show me the risk map' or 'Open energy thresholds'") :=
  ⟨by decide,
    (getNavigationResponse_no_destination initialContext none 0 (some "Opn the dashboard")
      (by decide) (by intro k; cases k <;> decide) (by decide)).2⟩

theorem wellFormed_ite {c : Prop} [Decidable c] {a b : Except JsError Response}
    (ha : ∃ r, a = .ok r ∧ r.WellFormed) (hb : ∃ r, b = .ok r ∧ r.WellFormed) :
    ∃ r, (if c then a else b) = .ok r ∧ r.WellFormed := by
  by_cases h : c
  · rw [if_pos h]; exact ha
  · rw [if_neg h]; exact hb

/-- C10: for every input message, `getResponse` resolves (it does not throw), and the
value is either a plain string or an object whose `action` is `"navigate"` and whose
`target` is one of risk-map, energy, restoration, hospital, xai. -/
theorem getResponse_shape (context : Context) (fetch : Option GridStats) (rnd : Fin 3)
    (userMessage : String) :
    ∃ r, (getResponse context fetch rnd (some userMessage)).result = .ok r ∧ r.WellFormed := by
  have htext : ∀ t : String,
      ∃ r, (Except.ok (Response.text t) : Except JsError Response) = .ok r ∧ r.WellFormed :=
    fun t => ⟨.text t, rfl, trivial⟩
  show ∃ r, dispatch (refreshStats context fetch).1 rnd (some userMessage)
    (normalizeMessage (some userMessage)) = .ok r ∧ r.WellFormed
  unfold dispatch
  refine wellFormed_ite (htext _) ?_
  refine wellFormed_ite (htext _) ?_
  refine wellFormed_ite (htext _) ?_
  refine wellFormed_ite (htext _) ?_
  refine wellFormed_ite (htext _) ?_
  refine wellFormed_ite (htext _) ?_
  refine wellFormed_ite (htext _) ?_
  refine wellFormed_ite ⟨_, rfl, getNavigationResponse_wellFormed _⟩ ?_
  refine wellFormed_ite (htext _) ?_
  refine wellFormed_ite (htext _) ?_
  obtain ⟨t, ht⟩ := getSmartFallback_some userMessage
  rw [ht]
  exact htext t

/-- With no keyword of any category in the message, the dispatch falls through to
`getSmartFallback` on the raw message. -/
theorem dispatch_no_match (context : Context) (rnd : Fin 3) (userMessage : Option String)
    (message : String) (hnone : ∀ i : Intent, matchesPattern message i.keywords = false) :
    dispatch context rnd userMessage message =
      (getSmartFallback userMessage).map Response.text := by
  have e0 := hnone .greeting
  have e1 := hnone .status
  have e2 := hnone .criticalZones
  have e3 := hnone .help
  have e4 := hnone .breach
  have e5 := hnone .restoration
  have e6 := hnone .hospital
  have e7 := hnone .navigation
  have e8 := hnone .prediction
  have e9 := hnone .explanation
  simp only [Intent.keywords] at e0 e1 e2 e3 e4 e5 e6 e7 e8 e9
  unfold dispatch
  rw [e0, e1, e2, e3, e4, e5, e6, e7, e8, e9]
  rfl

/-! ### Lower-casing of ASCII text -/

theorem lowerChar_ascii (c : Char) (h : c.toNat < 128) : lowerChar c = [c.toLower] := by
  unfold lowerChar
  rw [if_pos h]

theorem lowerGo_cons (before : List Char) (c : Char) (rest : List Char) :
    lowerGo before (c :: rest) =
      (if c.toNat = 0x3A3 then
          [if finalSigma before rest then Char.ofNat 0x3C2 else Char.ofNat 0x3C3]
        else lowerChar c) ++ lowerGo (c :: before) rest := rfl

theorem lowerGo_cons_ascii (before : List Char) (c : Char) (rest : List Char)
    (h : c.toNat < 128) :
    lowerGo before (c :: rest) = c.toLower :: lowerGo (c :: before) rest := by
  rw [lowerGo_cons, if_neg (by omega), lowerChar_ascii c h]
  rfl

/-- ASCII text is lower-cased character by character, whatever surrounds it. -/
theorem lowerGo_append_ascii (b : List Char) :
    ∀ (s before : List Char), (∀ c ∈ s, c.toNat < 128) →
      lowerGo before (s ++ b) = lowerAscii s ++ lowerGo (s.reverse ++ before) b := by
  intro s
  induction s with
  | nil => intro before _; rfl
  | cons c rest ih =>
    intro before h
    have hc := h c (List.mem_cons_self _ _)
    rw [List.cons_append, lowerGo_cons_ascii before c _ hc,
      ih (c :: before) (fun x hx => h x (List.mem_cons_of_mem _ hx))]
    simp [lowerAscii]

theorem lowerGo_nil (before : List Char) : lowerGo before [] = [] := rfl

/-- On ASCII text `toLowerCase` is the map of `Char.toLower`. -/
theorem toLowerCase_ascii (s : List Char) (h : ∀ c ∈ s, c.toNat < 128) :
    toLowerCase s = lowerAscii s := by
  have := lowerGo_append_ascii [] s [] h
  rw [List.append_nil, lowerGo_nil, List.append_nil] at this
  exact this

theorem lowerGo_append_exists (b : List Char) :
    ∀ (a before : List Char), ∃ p,
      lowerGo before (a ++ b) = p ++ lowerGo (a.reverse ++ before) b := by
  intro a
  induction a with
  | nil => intro before; exact ⟨[], rfl⟩
  | cons x a ih =>
    intro before
    obtain ⟨p, hp⟩ := ih (x :: before)
    refine ⟨(if x.toNat = 0x3A3 then
        [if finalSigma before (a ++ b) then Char.ofNat 0x3C2 else Char.ofNat 0x3C3]
      else lowerChar x) ++ p, ?_⟩
    rw [List.cons_append, lowerGo_cons, hp, List.append_assoc]
    simp

/-- An ASCII run of a string is found, lower-cased, in the lower-cased string. -/
theorem toLowerCase_infix (sub s : List Char) (hsub : ∀ c ∈ sub, c.toNat < 128)
    (h : sub <:+: s) : lowerAscii sub <:+: toLowerCase s := by
  obtain ⟨a, b, rfl⟩ := h
  unfold toLowerCase
  rw [List.append_assoc]
  obtain ⟨p, hp⟩ := lowerGo_append_exists (sub ++ b) a []
  rw [hp, lowerGo_append_ascii b sub _ hsub]
  exact ⟨p, lowerGo (sub.reverse ++ (a.reverse ++ [])) b, by simp⟩

theorem testAny_of_includes (msg word : String) (alternatives : List String)
    (hmem : word ∈ alternatives) (h : includes msg word = true) :
    testAny msg alternatives = true := by
  unfold testAny
  rw [List.any_eq_true]
  exact ⟨word, hmem, h⟩

/-- The text `getSmartFallback` builds from the four other vocabulary tests when the
outage vocabulary test succeeds. -/
theorem fallback_text_has_breachHint (b1 b2 b4 b5 : Bool) :
    includes
      ("I think I can help with that!\n\n" ++ "\n".intercalate
        ((if b1 then ["💡 Try: 'Show critical zones' or 'What zones need attention?'"] else [])
          ++ (if b2 then ["💡 Ask: 'What's the grid status?' or 'Show energy levels'"] else [])
          ++ (if true then ["💡 Try: 'Show breach status' or 'What's the emergency?'"] else [])
          ++ (if b4 then ["💡 Ask: 'Show restoration timeline' or 'How long for repairs?'"]
            else [])
          ++ (if b5 then ["💡 Say: 'Open the risk map' or 'Navigate to zones'"] else []))
        ++ "\n\n📚 Type \"help\" for all capabilities.") breachHint = true := by
  cases b1 <;> cases b2 <;> cases b4 <;> cases b5 <;> decide

theorem getSmartFallback_outage (raw : String) (hout : includes raw "outage" = true) :
    ∃ t, getSmartFallback (some raw) = .ok t ∧
      includes t breachHint = true ∧
      "💡 Try: 'Show breach status' or 'What's the emergency?'" ∈
        fallbackSuggestions (String.mk (toLowerCase raw.data)) ∧
      t = "I think I can help with that!\n\n" ++ "\n".intercalate
        (fallbackSuggestions (String.mk (toLowerCase raw.data)))
        ++ "\n\n📚 Type \"help\" for all capabilities." := by
  have hlow : includes (String.mk (toLowerCase raw.data)) "outage" = true := by
    unfold includes at hout ⊢
    rw [includesChars_iff] at hout ⊢
    have h := toLowerCase_infix _ _ (by decide) hout
    have hfix : lowerAscii "outage".data = "outage".data := by decide
    rw [hfix] at h
    exact h
  have htest := testAny_of_includes (String.mk (toLowerCase raw.data)) "outage"
    ["break", "fail", "outage", "problem", "issue", "down"] (by simp) hlow
  have hsug : fallbackSuggestions (String.mk (toLowerCase raw.data)) =
      (if testAny (String.mk (toLowerCase raw.data))
          ["zone", "area", "location", "sector", "region"] then
        ["💡 Try: 'Show critical zones' or 'What zones need attention?'"] else [])
      ++ (if testAny (String.mk (toLowerCase raw.data))
          ["power", "energy", "electric", "load"] then
        ["💡 Ask: 'What's the grid status?' or 'Show energy levels'"] else [])
      ++ (if true then ["💡 Try: 'Show breach status' or 'What's the emergency?'"] else [])
      ++ (if testAny (String.mk (toLowerCase raw.data))
          ["when", "time", "how long", "duration"] then
        ["💡 Ask: 'Show restoration timeline' or 'How long for repairs?'"] else [])
      ++ (if testAny (String.mk (toLowerCase raw.data))
          ["where", "map", "show me", "find"] then
        ["💡 Say: 'Open the risk map' or 'Navigate to zones'"] else []) := by
    unfold fallbackSuggestions
    rw [htest]
  have hmem : "💡 Try: 'Show breach status' or 'What's the emergency?'" ∈
      fallbackSuggestions (String.mk (toLowerCase raw.data)) := by
    rw [hsug]
    simp
  have hlen : (fallbackSuggestions (String.mk (toLowerCase raw.data))).length > 0 :=
    List.length_pos_of_mem hmem
  refine ⟨_, ?_, ?_, hmem, rfl⟩
  · unfold getSmartFallback
    simp only []
    rw [if_pos hlen]
  · rw [hsug]
    exact fallback_text_has_breachHint _ _ _ _

/-- C15: for every message whose normalised form contains no keyword of any of the ten
intent categories and whose raw text contains "outage", `getResponse` resolves to the
suggestion string ("I think I can help with that!" followed by the suggestions), and
that string includes the hint "Try: 'Show breach status' or 'What's the emergency?'". -/
theorem getResponse_outage_suggestion (context : Context) (fetch : Option GridStats)
    (rnd : Fin 3) (raw : String)
    (hnone : ∀ i : Intent, matchesPattern (normalizeMessage (some raw)) i.keywords = false)
    (hout : includes raw "outage" = true) :
    ∃ t, (getResponse context fetch rnd (some raw)).result = .ok (.text t) ∧
      includes t "Try: 'Show breach status' or 'What's the emergency?'" = true ∧
      t = "I think I can help with that!\n\n" ++ "\n".intercalate
        (fallbackSuggestions (String.mk (toLowerCase raw.data)))
        ++ "\n\n📚 Type \"help\" for all capabilities." := by
  obtain ⟨t, ht, hinc, _, heq⟩ := getSmartFallback_outage raw hout
  refine ⟨t, ?_, hinc, heq⟩
  have hd := dispatch_no_match (refreshStats context fetch).1 rnd (some raw)
    (normalizeMessage (some raw)) hnone
  have hres : (getResponse context fetch rnd (some raw)).result =
      (getSmartFallback (some raw)).map Response.text := hd
  rw [hres, ht]
  rfl

theorem getResponse_outage_suggestion_witness :
    ∃ t, (getResponse initialContext none 0 (some "Any outage?")).result = .ok (.text t) ∧
      includes t "Try: 'Show breach status' or 'What's the emergency?'" = true ∧
      t = "I think I can help with that!\n\n" ++ "\n".intercalate
        (fallbackSuggestions (String.mk (toLowerCase "Any outage?".data)))
        ++ "\n\n📚 Type \"help\" for all capabilities." :=
  getResponse_outage_suggestion initialContext none 0 "Any outage?"
    (by intro i; cases i <;> decide) (by decide)

theorem getSmartFallback_generic (raw : String)
    (hsug : fallbackSuggestions (String.mk (toLowerCase raw.data)) = []) :
    getSmartFallback (some raw) = .ok genericFallback := by
  unfold getSmartFallback
  simp only []
  rw [hsug]
  rfl

/-- C16: for every string message whose normalised form contains no keyword of any
intent category and whose lower-cased raw text matches none of the five fallback
vocabulary patterns, `getResponse` resolves to exactly the generic capability-menu
string ("Hmm, I'm not sure about that specific question. ..."). -/
theorem getResponse_generic_fallback (context : Context) (fetch : Option GridStats)
    (rnd : Fin 3) (raw : String)
    (hnone : ∀ i : Intent, matchesPattern (normalizeMessage (some raw)) i.keywords = false)
    (hzone : testAny (String.mk (toLowerCase raw.data))
      ["zone", "area", "location", "sector", "region"] = false)
    (hpower : testAny (String.mk (toLowerCase raw.data))
      ["power", "energy", "electric", "load"] = false)
    (hfail : testAny (String.mk (toLowerCase raw.data))
      ["break", "fail", "outage", "problem", "issue", "down"] = false)
    (htime : testAny (String.mk (toLowerCase raw.data))
      ["when", "time", "how long", "duration"] = false)
    (hwhere : testAny (String.mk (toLowerCase raw.data))
      ["where", "map", "show me", "find"] = false) :
    (getResponse context fetch rnd (some raw)).result = .ok (.text genericFallback) := by
  have hd := dispatch_no_match (refreshStats context fetch).1 rnd (some raw)
    (normalizeMessage (some raw)) hnone
  have hres : (getResponse context fetch rnd (some raw)).result =
      (getSmartFallback (some raw)).map Response.text := hd
  have hsug : fallbackSuggestions (String.mk (toLowerCase raw.data)) = [] := by
    unfold fallbackSuggestions
    rw [hzone, hpower, hfail, htime, hwhere]
    rfl
  rw [hres, getSmartFallback_generic raw hsug]
  rfl

theorem getResponse_generic_fallback_witness :
    (getResponse initialContext none 0 (some "Tell me a joke")).result =
      .ok (.text genericFallback) :=
  getResponse_generic_fallback initialContext none 0 "Tell me a joke"
    (by intro i; cases i <;> decide) (by decide) (by decide) (by decide) (by decide) (by decide)

/-- C17 (code at the failing input): on `null` (or `undefined`) `getResponse` rejects
with the `TypeError` of `userMsg.toLowerCase()` in `getSmartFallback`; on the empty
string it resolves to the generic fallback. -/
theorem getResponse_null_throws (context : Context) (fetch : Option GridStats) (rnd : Fin 3) :
    (getResponse context fetch rnd none).result = .error .typeError ∧
      (getResponse context fetch rnd (some "")).result = .ok (.text genericFallback) := by
  constructor
  · exact dispatch_no_match (refreshStats context fetch).1 rnd none (normalizeMessage none)
      (by intro i; cases i <;> decide)
  · have hd := dispatch_no_match (refreshStats context fetch).1 rnd (some "")
      (normalizeMessage (some "")) (by intro i; cases i <;> decide)
    have hres : (getResponse context fetch rnd (some "")).result =
        (getSmartFallback (some "")).map Response.text := hd
    rw [hres, getSmartFallback_generic "" (by decide)]
    rfl

theorem refreshStats_cached (context : Context) (fetch : Option GridStats) (stats : GridStats)
    (h : context.gridStats = some stats) : refreshStats context fetch = (context, false) := by
  unfold refreshStats
  rw [h]

theorem refreshStats_empty (context : Context) (fetch : Option GridStats)
    (h : context.gridStats = none) :
    (refreshStats context fetch).2 = true ∧
      (refreshStats context fetch).1.gridStats = fetch ∧
      (refreshStats context fetch).1.currentTab = context.currentTab ∧
      (refreshStats context fetch).1.lastQuery = context.lastQuery := by
  unfold refreshStats
  rw [h]
  cases fetch with
  | none => exact ⟨rfl, h, rfl, rfl⟩
  | some data => exact ⟨rfl, rfl, rfl, rfl⟩

/-- C18: when `context.gridStats` is null and the statistics fetch fails, `getResponse`
on a message that resolves to the status intent (a status keyword and no greeting
keyword) does not throw, resolves to exactly the "I'm fetching the latest data..."
placeholder, and leaves `gridStats` null. -/
theorem getResponse_status_fetch_failed (context : Context) (rnd : Fin 3)
    (userMessage : Option String) (hempty : context.gridStats = none)
    (hstatus : matchesPattern (normalizeMessage userMessage) Intent.status.keywords = true)
    (hgreeting : matchesPattern (normalizeMessage userMessage) Intent.greeting.keywords = false) :
    (getResponse context none rnd userMessage).result =
        .ok (.text
          "⚡ **Current Grid Status:**\n- I'm fetching the latest data...\n- Please ask again in a moment.") ∧
      (getResponse context none rnd userMessage).context.gridStats = none := by
  have hfirst : ∀ k : Intent, k.rank < Intent.status.rank →
      matchesPattern (normalizeMessage userMessage) k.keywords = false := by
    intro k hk
    cases k <;> first | exact hgreeting | exact absurd hk (by decide)
  have hd := dispatch_first_match (refreshStats context none).1 rnd userMessage
    (normalizeMessage userMessage) .status hstatus hfirst
  have hctx := (refreshStats_empty context none hempty).2.1
  refine ⟨?_, hctx⟩
  have hres : (getResponse context none rnd userMessage).result =
      .ok (.text (getGridStatus (refreshStats context none).1)) := hd
  rw [hres]
  unfold getGridStatus
  rw [hctx]

theorem getResponse_status_fetch_failed_witness :
    (getResponse initialContext none 0 (some "What is the gird staus?")).result =
        .ok (.text
          "⚡ **Current Grid Status:**\n- I'm fetching the latest data...\n- Please ask again in a moment.") ∧
      (getResponse initialContext none 0 (some "What is the gird staus?")).context.gridStats
        = none :=
  getResponse_status_fetch_failed initialContext 0 (some "What is the gird staus?") rfl
    (by decide) (by decide)

theorem getResponse_context (context : Context) (fetch : Option GridStats) (rnd : Fin 3)
    (userMessage : Option String) :
    (getResponse context fetch rnd userMessage).context = (refreshStats context fetch).1 ∧
      (getResponse context fetch rnd userMessage).fetched = (refreshStats context fetch).2 :=
  ⟨rfl, rfl⟩

theorem getResponse_cached (context : Context) (fetch : Option GridStats) (rnd : Fin 3)
    (userMessage : Option String) (stats : GridStats) (h : context.gridStats = some stats) :
    (getResponse context fetch rnd userMessage).fetched = false ∧
      (getResponse context fetch rnd userMessage).context = context := by
  have hc := getResponse_context context fetch rnd userMessage
  rw [refreshStats_cached context fetch stats h] at hc
  exact ⟨hc.2, hc.1⟩

/-- C19 (as amended): whatever intent the message resolves to, `getResponse` requests
the statistics exactly when `context.gridStats` is null at the call, and `gridStats`
is then what the request returned (still null when it failed); when `gridStats` is
already populated no request is made and the context is left unchanged. -/
theorem getResponse_fetch_when_empty (context : Context) (fetch : Option GridStats)
    (rnd : Fin 3) (userMessage : Option String) :
    (context.gridStats = none →
      (getResponse context fetch rnd userMessage).fetched = true ∧
      (getResponse context fetch rnd userMessage).context.gridStats = fetch) ∧
    (∀ stats : GridStats, context.gridStats = some stats →
      (getResponse context fetch rnd userMessage).fetched = false ∧
      (getResponse context fetch rnd userMessage).context = context) := by
  constructor
  · intro hempty
    have hc := getResponse_context context fetch rnd userMessage
    have he := refreshStats_empty context fetch hempty
    rw [hc.1, hc.2]
    exact ⟨he.1, he.2.1⟩
  · intro stats hstats
    exact getResponse_cached context fetch rnd userMessage stats hstats

theorem getResponse_fetch_when_empty_witness :
    ((getResponse initialContext (some sampleStats) 1 (some "show plan")).fetched = true ∧
      (getResponse initialContext (some sampleStats) 1 (some "show plan")).context.gridStats
        = some sampleStats) ∧
    ((getResponse ⟨"home", some sampleStats, none⟩ none 1 (some "grid status")).fetched = false ∧
      (getResponse ⟨"home", some sampleStats, none⟩ none 1 (some "grid status")).context
        = ⟨"home", some sampleStats, none⟩) :=
  ⟨(getResponse_fetch_when_empty initialContext (some sampleStats) 1 (some "show plan")).1 rfl,
    (getResponse_fetch_when_empty ⟨"home", some sampleStats, none⟩ none 1
      (some "grid status")).2 sampleStats rfl⟩

/-- C19 (as stated) fails: "hello" resolves to the greeting, not to the status intent,
yet on the initial context the call requests the statistics and `gridStats` changes
from null to the fetched object. -/
theorem getResponse_fetch_on_greeting_counterexample :
    matchesPattern (normalizeMessage (some "hello")) Intent.status.keywords = false ∧
      (getResponse initialContext (some sampleStats) 0 (some "hello")).result =
        .ok (.text (getGreeting 0)) ∧
      (getResponse initialContext (some sampleStats) 0 (some "hello")).fetched = true ∧
      initialContext.gridStats = none ∧
      (getResponse initialContext (some sampleStats) 0 (some "hello")).context.gridStats =
        some sampleStats := by
  refine ⟨by decide, ?_, rfl, rfl, rfl⟩
  exact dispatch_first_match (refreshStats initialContext (some sampleStats)).1 0 (some "hello")
    (normalizeMessage (some "hello")) .greeting (by decide) (by intro k; cases k <;> decide)

theorem getResponses_cached (snapshot : GridStats) (calls : List Call) :
    ∀ context : Context, context.gridStats = some snapshot →
      ∀ o ∈ getResponses context calls,
        o.fetched = false ∧ o.context.gridStats = some snapshot := by
  induction calls with
  | nil => intro context _ o ho; simp [getResponses] at ho
  | cons call rest ih =>
    intro context hctx o ho
    have hc := getResponse_cached context call.fetch call.rnd call.userMessage snapshot hctx
    simp only [getResponses, List.mem_cons] at ho
    rcases ho with rfl | ho
    · exact ⟨hc.1, by rw [hc.2]; exact hctx⟩
    · exact ih _ (by rw [hc.2]; exact hctx) o ho

/-- C20: once a call of `getResponse` has populated `context.gridStats` by a successful
fetch, every later call, for any message (and whatever a request would return), makes
no request and leaves `gridStats` equal to that first snapshot. -/
theorem getResponses_cache_never_refreshed (context : Context) (snapshot : GridStats)
    (first : Call) (later : List Call)
    (hempty : context.gridStats = none) (hfetch : first.fetch = some snapshot) :
    (getResponse context first.fetch first.rnd first.userMessage).context.gridStats =
        some snapshot ∧
      ∀ o ∈ getResponses
          (getResponse context first.fetch first.rnd first.userMessage).context later,
        o.fetched = false ∧ o.context.gridStats = some snapshot := by
  have hc := getResponse_context context first.fetch first.rnd first.userMessage
  have he := refreshStats_empty context first.fetch hempty
  have hpop : (getResponse context first.fetch first.rnd first.userMessage).context.gridStats =
      some snapshot := by
    rw [hc.1, he.2.1, hfetch]
  exact ⟨hpop, getResponses_cached snapshot later _ hpop⟩

theorem getResponses_cache_never_refreshed_witness :
    (getResponse initialContext (some sampleStats) 0 (some "grid status")).context.gridStats =
        some sampleStats ∧
      ∀ o ∈ getResponses
          (getResponse initialContext (some sampleStats) 0 (some "grid status")).context
          [⟨some ⟨some 1, some 2, some 3, none⟩, 1, some "status now"⟩, ⟨none, 2, some "hello"⟩],
        o.fetched = false ∧ o.context.gridStats = some sampleStats :=
  getResponses_cache_never_refreshed initialContext sampleStats
    ⟨some sampleStats, 0, some "grid status"⟩
    [⟨some ⟨some 1, some 2, some 3, none⟩, 1, some "status now"⟩, ⟨none, 2, some "hello"⟩]
    rfl rfl

/-! ## Theorems: message normaliser -/

/-! ### Characters -/

theorem isUpper_iff (c : Char) : c.isUpper = true ↔ 65 ≤ c.toNat ∧ c.toNat ≤ 90 := by
  unfold Char.isUpper
  rw [Bool.and_eq_true, decide_eq_true_iff, decide_eq_true_iff]
  exact Iff.rfl

theorem isLower_iff (c : Char) : c.isLower = true ↔ 97 ≤ c.toNat ∧ c.toNat ≤ 122 := by
  unfold Char.isLower
  rw [Bool.and_eq_true, decide_eq_true_iff, decide_eq_true_iff]
  exact Iff.rfl

theorem isDigit_iff (c : Char) : c.isDigit = true ↔ 48 ≤ c.toNat ∧ c.toNat ≤ 57 := by
  unfold Char.isDigit
  rw [Bool.and_eq_true, decide_eq_true_iff, decide_eq_true_iff]
  exact Iff.rfl

theorem beq_underscore_iff (c : Char) : (c == '_') = true ↔ c.toNat = 95 := by
  rw [beq_iff_eq]
  constructor
  · rintro rfl; rfl
  · intro h
    rw [← Char.ofNat_toNat c, h]

theorem isWordChar_iff (c : Char) :
    isWordChar c = true ↔
      (65 ≤ c.toNat ∧ c.toNat ≤ 90) ∨ (97 ≤ c.toNat ∧ c.toNat ≤ 122) ∨
        (48 ≤ c.toNat ∧ c.toNat ≤ 57) ∨ c.toNat = 95 := by
  unfold isWordChar Char.isAlphanum Char.isAlpha
  rw [Bool.or_eq_true, Bool.or_eq_true, Bool.or_eq_true, isUpper_iff, isLower_iff, isDigit_iff,
    beq_underscore_iff]
  tauto

theorem toLower_of_not_upper (c : Char) (h : ¬ (65 ≤ c.toNat ∧ c.toNat ≤ 90)) :
    c.toLower = c := by
  unfold Char.toLower
  simp only []
  rw [if_neg h]

theorem toLower_toNat_of_upper (c : Char) (h : 65 ≤ c.toNat ∧ c.toNat ≤ 90) :
    c.toLower.toNat = c.toNat + 32 := by
  unfold Char.toLower
  simp only []
  rw [if_pos h]
  obtain ⟨h1, h2⟩ := h
  generalize c.toNat = n at h1 h2
  interval_cases n <;> rfl

theorem toLower_toNat (c : Char) :
    c.toLower.toNat = if 65 ≤ c.toNat ∧ c.toNat ≤ 90 then c.toNat + 32 else c.toNat := by
  by_cases h : 65 ≤ c.toNat ∧ c.toNat ≤ 90
  · rw [if_pos h, toLower_toNat_of_upper c h]
  · rw [if_neg h, toLower_of_not_upper c h]

theorem char_eq_of_toNat_eq (a b : Char) (h : a.toNat = b.toNat) : a = b := by
  rw [← Char.ofNat_toNat a, ← Char.ofNat_toNat b, h]

theorem isWordChar_toLower (c : Char) : isWordChar c.toLower = isWordChar c := by
  rw [Bool.eq_iff_iff, isWordChar_iff, isWordChar_iff, toLower_toNat]
  split_ifs with h <;> omega

theorem toLower_toLower (c : Char) : c.toLower.toLower = c.toLower := by
  apply toLower_of_not_upper
  rw [toLower_toNat]
  split_ifs with h <;> omega

theorem toLower_of_isLower (p : Char) (h : p.isLower = true) : p.toLower = p := by
  apply toLower_of_not_upper
  rw [isLower_iff] at h
  omega

theorem isWordChar_of_isLower (p : Char) (h : p.isLower = true) : isWordChar p = true := by
  rw [isWordChar_iff]
  rw [isLower_iff] at h
  omega

theorem isWordChar_of_toLower_eq (p x : Char) (hp : p.isLower = true)
    (h : p.toLower = x.toLower) : isWordChar x = true := by
  rw [← isWordChar_toLower x, ← h, toLower_of_isLower p hp]
  exact isWordChar_of_isLower p hp

theorem isJsWhiteSpace_iff (c : Char) :
    isJsWhiteSpace c = true ↔
      c.toNat ∈ [0x09, 0x0A, 0x0B, 0x0C, 0x0D, 0x20, 0xA0, 0x1680, 0x2028, 0x2029,
        0x202F, 0x205F, 0x3000, 0xFEFF] ∨ (0x2000 ≤ c.toNat ∧ c.toNat ≤ 0x200A) := by
  unfold isJsWhiteSpace
  rw [Bool.or_eq_true, Bool.and_eq_true, decide_eq_true_iff, decide_eq_true_iff,
    decide_eq_true_iff]

theorem isWordChar_of_isJsWhiteSpace (c : Char) (h : isJsWhiteSpace c = true) :
    isWordChar c = false := by
  rw [isJsWhiteSpace_iff] at h
  rw [Bool.eq_false_iff]
  intro hw
  rw [isWordChar_iff] at hw
  simp only [List.mem_cons, List.mem_singleton, List.not_mem_nil, or_false] at h
  omega

theorem isJsWhiteSpace_toLower (c : Char) : isJsWhiteSpace c.toLower = isJsWhiteSpace c := by
  by_cases h : 65 ≤ c.toNat ∧ c.toNat ≤ 90
  · have h1 : isJsWhiteSpace c = false := by
      rw [Bool.eq_false_iff, Ne, isJsWhiteSpace_iff]
      simp only [List.mem_cons, List.mem_singleton, List.not_mem_nil, or_false]
      omega
    have h2 : isJsWhiteSpace c.toLower = false := by
      rw [Bool.eq_false_iff, Ne, isJsWhiteSpace_iff, toLower_toNat, if_pos h]
      simp only [List.mem_cons, List.mem_singleton, List.not_mem_nil, or_false]
      omega
    rw [h1, h2]
  · rw [toLower_of_not_upper c h]

/-! ### Word runs -/

theorem isWordOpt_none : isWordOpt none = false := rfl

theorem isWordOpt_some (c : Char) : isWordOpt (some c) = isWordChar c := rfl

/-- Induction over a string by separators and whole words. -/
theorem wordRun_induction {P : List Char → Prop} (hnil : P [])
    (hsep : ∀ x s, isWordChar x = false → P s → P (x :: s))
    (hword : ∀ w s, w ≠ [] → (∀ c ∈ w, isWordChar c = true) → isWordOpt s.head? = false →
      P s → P (w ++ s)) :
    ∀ s, P s := by
  have key : ∀ n : Nat, ∀ s : List Char, s.length ≤ n → P s := by
    intro n
    induction n with
    | zero =>
      intro s hs
      have : s = [] := List.length_eq_zero.mp (Nat.le_zero.mp hs)
      rw [this]; exact hnil
    | succ n ih =>
      intro s hs
      cases s with
      | nil => exact hnil
      | cons x s' =>
        have hs' : s'.length ≤ n := by simpa using hs
        by_cases hx : isWordChar x = true
        · have hsplit : x :: s' =
              (x :: s').takeWhile isWordChar ++ (x :: s').dropWhile isWordChar :=
            (List.takeWhile_append_dropWhile _ _).symm
          have hne : (x :: s').takeWhile isWordChar ≠ [] := by
            rw [List.takeWhile_cons, if_pos hx]; exact List.cons_ne_nil _ _
          have hlen : ((x :: s').dropWhile isWordChar).length ≤ n := by
            have h1 := congrArg List.length hsplit
            rw [List.length_append, List.length_cons] at h1
            have h2 : 0 < ((x :: s').takeWhile isWordChar).length :=
              List.length_pos.mpr hne
            omega
          rw [hsplit]
          refine hword _ _ hne (fun c hc => List.mem_takeWhile_imp hc) ?_ (ih _ hlen)
          have hd := List.head?_dropWhile_not isWordChar (x :: s')
          cases hh : ((x :: s').dropWhile isWordChar).head? with
          | none => rfl
          | some y =>
            rw [hh] at hd
            simpa [isWordOpt] using hd
        · have hx' : isWordChar x = false := by simpa using hx
          exact hsep x s' hx' (ih s' hs')
  exact fun s => key s.length s (Nat.le_refl _)

/-! ### One replacement pass -/

theorem isLowerWord_iff (t : List Char) :
    isLowerWord t = true ↔ t ≠ [] ∧ ∀ p ∈ t, p.isLower = true := by
  unfold isLowerWord
  cases t <;> simp

theorem matchesAt_exact (t : List Char) (ht : ∀ p ∈ t, p.isLower = true) :
    ∀ w post : List Char, (∀ c ∈ w, isWordChar c = true) → isWordOpt post.head? = false →
      (matchesAt t (w ++ post) && !isWordOpt ((w ++ post).drop t.length).head?) =
        decide (lowerAscii w = t) := by
  induction t with
  | nil =>
    intro w post hw hpost
    cases w with
    | nil => simp [matchesAt, hpost, lowerAscii]
    | cons x w' =>
      have hx : isWordChar x = true := hw x (List.mem_cons_self _ _)
      simp [matchesAt, lowerAscii, isWordOpt, hx]
  | cons p ps ih =>
    intro w post hw hpost
    have hp : p.isLower = true := ht p (List.mem_cons_self _ _)
    have hps : ∀ q ∈ ps, q.isLower = true := fun q hq => ht q (List.mem_cons_of_mem _ hq)
    cases w with
    | nil =>
      cases post with
      | nil => simp [matchesAt, lowerAscii]
      | cons y post' =>
        have hy : isWordChar y = false := by simpa [isWordOpt] using hpost
        have hne : (p.toLower == y.toLower) = false := by
          rw [Bool.eq_false_iff]
          intro heq
          have := isWordChar_of_toLower_eq p y hp (by simpa using heq)
          rw [hy] at this
          exact Bool.noConfusion this
        simp [matchesAt, hne, lowerAscii]
    | cons x w' =>
      have hw' : ∀ c ∈ w', isWordChar c = true := fun c hc => hw c (List.mem_cons_of_mem _ hc)
      have ih' := ih hps w' post hw' hpost
      have hstep : (matchesAt (p :: ps) ((x :: w') ++ post) &&
            !isWordOpt (((x :: w') ++ post).drop (p :: ps).length).head?) =
          ((p.toLower == x.toLower) && (matchesAt ps (w' ++ post) &&
            !isWordOpt ((w' ++ post).drop ps.length).head?)) := by
        simp only [List.cons_append, matchesAt, List.length_cons, List.drop_succ_cons,
          Bool.and_assoc]
        rfl
      rw [hstep, ih', toLower_of_isLower p hp]
      by_cases hx : x.toLower = p
      · by_cases hrest : lowerAscii w' = ps
        · simp [lowerAscii, hx, hrest] at hrest ⊢
        · have : ¬ (lowerAscii (x :: w') = p :: ps) := by
            intro h
            apply hrest
            simp only [lowerAscii, List.map_cons, List.cons.injEq] at h
            exact h.2
          simp [hx, hrest, this]
      · have h1 : (p == x.toLower) = false := by
          rw [Bool.eq_false_iff]; intro h; exact hx (beq_iff_eq.mp h).symm
        have h2 : ¬ (lowerAscii (x :: w') = p :: ps) := by
          intro h
          simp only [lowerAscii, List.map_cons, List.cons.injEq] at h
          exact hx h.1
        simp [h1, h2]

theorem matchesAt_last_word (t : List Char) (ht : ∀ p ∈ t, p.isLower = true) (hne : t ≠ []) :
    ∀ s : List Char, matchesAt t s = true → isWordOpt (s.take t.length).getLast? = true := by
  induction t with
  | nil => exact absurd rfl hne
  | cons p ps ih =>
    intro s hs
    have hp : p.isLower = true := ht p (List.mem_cons_self _ _)
    cases s with
    | nil => simp [matchesAt] at hs
    | cons c cs =>
      simp only [matchesAt, Bool.and_eq_true, beq_iff_eq] at hs
      have hc : isWordChar c = true := isWordChar_of_toLower_eq p c hp hs.1
      cases ps with
      | nil => simp [isWordOpt, hc]
      | cons q qs =>
        have hrec := ih (fun r hr => ht r (List.mem_cons_of_mem _ hr)) (List.cons_ne_nil _ _)
          cs hs.2
        cases cs with
        | nil => simp [matchesAt] at hs
        | cons d ds =>
          simp only [List.length_cons, List.take_succ_cons] at hrec ⊢
          rw [List.getLast?_cons_cons]
          exact hrec

theorem replaceGo_cons_zero (t canon : List Char) (b : Option Char) (c : Char)
    (rest : List Char) :
    replaceGo t canon b 0 (c :: rest) =
      if wordMatchAt t b (c :: rest) = true then
        canon ++ replaceGo t canon (some c) (t.length - 1) rest
      else c :: replaceGo t canon (some c) 0 rest := by
  simp [replaceGo]

theorem replaceGo_skip (t canon : List Char) (s : List Char) :
    ∀ (u : List Char) (b : Char),
      replaceGo t canon (some b) u.length (u ++ s) = replaceGo t canon (b :: u).getLast? 0 s := by
  intro u
  induction u with
  | nil => intro b; rfl
  | cons y u' ih =>
    intro b
    have h := ih y
    rw [List.getLast?_cons_cons]
    rw [← h]
    simp [replaceGo]

theorem replaceGo_before (t canon : List Char) (b : Option Char) (s : List Char)
    (hb : isWordOpt b = false) :
    replaceGo t canon b 0 s = replaceGo t canon none 0 s := by
  cases s with
  | nil => rfl
  | cons y s' =>
    have hm : wordMatchAt t b (y :: s') = wordMatchAt t none (y :: s') := by
      unfold wordMatchAt wordBoundary
      have h1 : (Option.map isWordChar b).getD false = false := hb
      rw [h1]
      rfl
    rw [replaceGo_cons_zero, replaceGo_cons_zero, hm]

theorem wordMatchAt_sep (t : List Char) (ht : isLowerWord t = true) (b : Option Char)
    (x : Char) (s : List Char) (hx : isWordChar x = false) :
    wordMatchAt t b (x :: s) = false := by
  rw [isLowerWord_iff] at ht
  obtain ⟨hne, hlow⟩ := ht
  cases t with
  | nil => exact absurd rfl hne
  | cons p ps =>
    have hp : p.isLower = true := hlow p (List.mem_cons_self _ _)
    have hno : (p.toLower == x.toLower) = false := by
      rw [Bool.eq_false_iff]
      intro heq
      have := isWordChar_of_toLower_eq p x hp (beq_iff_eq.mp heq)
      rw [hx] at this
      exact Bool.noConfusion this
    simp [wordMatchAt, matchesAt, hno]

theorem replaceGo_sep (t canon : List Char) (ht : isLowerWord t = true) (b : Option Char)
    (x : Char) (s : List Char) (hx : isWordChar x = false) :
    replaceGo t canon b 0 (x :: s) = x :: replaceGo t canon none 0 s := by
  have hstep : replaceGo t canon b 0 (x :: s) = x :: replaceGo t canon (some x) 0 s := by
    rw [replaceGo_cons_zero, wordMatchAt_sep t ht b x s hx]
    simp
  rw [hstep, replaceGo_before t canon (some x) s (by rw [isWordOpt_some, hx])]

theorem replaceGo_head_sep (t canon : List Char) (ht : isLowerWord t = true)
    (b : Option Char) (s : List Char) (hs : isWordOpt s.head? = false) :
    replaceGo t canon b 0 s = replaceGo t canon none 0 s := by
  cases s with
  | nil => rfl
  | cons y s' =>
    have hy : isWordChar y = false := hs
    rw [replaceGo_sep t canon ht b y s' hy, replaceGo_sep t canon ht none y s' hy]

theorem replaceGo_inside (t canon : List Char) (s : List Char) :
    ∀ (w : List Char) (b : Char), isWordChar b = true → (∀ c ∈ w, isWordChar c = true) →
      replaceGo t canon (some b) 0 (w ++ s) =
        w ++ replaceGo t canon (b :: w).getLast? 0 s := by
  intro w
  induction w with
  | nil => intro b _ _; rfl
  | cons y w' ih =>
    intro b hb hw
    have hy : isWordChar y = true := hw y (List.mem_cons_self _ _)
    have hm : wordMatchAt t (some b) (y :: (w' ++ s)) = false := by
      simp [wordMatchAt, wordBoundary, hb, hy]
    have h := ih y hy (fun c hc => hw c (List.mem_cons_of_mem _ hc))
    rw [List.getLast?_cons_cons, List.cons_append, replaceGo_cons_zero, hm, h]
    simp

theorem wordMatchAt_word (t : List Char) (ht : isLowerWord t = true) (b : Option Char)
    (hb : isWordOpt b = false) (w post : List Char) (hne : w ≠ [])
    (hw : ∀ c ∈ w, isWordChar c = true) (hpost : isWordOpt post.head? = false) :
    wordMatchAt t b (w ++ post) = decide (lowerAscii w = t) := by
  rw [isLowerWord_iff] at ht
  obtain ⟨htne, hlow⟩ := ht
  have hexact := matchesAt_exact t hlow w post hw hpost
  have hhead : wordBoundary b (w ++ post).head? = true := by
    cases w with
    | nil => exact absurd rfl hne
    | cons x w' =>
      have hx : isWordChar x = true := hw x (List.mem_cons_self _ _)
      have h1 : (Option.map isWordChar b).getD false = false := hb
      simp [wordBoundary, h1, hx]
  unfold wordMatchAt
  rw [hhead, Bool.true_and]
  cases hm : matchesAt t (w ++ post) with
  | false =>
    rw [hm, Bool.false_and] at hexact
    rw [Bool.false_and]
    exact hexact
  | true =>
    have hlast := matchesAt_last_word t hlow htne (w ++ post) hm
    rw [hm, Bool.true_and] at hexact
    rw [Bool.true_and, ← hexact]
    unfold wordBoundary
    have h1 : (Option.map isWordChar (List.take t.length (w ++ post)).getLast?).getD false
        = true := hlast
    rw [h1]
    unfold isWordOpt
    cases (Option.map isWordChar (List.drop t.length (w ++ post)).head?).getD false <;> rfl

/-- One pass on a string that begins with a whole word: the word is replaced when it
is the typo in some letter case and kept otherwise. -/
theorem replaceGo_word (t canon : List Char) (ht : isLowerWord t = true) (b : Option Char)
    (hb : isWordOpt b = false) (w post : List Char) (hne : w ≠ [])
    (hw : ∀ c ∈ w, isWordChar c = true) (hpost : isWordOpt post.head? = false) :
    replaceGo t canon b 0 (w ++ post) =
      (if lowerAscii w = t then canon else w) ++ replaceGo t canon none 0 post := by
  have hm := wordMatchAt_word t ht b hb w post hne hw hpost
  cases w with
  | nil => exact absurd rfl hne
  | cons x w' =>
    have hx : isWordChar x = true := hw x (List.mem_cons_self _ _)
    have hw' : ∀ c ∈ w', isWordChar c = true := fun c hc => hw c (List.mem_cons_of_mem _ hc)
    by_cases heq : lowerAscii (x :: w') = t
    · rw [if_pos heq]
      have hm' : wordMatchAt t b (x :: (w' ++ post)) = true := by
        rw [← List.cons_append, hm]; exact decide_eq_true heq
      have hlen : t.length - 1 = w'.length := by
        rw [← heq]; simp [lowerAscii]
      have hstep : replaceGo t canon b 0 (x :: (w' ++ post)) =
          canon ++ replaceGo t canon (some x) w'.length (w' ++ post) := by
        rw [replaceGo_cons_zero, hm', hlen]
        simp
      rw [List.cons_append, hstep, replaceGo_skip t canon post w' x,
        replaceGo_head_sep t canon ht _ post hpost]
    · rw [if_neg heq]
      have hm' : wordMatchAt t b (x :: (w' ++ post)) = false := by
        rw [← List.cons_append, hm]; exact decide_eq_false heq
      have hstep : replaceGo t canon b 0 (x :: (w' ++ post)) =
          x :: replaceGo t canon (some x) 0 (w' ++ post) := by
        rw [replaceGo_cons_zero, hm']
        simp
      rw [List.cons_append, hstep, replaceGo_inside t canon post w' x hx hw',
        replaceGo_head_sep t canon ht _ post hpost]
      rfl

theorem replaceGo_nil (t canon : List Char) (b : Option Char) (k : Nat) :
    replaceGo t canon b k [] = [] := by
  unfold replaceGo; rfl

/-! ### The whole table -/

/-- A whole word: a non-empty run of word characters. -/
theorem lowerWord_isWord (t : List Char) (ht : isLowerWord t = true) :
    t ≠ [] ∧ ∀ c ∈ t, isWordChar c = true := by
  rw [isLowerWord_iff] at ht
  exact ⟨ht.1, fun c hc => isWordChar_of_isLower c (ht.2 c hc)⟩

theorem replaceTypo_nil (typo canonical : String) : replaceTypo typo canonical [] = [] :=
  replaceGo_nil _ _ _ _

theorem replaceTypo_sep (typo canonical : String) (ht : isLowerWord typo.data = true)
    (x : Char) (s : List Char) (hx : isWordChar x = false) :
    replaceTypo typo canonical (x :: s) = x :: replaceTypo typo canonical s :=
  replaceGo_sep typo.data canonical.data ht none x s hx

theorem replaceTypo_word (typo canonical : String) (ht : isLowerWord typo.data = true)
    (w post : List Char) (hne : w ≠ []) (hw : ∀ c ∈ w, isWordChar c = true)
    (hpost : isWordOpt post.head? = false) :
    replaceTypo typo canonical (w ++ post) =
      (if lowerAscii w = typo.data then canonical.data else w) ++
        replaceTypo typo canonical post :=
  replaceGo_word typo.data canonical.data ht none rfl w post hne hw hpost

theorem replaceTypo_head_sep (typo canonical : String) (ht : isLowerWord typo.data = true)
    (s : List Char) (hs : isWordOpt s.head? = false) :
    isWordOpt (replaceTypo typo canonical s).head? = false := by
  cases s with
  | nil => rw [replaceTypo_nil]; rfl
  | cons y s' =>
    have hy : isWordChar y = false := hs
    rw [replaceTypo_sep typo canonical ht y s' hy]
    exact hy

theorem applyTable_nil (s : List Char) : applyTable [] s = s := rfl

theorem applyTable_cons (e : String × String) (table : List (String × String))
    (s : List Char) :
    applyTable (e :: table) s = applyTable table (replaceTypo e.1 e.2 s) := rfl

theorem goodTable_cons (e : String × String) (table : List (String × String))
    (h : GoodTable (e :: table)) :
    isLowerWord e.1.data = true ∧ isLowerWord e.2.data = true ∧ GoodTable table :=
  ⟨(h e (List.mem_cons_self _ _)).1, (h e (List.mem_cons_self _ _)).2,
    fun e' he' => h e' (List.mem_cons_of_mem _ he')⟩

theorem applyTable_empty (table : List (String × String)) : applyTable table [] = [] := by
  induction table with
  | nil => rfl
  | cons e table ih => rw [applyTable_cons, replaceTypo_nil, ih]

theorem applyTable_sep (table : List (String × String)) (hgood : GoodTable table)
    (x : Char) (hx : isWordChar x = false) :
    ∀ s : List Char, applyTable table (x :: s) = x :: applyTable table s := by
  induction table with
  | nil => intro s; rfl
  | cons e table ih =>
    intro s
    obtain ⟨h1, _, h3⟩ := goodTable_cons e table hgood
    rw [applyTable_cons, applyTable_cons, replaceTypo_sep e.1 e.2 h1 x s hx, ih h3]

theorem applyTable_head_sep (table : List (String × String)) (hgood : GoodTable table)
    (s : List Char) (hs : isWordOpt s.head? = false) :
    isWordOpt (applyTable table s).head? = false := by
  cases s with
  | nil => rw [applyTable_empty]; rfl
  | cons y s' =>
    have hy : isWordChar y = false := hs
    rw [applyTable_sep table hgood y hy]
    exact hy

/-- One pass on a single whole word. -/
theorem replaceTypo_single (typo canonical : String) (ht : isLowerWord typo.data = true)
    (w : List Char) (hne : w ≠ []) (hw : ∀ c ∈ w, isWordChar c = true) :
    replaceTypo typo canonical w = if lowerAscii w = typo.data then canonical.data else w := by
  have h := replaceTypo_word typo canonical ht w [] hne hw rfl
  rw [List.append_nil, replaceTypo_nil, List.append_nil] at h
  exact h

theorem applyTable_word (table : List (String × String)) (hgood : GoodTable table) :
    ∀ (w post : List Char), w ≠ [] → (∀ c ∈ w, isWordChar c = true) →
      isWordOpt post.head? = false →
      applyTable table (w ++ post) = applyTable table w ++ applyTable table post ∧
        applyTable table w ≠ [] ∧ ∀ c ∈ applyTable table w, isWordChar c = true := by
  induction table with
  | nil => intro w post hne hw _; exact ⟨rfl, hne, hw⟩
  | cons e table ih =>
    intro w post hne hw hpost
    obtain ⟨h1, h2, h3⟩ := goodTable_cons e table hgood
    have hcanon := lowerWord_isWord e.2.data h2
    rw [applyTable_cons, applyTable_cons, applyTable_cons,
      replaceTypo_word e.1 e.2 h1 w post hne hw hpost, replaceTypo_single e.1 e.2 h1 w hne hw]
    have hpost' := replaceTypo_head_sep e.1 e.2 h1 post hpost
    by_cases heq : lowerAscii w = e.1.data
    · rw [if_pos heq]
      exact ih h3 _ _ hcanon.1 hcanon.2 hpost'
    · rw [if_neg heq]
      exact ih h3 _ _ hne hw hpost'

/-- A whole word that is no key of the table in any letter case is left alone. -/
theorem applyTable_not_key (table : List (String × String)) (hgood : GoodTable table)
    (w : List Char) (hne : w ≠ []) (hw : ∀ c ∈ w, isWordChar c = true)
    (hkey : ∀ e ∈ table, lowerAscii w ≠ e.1.data) :
    applyTable table w = w := by
  induction table with
  | nil => rfl
  | cons e table ih =>
    obtain ⟨h1, _, h3⟩ := goodTable_cons e table hgood
    rw [applyTable_cons, replaceTypo_single e.1 e.2 h1 w hne hw,
      if_neg (hkey e (List.mem_cons_self _ _))]
    exact ih h3 (fun e' he' => hkey e' (List.mem_cons_of_mem _ he'))

theorem lowerAscii_lowerWord (t : List Char) (ht : isLowerWord t = true) :
    lowerAscii t = t := by
  rw [isLowerWord_iff] at ht
  unfold lowerAscii
  conv_rhs => rw [← List.map_id t]
  apply List.map_congr_left
  intro c hc
  exact toLower_of_isLower c (ht.2 c hc)

/-- On a whole word the table returns the word itself or a canonical word. -/
theorem applyTable_word_cases (table : List (String × String)) (hgood : GoodTable table)
    (hsub : ∀ e ∈ table, e ∈ typoMap) (hnk : CanonicalNotKey typoMap) :
    ∀ (w : List Char), w ≠ [] → (∀ c ∈ w, isWordChar c = true) →
      (applyTable table w = w ∧ ∀ e ∈ table, lowerAscii w ≠ e.1.data) ∨
        ∃ e ∈ table, applyTable table w = e.2.data := by
  induction table with
  | nil => intro w _ _; exact Or.inl ⟨rfl, fun e he => absurd he (List.not_mem_nil _)⟩
  | cons e table ih =>
    intro w hne hw
    obtain ⟨h1, h2, h3⟩ := goodTable_cons e table hgood
    have hsub' : ∀ e' ∈ table, e' ∈ typoMap := fun e' he' => hsub e' (List.mem_cons_of_mem _ he')
    rw [applyTable_cons, replaceTypo_single e.1 e.2 h1 w hne hw]
    by_cases heq : lowerAscii w = e.1.data
    · rw [if_pos heq]
      right
      refine ⟨e, List.mem_cons_self _ _, ?_⟩
      have hcanon := lowerWord_isWord e.2.data h2
      apply applyTable_not_key table h3 e.2.data hcanon.1 hcanon.2
      intro k hk
      rw [lowerAscii_lowerWord e.2.data h2]
      exact hnk e (hsub e (List.mem_cons_self _ _)) k (hsub' k hk)
    · rw [if_neg heq]
      rcases ih h3 hsub' w hne hw with ⟨hsame, hno⟩ | ⟨k, hk, hk2⟩
      · left
        refine ⟨hsame, ?_⟩
        intro e' he'
        rcases List.mem_cons.mp he' with rfl | he''
        · exact heq
        · exact hno e' he''
      · right
        exact ⟨k, List.mem_cons_of_mem _ hk, hk2⟩

theorem typoMap_good : GoodTable typoMap := by
  unfold GoodTable; decide

theorem typoMap_canonicalNotKey : CanonicalNotKey typoMap := by
  unfold CanonicalNotKey; decide

theorem applyTypos_key : ∀ e ∈ typoMap, applyTypos e.1.data = e.2.data := by
  decide

/-! ### Whole words of a string -/

theorem wholeWordsGo_word (s : List Char) :
    ∀ (w acc : List Char), (∀ c ∈ w, isWordChar c = true) →
      wholeWordsGo acc (w ++ s) = wholeWordsGo (acc ++ w) s := by
  intro w
  induction w with
  | nil => intro acc _; simp
  | cons x w' ih =>
    intro acc hw
    have hx : isWordChar x = true := hw x (List.mem_cons_self _ _)
    rw [List.cons_append, wholeWordsGo, if_pos hx,
      ih (acc ++ [x]) (fun c hc => hw c (List.mem_cons_of_mem _ hc))]
    simp

theorem wholeWords_nil : wholeWords [] = [] := rfl

theorem wholeWords_sep (x : Char) (s : List Char) (hx : isWordChar x = false) :
    wholeWords (x :: s) = wholeWords s := by
  unfold wholeWords
  rw [wholeWordsGo]
  simp [hx]

theorem wholeWords_word (w s : List Char) (hne : w ≠ []) (hw : ∀ c ∈ w, isWordChar c = true)
    (hs : isWordOpt s.head? = false) :
    wholeWords (w ++ s) = w :: wholeWords s := by
  unfold wholeWords
  rw [wholeWordsGo_word s w [] hw, List.nil_append]
  have hemp : w.isEmpty = false := by
    cases w with
    | nil => exact absurd rfl hne
    | cons _ _ => rfl
  cases s with
  | nil => simp [wholeWordsGo, hemp]
  | cons y s' =>
    have hy : isWordChar y = false := hs
    rw [wholeWordsGo]
    simp only [hy, hemp]
    have h2 : wholeWordsGo [] (y :: s') = wholeWordsGo [] s' := wholeWords_sep y s' hy
    rw [h2]
    simp

/-- A string whose last character is no word character can be split off. -/
theorem wholeWords_append (rest : List Char) :
    ∀ pre : List Char, isWordOpt pre.getLast? = false →
      wholeWords (pre ++ rest) = wholeWords pre ++ wholeWords rest := by
  apply wordRun_induction
  · intro _; simp [wholeWords_nil]
  · intro x s hx ih hlast
    have hs : isWordOpt s.getLast? = false := by
      cases s with
      | nil => rfl
      | cons y s' => rw [List.getLast?_cons_cons] at hlast; exact hlast
    rw [List.cons_append, wholeWords_sep x _ hx, wholeWords_sep x _ hx, ih hs]
  · intro w s hne hw hhead ih hlast
    cases s with
    | nil =>
      exfalso
      rw [List.append_nil] at hlast
      have hmem := List.getLast_mem hne
      rw [List.getLast?_eq_getLast _ hne, isWordOpt_some, hw _ hmem] at hlast
      exact Bool.noConfusion hlast
    | cons y s' =>
      have hs : isWordOpt (y :: s').getLast? = false := by
        rw [List.getLast?_append_of_ne_nil _ (List.cons_ne_nil _ _)] at hlast
        exact hlast
      rw [List.append_assoc, wholeWords_word w _ hne hw (by exact hhead),
        wholeWords_word w _ hne hw hhead, ih hs]
      rfl

theorem containsWord_mem (s v : List Char) (h : ContainsWord s v) : v ∈ wholeWords s := by
  obtain ⟨pre, post, rfl, hne, hw, hpre, hpost⟩ := h
  rw [List.append_assoc, wholeWords_append _ pre hpre, wholeWords_word v post hne hw hpost]
  simp

theorem containsWord_cons_sep (x : Char) (s v : List Char) (hx : isWordChar x = false)
    (h : ContainsWord s v) : ContainsWord (x :: s) v := by
  obtain ⟨pre, post, rfl, hne, hw, hpre, hpost⟩ := h
  refine ⟨x :: pre, post, by simp, hne, hw, ?_, hpost⟩
  cases pre with
  | nil => exact hx
  | cons y pre' => rw [List.getLast?_cons_cons]; exact hpre

theorem containsWord_append_word (w s v : List Char)
    (hs : isWordOpt s.head? = false) (h : ContainsWord s v) : ContainsWord (w ++ s) v := by
  obtain ⟨pre, post, rfl, hvne, hv, hpre, hpost⟩ := h
  cases pre with
  | nil =>
    exfalso
    cases v with
    | nil => exact hvne rfl
    | cons y v' =>
      have hy : isWordChar y = true := hv y (List.mem_cons_self _ _)
      have : isWordChar y = false := hs
      rw [hy] at this
      exact Bool.noConfusion this
  | cons y pre' =>
    refine ⟨w ++ y :: pre', post, by simp, hvne, hv, ?_, hpost⟩
    rw [List.getLast?_append_of_ne_nil _ (List.cons_ne_nil _ _)]
    exact hpre

theorem mem_wholeWords_containsWord :
    ∀ s : List Char, ∀ v ∈ wholeWords s, ContainsWord s v := by
  apply wordRun_induction
  · intro v hv; simp [wholeWords_nil] at hv
  · intro x s hx ih v hv
    rw [wholeWords_sep x s hx] at hv
    exact containsWord_cons_sep x s v hx (ih v hv)
  · intro w s hne hw hs ih v hv
    rw [wholeWords_word w s hne hw hs] at hv
    rcases List.mem_cons.mp hv with rfl | hv'
    · exact ⟨[], s, by simp, hne, hw, rfl, hs⟩
    · exact containsWord_append_word w s v hs (ih v hv')

/-- The list `wholeWords s` holds exactly the whole words of `s`. -/
theorem mem_wholeWords_iff (s v : List Char) : v ∈ wholeWords s ↔ ContainsWord s v :=
  ⟨mem_wholeWords_containsWord s v, containsWord_mem s v⟩

/-! ### The typo loop on strings -/

theorem applyTypos_nil : applyTypos [] = [] := applyTable_empty typoMap

theorem applyTypos_sep (x : Char) (s : List Char) (hx : isWordChar x = false) :
    applyTypos (x :: s) = x :: applyTypos s :=
  applyTable_sep typoMap typoMap_good x hx s

theorem applyTypos_word (w s : List Char) (hne : w ≠ []) (hw : ∀ c ∈ w, isWordChar c = true)
    (hs : isWordOpt s.head? = false) :
    applyTypos (w ++ s) = applyTypos w ++ applyTypos s ∧
      applyTypos w ≠ [] ∧ ∀ c ∈ applyTypos w, isWordChar c = true :=
  applyTable_word typoMap typoMap_good w s hne hw hs

theorem applyTypos_head_sep (s : List Char) (hs : isWordOpt s.head? = false) :
    isWordOpt (applyTypos s).head? = false :=
  applyTable_head_sep typoMap typoMap_good s hs

/-- On a whole word the loop returns the word itself, which is then no key in any
letter case, or a canonical word of the table. -/
theorem applyTypos_word_cases (w : List Char) (hne : w ≠ [])
    (hw : ∀ c ∈ w, isWordChar c = true) :
    (applyTypos w = w ∧ ∀ e ∈ typoMap, lowerAscii w ≠ e.1.data) ∨
      ∃ e ∈ typoMap, applyTypos w = e.2.data :=
  applyTable_word_cases typoMap typoMap_good (fun _ he => he) typoMap_canonicalNotKey w hne hw

theorem applyTypos_canonical (e : String × String) (he : e ∈ typoMap) :
    applyTypos e.2.data = e.2.data := by
  have h2 := (typoMap_good e he).2
  have hcanon := lowerWord_isWord e.2.data h2
  apply applyTable_not_key typoMap typoMap_good e.2.data hcanon.1 hcanon.2
  intro k hk
  rw [lowerAscii_lowerWord e.2.data h2]
  exact typoMap_canonicalNotKey e he k hk

theorem applyTypos_word_idem (w : List Char) (hne : w ≠ [])
    (hw : ∀ c ∈ w, isWordChar c = true) :
    applyTypos (applyTypos w) = applyTypos w := by
  rcases applyTypos_word_cases w hne hw with ⟨hsame, _⟩ | ⟨e, he, heq⟩
  · rw [hsame, hsame]
  · rw [heq, applyTypos_canonical e he]

/-- No whole word the loop returns is a key of the table, in any letter case. -/
theorem applyTypos_word_not_key (w : List Char) (hne : w ≠ [])
    (hw : ∀ c ∈ w, isWordChar c = true) :
    ∀ k ∈ typoMap, lowerAscii (applyTypos w) ≠ k.1.data := by
  intro k hk
  rcases applyTypos_word_cases w hne hw with ⟨hsame, hno⟩ | ⟨e, he, heq⟩
  · rw [hsame]; exact hno k hk
  · rw [heq, lowerAscii_lowerWord e.2.data (typoMap_good e he).2]
    exact typoMap_canonicalNotKey e he k hk

theorem applyTypos_idem : ∀ s : List Char, applyTypos (applyTypos s) = applyTypos s := by
  apply wordRun_induction
  · rw [applyTypos_nil, applyTypos_nil]
  · intro x s hx ih
    rw [applyTypos_sep x s hx, applyTypos_sep x _ hx, ih]
  · intro w s hne hw hs ih
    obtain ⟨h1, h2, h3⟩ := applyTypos_word w s hne hw hs
    rw [h1, (applyTypos_word _ _ h2 h3 (applyTypos_head_sep s hs)).1,
      applyTypos_word_idem w hne hw, ih]

theorem applyTypos_append (rest : List Char) :
    ∀ pre : List Char, isWordOpt pre.getLast? = false →
      applyTypos (pre ++ rest) = applyTypos pre ++ applyTypos rest := by
  apply wordRun_induction
  · intro _; simp [applyTypos_nil]
  · intro x s hx ih hlast
    have hs : isWordOpt s.getLast? = false := by
      cases s with
      | nil => rfl
      | cons y s' => rw [List.getLast?_cons_cons] at hlast; exact hlast
    rw [List.cons_append, applyTypos_sep x _ hx, applyTypos_sep x _ hx, ih hs]
    rfl
  · intro w s hne hw hhead ih hlast
    cases s with
    | nil =>
      exfalso
      rw [List.append_nil] at hlast
      have hmem := List.getLast_mem hne
      rw [List.getLast?_eq_getLast _ hne, isWordOpt_some, hw _ hmem] at hlast
      exact Bool.noConfusion hlast
    | cons y s' =>
      have hs : isWordOpt (y :: s').getLast? = false := by
        rw [List.getLast?_append_of_ne_nil _ (List.cons_ne_nil _ _)] at hlast
        exact hlast
      rw [List.append_assoc, (applyTypos_word w _ hne hw (by exact hhead)).1,
        (applyTypos_word w _ hne hw hhead).1, ih hs, List.append_assoc]

theorem wholeWords_applyTypos :
    ∀ s : List Char, wholeWords (applyTypos s) = (wholeWords s).map applyTypos := by
  apply wordRun_induction
  · rw [applyTypos_nil]; rfl
  · intro x s hx ih
    rw [applyTypos_sep x s hx, wholeWords_sep x _ hx, wholeWords_sep x _ hx, ih]
  · intro w s hne hw hs ih
    obtain ⟨h1, h2, h3⟩ := applyTypos_word w s hne hw hs
    rw [h1, wholeWords_word _ _ h2 h3 (applyTypos_head_sep s hs),
      wholeWords_word w s hne hw hs, ih]
    rfl

theorem wholeWords_isWord : ∀ s : List Char, ∀ v ∈ wholeWords s,
    v ≠ [] ∧ ∀ c ∈ v, isWordChar c = true := by
  intro s v hv
  obtain ⟨_, _, _, hne, hw, _, _⟩ := mem_wholeWords_containsWord s v hv
  exact ⟨hne, hw⟩

/-- A string none of whose whole words is a key, in any letter case, is left alone. -/
theorem applyTypos_no_key :
    ∀ s : List Char, (∀ v ∈ wholeWords s, ∀ e ∈ typoMap, lowerAscii v ≠ e.1.data) →
      applyTypos s = s := by
  apply wordRun_induction
  · intro _; exact applyTypos_nil
  · intro x s hx ih h
    rw [wholeWords_sep x s hx] at h
    rw [applyTypos_sep x s hx, ih h]
  · intro w s hne hw hs ih h
    rw [wholeWords_word w s hne hw hs] at h
    have hword : applyTypos w = w :=
      applyTable_not_key typoMap typoMap_good w hne hw (h w (List.mem_cons_self _ _))
    rw [(applyTypos_word w s hne hw hs).1, hword,
      ih (fun v hv => h v (List.mem_cons_of_mem _ hv))]

theorem lowerAscii_append (a b : List Char) :
    lowerAscii (a ++ b) = lowerAscii a ++ lowerAscii b := by
  simp [lowerAscii]

theorem lowerAscii_idem (s : List Char) : lowerAscii (lowerAscii s) = lowerAscii s := by
  simp [lowerAscii, toLower_toLower]

theorem lowerAscii_applyTypos :
    ∀ s : List Char, lowerAscii s = s → lowerAscii (applyTypos s) = applyTypos s := by
  apply wordRun_induction
  · intro _; rw [applyTypos_nil]; rfl
  · intro x s hx ih h
    simp only [lowerAscii, List.map_cons, List.cons.injEq] at h
    rw [applyTypos_sep x s hx]
    simp only [lowerAscii, List.map_cons, List.cons.injEq]
    exact ⟨h.1, ih h.2⟩
  · intro w s hne hw hs ih h
    rw [lowerAscii_append] at h
    have hsplit := List.append_inj h (by simp [lowerAscii])
    have hword : lowerAscii (applyTypos w) = applyTypos w := by
      rcases applyTypos_word_cases w hne hw with ⟨hsame, _⟩ | ⟨e, he, heq⟩
      · rw [hsame]; exact hsplit.1
      · rw [heq]; exact lowerAscii_lowerWord e.2.data (typoMap_good e he).2
    rw [(applyTypos_word w s hne hw hs).1, lowerAscii_append, ih hsplit.2, hword]

theorem applyTypos_ne_nil : ∀ s : List Char, s ≠ [] → applyTypos s ≠ [] := by
  apply wordRun_induction
  · intro h; exact absurd rfl h
  · intro x s hx _ _
    rw [applyTypos_sep x s hx]; exact List.cons_ne_nil _ _
  · intro w s hne hw hs _ _
    obtain ⟨h1, h2, _⟩ := applyTypos_word w s hne hw hs
    rw [h1]
    intro h
    exact h2 (List.append_eq_nil.mp h).1

theorem isSpaceOpt_of_word (o : Option Char) (h : isWordOpt o = true) :
    isSpaceOpt o = false := by
  cases o with
  | none => rfl
  | some c =>
    have hc : isWordChar c = true := h
    cases hs : isJsWhiteSpace c with
    | false => exact hs
    | true =>
      rw [isWordChar_of_isJsWhiteSpace c hs] at hc
      exact Bool.noConfusion hc

theorem word_head_last (w : List Char) (hne : w ≠ []) (hw : ∀ c ∈ w, isWordChar c = true) :
    isWordOpt w.head? = true ∧ isWordOpt w.getLast? = true := by
  constructor
  · cases w with
    | nil => exact absurd rfl hne
    | cons x _ => exact hw x (List.mem_cons_self _ _)
  · rw [List.getLast?_eq_getLast _ hne]
    exact hw _ (List.getLast_mem hne)

/-- The loop keeps the first and the last character white or not white. -/
theorem applyTypos_ends : ∀ s : List Char,
    isSpaceOpt (applyTypos s).head? = isSpaceOpt s.head? ∧
      isSpaceOpt (applyTypos s).getLast? = isSpaceOpt s.getLast? := by
  apply wordRun_induction
  · rw [applyTypos_nil]; exact ⟨rfl, rfl⟩
  · intro x s hx ih
    rw [applyTypos_sep x s hx]
    refine ⟨by rw [List.head?_cons, List.head?_cons], ?_⟩
    cases s with
    | nil => rw [applyTypos_nil]
    | cons y s' =>
      have hne := applyTypos_ne_nil (y :: s') (List.cons_ne_nil _ _)
      rw [List.getLast?_cons_cons]
      obtain ⟨z, r, hz⟩ := List.exists_cons_of_ne_nil hne
      rw [hz, List.getLast?_cons_cons, ← hz]
      exact ih.2
  · intro w s hne hw hs ih
    obtain ⟨h1, h2, h3⟩ := applyTypos_word w s hne hw hs
    have hw1 := word_head_last w hne hw
    have hw2 := word_head_last _ h2 h3
    rw [h1]
    constructor
    · have e1 : (applyTypos w ++ applyTypos s).head? = (applyTypos w).head? := by
        obtain ⟨z, r, hz⟩ := List.exists_cons_of_ne_nil h2
        rw [hz, List.cons_append, List.head?_cons, List.head?_cons]
      have e2 : (w ++ s).head? = w.head? := by
        obtain ⟨z, r, hz⟩ := List.exists_cons_of_ne_nil hne
        rw [hz, List.cons_append, List.head?_cons, List.head?_cons]
      rw [e1, e2, isSpaceOpt_of_word _ hw1.1, isSpaceOpt_of_word _ hw2.1]
    · cases s with
      | nil =>
        rw [applyTypos_nil, List.append_nil, List.append_nil,
          isSpaceOpt_of_word _ hw1.2, isSpaceOpt_of_word _ hw2.2]
      | cons y s' =>
        have hne' := applyTypos_ne_nil (y :: s') (List.cons_ne_nil _ _)
        rw [List.getLast?_append_of_ne_nil _ hne',
          List.getLast?_append_of_ne_nil _ (List.cons_ne_nil _ _)]
        exact ih.2

/-! ### Trimming -/

theorem trim_eq (s : List Char) : trim s = trimEnd (trimStart s) := rfl

theorem trimStart_cons (x : Char) (s : List Char) :
    trimStart (x :: s) = if isJsWhiteSpace x = true then trimStart s else x :: s := by
  unfold trimStart
  rw [List.dropWhile_cons]

theorem trimStart_self (s : List Char) (h : isSpaceOpt s.head? = false) : trimStart s = s := by
  cases s with
  | nil => rfl
  | cons x s' =>
    have hx : isJsWhiteSpace x = false := h
    rw [trimStart_cons, hx]
    simp

theorem trimStart_append (r : List Char) (hr : isSpaceOpt r.head? = false) :
    ∀ a : List Char, trimStart (a ++ r) = trimStart a ++ r := by
  intro a
  induction a with
  | nil => rw [List.nil_append, trimStart_self r hr]; rfl
  | cons x a ih =>
    rw [List.cons_append, trimStart_cons, trimStart_cons]
    by_cases hx : isJsWhiteSpace x = true
    · rw [if_pos hx, if_pos hx, ih]
    · rw [if_neg hx, if_neg hx, List.cons_append]

theorem trimStart_head (s : List Char) : isSpaceOpt (trimStart s).head? = false := by
  have h := List.head?_dropWhile_not isJsWhiteSpace s
  unfold trimStart
  cases hh : (List.dropWhile isJsWhiteSpace s).head? with
  | none => rfl
  | some y => rw [hh] at h; exact h

theorem trimStart_split (s : List Char) : ∃ a, s = a ++ trimStart s ∧
    ∀ c ∈ a, isJsWhiteSpace c = true :=
  ⟨s.takeWhile isJsWhiteSpace, (List.takeWhile_append_dropWhile _ _).symm,
    fun _ hc => List.mem_takeWhile_imp hc⟩

theorem trimEnd_eq (s : List Char) : trimEnd s = (trimStart s.reverse).reverse := rfl

theorem trimEnd_split (s : List Char) : ∃ b, s = trimEnd s ++ b ∧
    ∀ c ∈ b, isJsWhiteSpace c = true := by
  obtain ⟨a, ha, hws⟩ := trimStart_split s.reverse
  refine ⟨a.reverse, ?_, fun c hc => hws c (List.mem_reverse.mp hc)⟩
  have h := congrArg List.reverse ha
  rw [List.reverse_reverse, List.reverse_append] at h
  rw [trimEnd_eq]
  exact h

theorem trimEnd_self (s : List Char) (h : isSpaceOpt s.getLast? = false) : trimEnd s = s := by
  rw [trimEnd_eq, trimStart_self _ (by rw [List.head?_reverse]; exact h), List.reverse_reverse]

theorem trimEnd_append (l : List Char) (hl : isSpaceOpt l.getLast? = false)
    (b : List Char) : trimEnd (l ++ b) = l ++ trimEnd b := by
  rw [trimEnd_eq, List.reverse_append,
    trimStart_append l.reverse (by rw [List.head?_reverse]; exact hl) b.reverse,
    List.reverse_append, List.reverse_reverse, trimEnd_eq]

theorem trimEnd_last (s : List Char) : isSpaceOpt (trimEnd s).getLast? = false := by
  rw [trimEnd_eq, List.getLast?_reverse]
  exact trimStart_head _

theorem head_of_append (p q : List Char) (o : Option Char → Bool) (h : o (p ++ q).head? = false)
    (hnone : o none = false) : o p.head? = false := by
  cases p with
  | nil => exact hnone
  | cons x p' => exact h

theorem last_of_append (p q : List Char) (o : Option Char → Bool) (h : o (p ++ q).getLast? = false)
    (hnone : o none = false) : o q.getLast? = false := by
  cases q with
  | nil => exact hnone
  | cons x q' =>
    rw [List.getLast?_append_of_ne_nil _ (List.cons_ne_nil _ _)] at h
    exact h

theorem trimEnd_head (o : Option Char → Bool) (hnone : o none = false) (s : List Char)
    (h : o s.head? = false) : o (trimEnd s).head? = false := by
  obtain ⟨b, hb, _⟩ := trimEnd_split s
  rw [hb] at h
  exact head_of_append _ b o h hnone

theorem trimStart_last (o : Option Char → Bool) (hnone : o none = false) (s : List Char)
    (h : o s.getLast? = false) : o (trimStart s).getLast? = false := by
  obtain ⟨a, ha, _⟩ := trimStart_split s
  rw [ha] at h
  exact last_of_append a _ o h hnone

/-- The result of `trim` neither begins nor ends with white space. -/
theorem trim_ends (s : List Char) :
    isSpaceOpt (trim s).head? = false ∧ isSpaceOpt (trim s).getLast? = false :=
  ⟨trimEnd_head isSpaceOpt rfl _ (trimStart_head s), trimEnd_last _⟩

theorem trim_self (s : List Char) (hhead : isSpaceOpt s.head? = false)
    (hlast : isSpaceOpt s.getLast? = false) : trim s = s := by
  rw [trim_eq, trimStart_self s hhead, trimEnd_self s hlast]

theorem trim_mem (s : List Char) (c : Char) (hc : c ∈ trim s) : c ∈ s := by
  obtain ⟨a, ha, _⟩ := trimStart_split s
  obtain ⟨b, hb, _⟩ := trimEnd_split (trimStart s)
  rw [ha, hb]
  rw [trim_eq] at hc
  simp [hc]

/-- Trimming around a part that neither begins nor ends with white space. -/
theorem trim_around (a t b : List Char) (hne : t ≠ []) (hhead : isSpaceOpt t.head? = false)
    (hlast : isSpaceOpt t.getLast? = false) :
    trim (a ++ t ++ b) = trimStart a ++ t ++ trimEnd b := by
  have h1 : isSpaceOpt (t ++ b).head? = false := by
    obtain ⟨z, r, hz⟩ := List.exists_cons_of_ne_nil hne
    rw [hz] at hhead ⊢
    exact hhead
  have h2 : isSpaceOpt (trimStart a ++ t).getLast? = false := by
    rw [List.getLast?_append_of_ne_nil _ hne]; exact hlast
  rw [trim_eq, List.append_assoc, trimStart_append (t ++ b) h1 a,
    ← List.append_assoc, trimEnd_append (trimStart a ++ t) h2 b]

theorem wholeWords_spaces : ∀ b : List Char, (∀ c ∈ b, isJsWhiteSpace c = true) →
    wholeWords b = [] := by
  intro b
  induction b with
  | nil => intro _; rfl
  | cons x b ih =>
    intro h
    rw [wholeWords_sep x b (isWordChar_of_isJsWhiteSpace x (h x (List.mem_cons_self _ _)))]
    exact ih (fun c hc => h c (List.mem_cons_of_mem _ hc))

theorem spaces_head (b : List Char) (h : ∀ c ∈ b, isJsWhiteSpace c = true) :
    isWordOpt b.head? = false := by
  cases b with
  | nil => rfl
  | cons x b' => exact isWordChar_of_isJsWhiteSpace x (h x (List.mem_cons_self _ _))

theorem wholeWords_append_spaces (b : List Char) (hb : ∀ c ∈ b, isJsWhiteSpace c = true) :
    ∀ l : List Char, wholeWords (l ++ b) = wholeWords l := by
  apply wordRun_induction
  · rw [List.nil_append, wholeWords_spaces b hb]; rfl
  · intro x s hx ih
    rw [List.cons_append, wholeWords_sep x _ hx, wholeWords_sep x _ hx, ih]
  · intro w s hne hw hs ih
    have hs' : isWordOpt (s ++ b).head? = false := by
      cases s with
      | nil => rw [List.nil_append]; exact spaces_head b hb
      | cons y s' => exact hs
    rw [List.append_assoc, wholeWords_word w _ hne hw hs', wholeWords_word w s hne hw hs, ih]

theorem wholeWords_prepend_spaces (s : List Char) :
    ∀ a : List Char, (∀ c ∈ a, isJsWhiteSpace c = true) → wholeWords (a ++ s) = wholeWords s := by
  intro a
  induction a with
  | nil => intro _; rfl
  | cons x a ih =>
    intro h
    rw [List.cons_append,
      wholeWords_sep x _ (isWordChar_of_isJsWhiteSpace x (h x (List.mem_cons_self _ _)))]
    exact ih (fun c hc => h c (List.mem_cons_of_mem _ hc))

/-- Trimming does not change the whole words of a string. -/
theorem wholeWords_trim (s : List Char) : wholeWords (trim s) = wholeWords s := by
  obtain ⟨a, ha, hws⟩ := trimStart_split s
  obtain ⟨b, hb, hws'⟩ := trimEnd_split (trimStart s)
  rw [trim_eq]
  conv_rhs => rw [ha, hb]
  rw [wholeWords_prepend_spaces _ a hws, wholeWords_append_spaces b hws']

theorem lowerAscii_isWord (w : List Char) (hw : ∀ c ∈ w, isWordChar c = true) :
    ∀ c ∈ lowerAscii w, isWordChar c = true := by
  intro c hc
  obtain ⟨d, hd, rfl⟩ := List.mem_map.mp hc
  rw [isWordChar_toLower]
  exact hw d hd

theorem lowerAscii_head (s : List Char) :
    isWordOpt (lowerAscii s).head? = isWordOpt s.head? := by
  cases s with
  | nil => rfl
  | cons x s' => exact isWordChar_toLower x

theorem lowerAscii_last (s : List Char) :
    isWordOpt (lowerAscii s).getLast? = isWordOpt s.getLast? := by
  unfold lowerAscii
  rw [List.getLast?_map]
  cases s.getLast? with
  | none => rfl
  | some x => exact isWordChar_toLower x

/-- Lower-casing maps the whole words of a string to their lower-case forms. -/
theorem wholeWords_lowerAscii :
    ∀ s : List Char, wholeWords (lowerAscii s) = (wholeWords s).map lowerAscii := by
  apply wordRun_induction
  · rfl
  · intro x s hx ih
    have hx' : isWordChar x.toLower = false := by rw [isWordChar_toLower]; exact hx
    have e : lowerAscii (x :: s) = x.toLower :: lowerAscii s := rfl
    rw [e, wholeWords_sep _ _ hx', wholeWords_sep x s hx, ih]
  · intro w s hne hw hs ih
    have hne' : lowerAscii w ≠ [] := by
      intro h; exact hne (List.map_eq_nil_iff.mp h)
    rw [lowerAscii_append,
      wholeWords_word _ _ hne' (lowerAscii_isWord w hw) (by rw [lowerAscii_head]; exact hs),
      wholeWords_word w s hne hw hs, ih]
    rfl

theorem lowerAscii_trim (s : List Char) (h : lowerAscii s = s) :
    lowerAscii (trim s) = trim s := by
  unfold lowerAscii at h ⊢
  conv_rhs => rw [← List.map_id (trim s)]
  apply List.map_congr_left
  intro c hc
  have hmem := trim_mem s c hc
  have h2 := List.map_eq_map_iff.mp (h.trans (List.map_id s).symm) c hmem
  exact h2

/-! ### Lower-casing of Unicode text -/

set_option maxRecDepth 1000000 in
theorem lowerCasePages_lowered :
    ∀ p ∈ lowerCasePages, ∀ r ∈ p.2, ∀ k ∈ List.range ((r.2.1 - r.1) / r.2.2.1 + 1),
      isLowered (Char.ofNat (r.2.2.2 + k * r.2.2.1)) = true := by
  decide!

set_option maxRecDepth 100000 in
theorem ascii_lowered : ∀ n ∈ List.range 128, isLowered (Char.ofNat n).toLower = true := by
  decide

set_option maxRecDepth 100000 in
theorem special_lowered :
    isLowered 'i' = true ∧ isLowered (Char.ofNat 0x307) = true ∧
      isLowered (Char.ofNat 0x3C2) = true ∧ isLowered (Char.ofNat 0x3C3) = true ∧
      lowerCaseRun 0x3A3 ≠ none := by
  decide

theorem lowerCaseRun_some (n : Nat) (r : Nat × Nat × Nat × Nat)
    (h : lowerCaseRun n = some r) :
    ∃ p ∈ lowerCasePages, r ∈ p.2 ∧ r.1 ≤ n ∧ n ≤ r.2.1 ∧ (n - r.1) % r.2.2.1 = 0 := by
  unfold lowerCaseRun at h
  cases hp : lowerCasePages.find? (fun p => p.1 == n / 256) with
  | none => rw [hp] at h; exact Option.noConfusion h
  | some p =>
    rw [hp] at h
    dsimp only at h
    have hcov := List.find?_some h
    simp only [Bool.and_eq_true, decide_eq_true_eq] at hcov
    exact ⟨p, List.mem_of_find?_eq_some hp, List.mem_of_find?_eq_some h,
      hcov.1.1, hcov.1.2, hcov.2⟩

/-- Every character that lower-casing produces is one that lower-casing leaves as it
is. -/
theorem lowerChar_lowered (c : Char) : ∀ d ∈ lowerChar c, isLowered d = true := by
  intro d hd
  unfold lowerChar at hd
  by_cases h1 : c.toNat < 128
  · rw [if_pos h1, List.mem_singleton] at hd
    have := ascii_lowered c.toNat (List.mem_range.mpr h1)
    rw [Char.ofNat_toNat] at this
    rw [hd]; exact this
  · rw [if_neg h1] at hd
    by_cases h2 : c.toNat = 0x130
    · rw [if_pos h2] at hd
      rcases List.mem_cons.mp hd with rfl | hd
      · exact special_lowered.1
      · rw [List.mem_singleton] at hd
        rw [hd]; exact special_lowered.2.1
    · rw [if_neg h2] at hd
      cases hrun : lowerCaseRun c.toNat with
      | none =>
        rw [hrun] at hd
        dsimp only at hd
        rw [List.mem_singleton] at hd
        subst hd
        unfold isLowered
        have hsig : d.toNat ≠ 0x3A3 := by
          intro hs
          rw [hs] at hrun
          exact special_lowered.2.2.2.2 hrun
        have hsame : lowerChar d = [d] := by
          unfold lowerChar
          rw [if_neg h1, if_neg h2, hrun]
        rw [hsame]
        simp [hsig]
      | some r =>
        rw [hrun] at hd
        dsimp only at hd
        rw [List.mem_singleton] at hd
        obtain ⟨p, hp, hr, hlo, hhi, hmod⟩ := lowerCaseRun_some c.toNat r hrun
        have hk : (c.toNat - r.1) / r.2.2.1 ∈
            List.range ((r.2.1 - r.1) / r.2.2.1 + 1) := by
          rw [List.mem_range]
          exact Nat.lt_succ_of_le (Nat.div_le_div_right (by omega))
        have hmul : (c.toNat - r.1) / r.2.2.1 * r.2.2.1 = c.toNat - r.1 :=
          Nat.div_mul_cancel (Nat.dvd_of_mod_eq_zero hmod)
        have := lowerCasePages_lowered p hp r hr _ hk
        rw [hmul] at this
        rw [hd]; exact this

theorem lowerGo_lowered :
    ∀ (s before : List Char), ∀ d ∈ lowerGo before s, isLowered d = true := by
  intro s
  induction s with
  | nil => intro before d hd; simp [lowerGo] at hd
  | cons c rest ih =>
    intro before d hd
    rw [lowerGo_cons] at hd
    rcases List.mem_append.mp hd with hd | hd
    · by_cases hs : c.toNat = 0x3A3
      · rw [if_pos hs, List.mem_singleton] at hd
        by_cases hf : finalSigma before rest = true
        · rw [if_pos hf] at hd; rw [hd]; exact special_lowered.2.2.1
        · rw [if_neg hf] at hd; rw [hd]; exact special_lowered.2.2.2.1
      · rw [if_neg hs] at hd
        exact lowerChar_lowered c d hd
    · exact ih _ d hd

theorem isLowered_iff (c : Char) :
    isLowered c = true ↔ c.toNat ≠ 0x3A3 ∧ lowerChar c = [c] := by
  unfold isLowered
  simp

theorem lowerGo_of_lowered :
    ∀ (s before : List Char), (∀ c ∈ s, isLowered c = true) → lowerGo before s = s := by
  intro s
  induction s with
  | nil => intro before _; rfl
  | cons c rest ih =>
    intro before h
    obtain ⟨h1, h2⟩ := (isLowered_iff c).mp (h c (List.mem_cons_self _ _))
    rw [lowerGo_cons, if_neg h1, h2, ih _ (fun x hx => h x (List.mem_cons_of_mem _ hx))]
    rfl

/-- Lower-casing is idempotent. -/
theorem toLowerCase_idem (s : List Char) : toLowerCase (toLowerCase s) = toLowerCase s :=
  lowerGo_of_lowered _ [] (lowerGo_lowered s [])

theorem lowered_toLower (c : Char) (h : isLowered c = true) : c.toLower = c := by
  obtain ⟨_, h2⟩ := (isLowered_iff c).mp h
  by_cases h1 : c.toNat < 128
  · rw [lowerChar_ascii c h1] at h2
    exact List.singleton_inj.mp h2
  · exact toLower_of_not_upper c (by omega)

/-- Lower-cased text has no capital ASCII letter. -/
theorem lowerAscii_of_lowered (s : List Char) (h : ∀ c ∈ s, isLowered c = true) :
    lowerAscii s = s := by
  unfold lowerAscii
  induction s with
  | nil => rfl
  | cons c rest ih =>
    rw [List.map_cons, lowered_toLower c (h c (List.mem_cons_self _ _)),
      ih (fun x hx => h x (List.mem_cons_of_mem _ hx))]

theorem word_ascii (w : List Char) (hw : ∀ c ∈ w, isWordChar c = true) :
    ∀ c ∈ w, c.toNat < 128 := by
  intro c hc
  have := (isWordChar_iff c).mp (hw c hc)
  omega

/-- On a run of word characters `toLowerCase` is the map of `Char.toLower`. -/
theorem toLowerCase_word (w : List Char) (hw : ∀ c ∈ w, isWordChar c = true) :
    toLowerCase w = lowerAscii w :=
  toLowerCase_ascii w (word_ascii w hw)

/-- The typo loop only brings in characters of canonical words. -/
theorem applyTypos_mem :
    ∀ s : List Char, ∀ c ∈ applyTypos s, c ∈ s ∨ ∃ e ∈ typoMap, c ∈ e.2.data := by
  apply wordRun_induction
  · intro c hc
    rw [applyTypos_nil] at hc
    exact Or.inl hc
  · intro x s hx ih c hc
    rw [applyTypos_sep x s hx] at hc
    rcases List.mem_cons.mp hc with rfl | hc
    · exact Or.inl (List.mem_cons_self _ _)
    · rcases ih c hc with h | h
      · exact Or.inl (List.mem_cons_of_mem _ h)
      · exact Or.inr h
  · intro w s hne hw hs ih c hc
    rw [(applyTypos_word w s hne hw hs).1] at hc
    rcases List.mem_append.mp hc with hc | hc
    · rcases applyTypos_word_cases w hne hw with ⟨hsame, _⟩ | ⟨e, he, heq⟩
      · rw [hsame] at hc
        exact Or.inl (List.mem_append_left _ hc)
      · rw [heq] at hc
        exact Or.inr ⟨e, he, hc⟩
    · rcases ih c hc with h | h
      · exact Or.inl (List.mem_append_right _ h)
      · exact Or.inr h

set_option maxRecDepth 100000 in
theorem typoMap_lowered : ∀ e ∈ typoMap, ∀ c ∈ e.2.data, isLowered c = true := by
  decide

theorem containsWord_sub (s w : List Char) (h : ContainsWord s w) : ∀ c ∈ w, c ∈ s := by
  obtain ⟨pre, post, rfl, _⟩ := h
  intro c hc
  simp [hc]

/-! ### The normaliser -/

theorem normalizeMessage_some (m : String) :
    normalizeMessage (some m) =
      if m.data.isEmpty then "" else String.mk (applyTypos (trim (toLowerCase m.data))) := rfl

theorem normalizeMessage_data (m : String) :
    (normalizeMessage (some m)).data = applyTypos (trim (toLowerCase m.data)) := by
  rw [normalizeMessage_some]
  by_cases h : m.data.isEmpty = true
  · rw [if_pos h]
    have hm : m.data = [] := List.isEmpty_iff.mp h
    have h1 : trim (toLowerCase ([] : List Char)) = [] := rfl
    rw [hm, h1, applyTypos_nil]
  · rw [if_neg h]

theorem string_eq_of_data (a b : String) (h : a.data = b.data) : a = b := by
  cases a; cases b; simp_all

theorem isSpaceOpt_word_ends (w : List Char) (hne : w ≠ [])
    (hw : ∀ c ∈ w, isWordChar c = true) :
    isSpaceOpt w.head? = false ∧ isSpaceOpt w.getLast? = false :=
  ⟨isSpaceOpt_of_word _ (word_head_last w hne hw).1,
    isSpaceOpt_of_word _ (word_head_last w hne hw).2⟩

/-- The normaliser on a message whose lower-cased text is split around one of its whole
words: the word and the text on either side are normalised on their own. -/
theorem normalizeMessage_split_lowered (m : String) (pre w post : List Char)
    (hlow : toLowerCase m.data = pre ++ w ++ post) (h : WholeWordAt pre w post) :
    (normalizeMessage (some m)).data =
      applyTypos (trimStart pre) ++ applyTypos w ++ applyTypos (trimEnd post) := by
  obtain ⟨hne, hw, hpre, hpost⟩ := h
  have hends := isSpaceOpt_word_ends w hne hw
  have hP : isWordOpt (trimStart pre).getLast? = false :=
    trimStart_last isWordOpt rfl _ hpre
  have hQ : isWordOpt (trimEnd post).head? = false :=
    trimEnd_head isWordOpt rfl _ hpost
  rw [normalizeMessage_data, hlow, trim_around _ _ _ hne hends.1 hends.2, List.append_assoc,
    applyTypos_append _ _ hP, (applyTypos_word _ _ hne hw hQ).1, List.append_assoc]

theorem ascii_parts (pre w post : List Char) (h : ∀ c ∈ pre ++ w ++ post, c.toNat < 128) :
    (∀ c ∈ pre, c.toNat < 128) ∧ (∀ c ∈ w, c.toNat < 128) ∧ ∀ c ∈ post, c.toNat < 128 :=
  ⟨fun c hc => h c (by simp [hc]), fun c hc => h c (by simp [hc]),
    fun c hc => h c (by simp [hc])⟩

/-- The normaliser on an ASCII message split around one of its whole words. -/
theorem normalizeMessage_split (pre w post : List Char) (h : WholeWordAt pre w post)
    (hascii : ∀ c ∈ pre ++ w ++ post, c.toNat < 128) :
    (normalizeMessage (some (String.mk (pre ++ w ++ post)))).data =
      applyTypos (trimStart (toLowerCase pre)) ++ applyTypos (toLowerCase w) ++
        applyTypos (trimEnd (toLowerCase post)) := by
  obtain ⟨hne, hw, hpre, hpost⟩ := h
  obtain ⟨h1, h2, h3⟩ := ascii_parts pre w post hascii
  rw [toLowerCase_ascii pre h1, toLowerCase_ascii w h2, toLowerCase_ascii post h3]
  apply normalizeMessage_split_lowered
  · show toLowerCase (pre ++ w ++ post) = _
    rw [toLowerCase_ascii _ hascii, lowerAscii_append, lowerAscii_append]
  · exact ⟨fun h0 => hne (List.map_eq_nil_iff.mp h0), lowerAscii_isWord w hw,
      by rw [lowerAscii_last]; exact hpre, by rw [lowerAscii_head]; exact hpost⟩

theorem typo_occurrence_isWord (typo : String) (hkey : isLowerWord typo.data = true)
    (occ : List Char) (hcase : lowerAscii occ = typo.data) :
    occ ≠ [] ∧ ∀ c ∈ occ, isWordChar c = true := by
  have hword := lowerWord_isWord typo.data hkey
  constructor
  · intro h
    rw [h] at hcase
    exact hword.1 hcase.symm
  · intro c hc
    rw [← isWordChar_toLower]
    apply hword.2
    rw [← hcase]
    exact List.mem_map_of_mem _ hc

theorem normalizeMessage_chars_lowered (m : String) :
    ∀ c ∈ (normalizeMessage (some m)).data, isLowered c = true := by
  intro c hc
  rw [normalizeMessage_data] at hc
  rcases applyTypos_mem _ c hc with h | ⟨e, he, h⟩
  · exact lowerGo_lowered m.data [] c (trim_mem _ c h)
  · exact typoMap_lowered e he c h

theorem normalizeMessage_lower (m : String) :
    toLowerCase (normalizeMessage (some m)).data = (normalizeMessage (some m)).data :=
  lowerGo_of_lowered _ [] (normalizeMessage_chars_lowered m)

theorem normalizeMessage_ends (m : String) :
    isSpaceOpt (normalizeMessage (some m)).data.head? = false ∧
      isSpaceOpt (normalizeMessage (some m)).data.getLast? = false := by
  rw [normalizeMessage_data]
  have h1 := applyTypos_ends (trim (toLowerCase m.data))
  have h2 := trim_ends (toLowerCase m.data)
  rw [h1.1, h1.2]
  exact h2

theorem normalizeMessage_idem (m : String) :
    normalizeMessage (some (normalizeMessage (some m))) = normalizeMessage (some m) := by
  apply string_eq_of_data
  have hlow := normalizeMessage_lower m
  have hends := normalizeMessage_ends m
  rw [normalizeMessage_data (normalizeMessage (some m)), hlow,
    trim_self _ hends.1 hends.2, normalizeMessage_data, applyTypos_idem]

theorem normalizeMessage_words_not_key (m : String) (w : List Char)
    (hw : ContainsWord (normalizeMessage (some m)).data w) :
    ∀ e ∈ typoMap, toLowerCase w ≠ e.1.data := by
  have hword : ∀ c ∈ w, isWordChar c = true := by
    obtain ⟨_, _, _, _, h, _, _⟩ := hw
    exact h
  rw [toLowerCase_word w hword]
  rw [normalizeMessage_data] at hw
  have hmem := containsWord_mem _ _ hw
  rw [wholeWords_applyTypos] at hmem
  obtain ⟨v, hv, rfl⟩ := List.mem_map.mp hmem
  obtain ⟨hne, hword⟩ := wholeWords_isWord _ v hv
  exact applyTypos_word_not_key v hne hword

/-- A message whose lower-cased text has no key among its whole words is lower-cased
and trimmed, and nothing else. -/
theorem normalizeMessage_no_key_lowered (m : String)
    (hkey : ∀ e ∈ typoMap, ∀ w, ContainsWord (toLowerCase m.data) w → w ≠ e.1.data) :
    (normalizeMessage (some m)).data = trim (toLowerCase m.data) := by
  rw [normalizeMessage_data]
  apply applyTypos_no_key
  intro v hv e he
  rw [wholeWords_trim] at hv
  have hcw := mem_wholeWords_containsWord _ v hv
  have hlow : lowerAscii v = v :=
    lowerAscii_of_lowered v
      (fun c hc => lowerGo_lowered m.data [] c (containsWord_sub _ v hcw c hc))
  rw [hlow]
  exact hkey e he v hcw

theorem normalizeMessage_no_key (m : String) (hascii : ∀ c ∈ m.data, c.toNat < 128)
    (hkey : ∀ e ∈ typoMap, ∀ w, ContainsWord m.data w → toLowerCase w ≠ e.1.data) :
    (normalizeMessage (some m)).data = trim (toLowerCase m.data) := by
  apply normalizeMessage_no_key_lowered
  intro e he v hv
  rw [toLowerCase_ascii _ hascii] at hv
  have hmem := containsWord_mem _ _ hv
  rw [wholeWords_lowerAscii] at hmem
  obtain ⟨w, hw, rfl⟩ := List.mem_map.mp hmem
  have hword := (wholeWords_isWord _ w hw).2
  have := hkey e he w (mem_wholeWords_containsWord _ w hw)
  rw [toLowerCase_word w hword] at this
  exact this

/-- C11 (as amended): for every (typo, canonical) pair of `typoMap` and every message
whose lower-cased text contains the typo as a whole word (with the start or end of the
string or a character other than an ASCII letter, digit or underscore on either side),
`normalizeMessage` returns a string with the canonical word in place of that
occurrence, between the normalised text before it and the normalised text after it.
For an ASCII message this is the case whenever the message itself contains the typo,
in any letter case, as a whole word. -/
theorem normalizeMessage_replaces_typo (typo canonical : String)
    (hpair : (typo, canonical) ∈ typoMap) :
    (∀ (m : String) (pre post : List Char),
      toLowerCase m.data = pre ++ typo.data ++ post →
      isWordOpt pre.getLast? = false → isWordOpt post.head? = false →
      (normalizeMessage (some m)).data =
        applyTypos (trimStart pre) ++ canonical.data ++ applyTypos (trimEnd post)) ∧
    (∀ (pre occ post : List Char), (∀ c ∈ pre ++ occ ++ post, c.toNat < 128) →
      toLowerCase occ = typo.data →
      isWordOpt pre.getLast? = false → isWordOpt post.head? = false →
      (normalizeMessage (some (String.mk (pre ++ occ ++ post)))).data =
        applyTypos (trimStart (toLowerCase pre)) ++ canonical.data ++
          applyTypos (trimEnd (toLowerCase post))) := by
  have hgood := typoMap_good _ hpair
  constructor
  · intro m pre post hlow hpre hpost
    have hword := lowerWord_isWord typo.data hgood.1
    rw [normalizeMessage_split_lowered m pre typo.data post hlow
      ⟨hword.1, hword.2, hpre, hpost⟩, applyTypos_key _ hpair]
  · intro pre occ post hascii hcase hpre hpost
    have hcase' : lowerAscii occ = typo.data := by
      rw [← toLowerCase_ascii occ (ascii_parts pre occ post hascii).2.1]; exact hcase
    have hocc := typo_occurrence_isWord typo hgood.1 occ hcase'
    rw [normalizeMessage_split pre occ post ⟨hocc.1, hocc.2, hpre, hpost⟩ hascii, hcase,
      applyTypos_key _ hpair]

theorem normalizeMessage_replaces_typo_witness :
    (normalizeMessage (some (String.mk
        ("  Grid ".data ++ "STAUS".data ++ ", please ".data)))).data =
      applyTypos (trimStart (toLowerCase "  Grid ".data)) ++ "status".data ++
        applyTypos (trimEnd (toLowerCase ", please ".data)) ∧
    normalizeMessage (some "  Grid STAUS, please ") = "grid status, please" :=
  ⟨(normalizeMessage_replaces_typo "staus" "status" (by decide)).2 "  Grid ".data
    "STAUS".data ", please ".data (by decide) (by decide) (by decide) (by decide), by decide⟩

/-- C11 (as stated) fails. In the first message the typo `gird` stands between a space
and the punctuation character `_`, and the normaliser returns the message unchanged,
without `grid`: the regular expression counts `_` as a word character. In the second
the typo is followed by the Kelvin sign U+212A, which is no ASCII letter but becomes
`k` in lower case, so that the text the typos are looked up in is `girdk`. -/
theorem normalizeMessage_underscore_counterexample :
    ("gird", "grid") ∈ typoMap ∧
      "what is the gird_status".data = "what is the ".data ++ "gird".data ++ "_status".data ∧
      "what is the ".data.getLast? = some ' ' ∧ "_status".data.head? = some '_' ∧
      Char.isAlphanum '_' = false ∧ isJsWhiteSpace '_' = false ∧
      normalizeMessage (some "what is the gird_status") = "what is the gird_status" ∧
      includes (normalizeMessage (some "what is the gird_status")) "grid" = false ∧
      isWordChar (Char.ofNat 0x212A) = false ∧
      normalizeMessage (some (String.mk ("gird".data ++ [Char.ofNat 0x212A]))) = "girdk" := by
  decide

/-- C12 (as amended): for every message and every whole word of its lower-cased text (a
maximal run of ASCII letters, digits and underscores) that is not itself a key of
`typoMap`, as for a key embedded in a longer word that is no key ("girdle"),
`normalizeMessage` leaves that word as it is, between the normalised text before it
and the normalised text after it. For an ASCII message this holds for every whole word
of the message itself that is no key in any letter case, which is then unchanged apart
from lower-casing. -/
theorem normalizeMessage_keeps_word :
    (∀ (m : String) (pre w post : List Char), toLowerCase m.data = pre ++ w ++ post →
      WholeWordAt pre w post → (∀ e ∈ typoMap, w ≠ e.1.data) →
      (normalizeMessage (some m)).data =
        applyTypos (trimStart pre) ++ w ++ applyTypos (trimEnd post)) ∧
    (∀ (pre w post : List Char), (∀ c ∈ pre ++ w ++ post, c.toNat < 128) →
      WholeWordAt pre w post → (∀ e ∈ typoMap, toLowerCase w ≠ e.1.data) →
      (normalizeMessage (some (String.mk (pre ++ w ++ post)))).data =
        applyTypos (trimStart (toLowerCase pre)) ++ toLowerCase w ++
          applyTypos (trimEnd (toLowerCase post))) := by
  constructor
  · intro m pre w post hlow hword hkey
    have hchars : ∀ c ∈ w, isLowered c = true := by
      intro c hc
      apply lowerGo_lowered m.data [] c
      show c ∈ toLowerCase m.data
      rw [hlow]
      simp [hc]
    have hsame : applyTypos w = w :=
      applyTable_not_key typoMap typoMap_good w hword.1 hword.2.1
        (fun e he => by rw [lowerAscii_of_lowered w hchars]; exact hkey e he)
    rw [normalizeMessage_split_lowered m pre w post hlow hword, hsame]
  · intro pre w post hascii hword hkey
    have hw := toLowerCase_word w hword.2.1
    have hne' : lowerAscii w ≠ [] := fun h0 => hword.1 (List.map_eq_nil_iff.mp h0)
    have hsame : applyTypos (lowerAscii w) = lowerAscii w :=
      applyTable_not_key typoMap typoMap_good _ hne' (lowerAscii_isWord w hword.2.1)
        (fun e he => by rw [lowerAscii_idem, ← hw]; exact hkey e he)
    rw [normalizeMessage_split pre w post hword hascii, hw, hsame]

theorem normalizeMessage_keeps_word_witness :
    (normalizeMessage (some (String.mk ("The ".data ++ "Girdle".data ++ " is gird".data)))).data =
      applyTypos (trimStart (toLowerCase "The ".data)) ++ toLowerCase "Girdle".data ++
        applyTypos (trimEnd (toLowerCase " is gird".data)) ∧
    normalizeMessage (some "The Girdle is gird") = "the girdle is grid" :=
  ⟨normalizeMessage_keeps_word.2 "The ".data "Girdle".data " is gird".data (by decide)
    ⟨by decide, by decide, by decide, by decide⟩ (by decide), by decide⟩

/-- C12 (as stated) fails: in `girds` the key `gird` occurs only embedded, with the
letter `s` directly after it, yet the word is replaced, because `girds` is a key
itself; in `girdé` the letter after the key is not an ASCII letter, so the key counts
as a whole word and is replaced; and `ta` followed by the Kelvin sign U+212A, where the
whole word `ta` is no key, becomes `tak` in lower case and then `take`. -/
theorem normalizeMessage_embedded_counterexample :
    ("gird", "grid") ∈ typoMap ∧ "girds".data = "gird".data ++ "s".data ∧
      Char.isAlpha 's' = true ∧
      normalizeMessage (some "girds") = "grid" ∧
      normalizeMessage (some "girdé") = "gridé" ∧
      wholeWords ("ta".data ++ [Char.ofNat 0x212A]) = ["ta".data] ∧
      normalizeMessage (some (String.mk ("ta".data ++ [Char.ofNat 0x212A]))) = "take" := by
  decide

/-- C13: `normalizeMessage` is idempotent: for every input string `m`,
`normalizeMessage (normalizeMessage m) = normalizeMessage m`; and no whole word of an
output is a key of `typoMap`, in any letter case. -/
theorem normalizeMessage_idempotent (m : String) :
    normalizeMessage (some (normalizeMessage (some m))) = normalizeMessage (some m) ∧
      ∀ e ∈ typoMap, ∀ w : List Char,
        ContainsWord (normalizeMessage (some m)).data w → toLowerCase w ≠ e.1.data :=
  ⟨normalizeMessage_idem m, fun e he w hw => normalizeMessage_words_not_key m w hw e he⟩

theorem normalizeMessage_idempotent_witness :
    normalizeMessage (some (normalizeMessage (some " Gird STAUS now ")))
        = normalizeMessage (some " Gird STAUS now ") ∧
      toLowerCase "grid".data ≠ "gird".data :=
  ⟨(normalizeMessage_idempotent " Gird STAUS now ").1,
    (normalizeMessage_idempotent " Gird STAUS now ").2 ("gird", "grid") (by decide) "grid".data
      ⟨[], " status now".data, by decide, by decide, by decide, by decide, by decide⟩⟩

/-- C14 (as amended): `normalizeMessage` returns the empty string for `null`,
`undefined` and the empty string; for every other input the result is lower-cased and
neither begins nor ends with white space; and when the lower-cased input contains no
key of `typoMap` as a whole word, the result is `trim (toLowerCase input)`. For an
ASCII input this is the case whenever the input itself contains no key as a whole
word, in any letter case. -/
theorem normalizeMessage_contract :
    normalizeMessage none = "" ∧ normalizeMessage (some "") = "" ∧
      ∀ m : String,
        toLowerCase (normalizeMessage (some m)).data = (normalizeMessage (some m)).data ∧
        isSpaceOpt (normalizeMessage (some m)).data.head? = false ∧
        isSpaceOpt (normalizeMessage (some m)).data.getLast? = false ∧
        ((∀ e ∈ typoMap, ∀ w : List Char,
            ContainsWord (toLowerCase m.data) w → w ≠ e.1.data) →
          normalizeMessage (some m) = String.mk (trim (toLowerCase m.data))) ∧
        ((∀ c ∈ m.data, c.toNat < 128) →
          (∀ e ∈ typoMap, ∀ w : List Char,
            ContainsWord m.data w → toLowerCase w ≠ e.1.data) →
          normalizeMessage (some m) = String.mk (trim (toLowerCase m.data))) := by
  refine ⟨rfl, by decide, fun m => ⟨normalizeMessage_lower m, (normalizeMessage_ends m).1,
    (normalizeMessage_ends m).2, fun hkey => ?_, fun hascii hkey => ?_⟩⟩
  · apply string_eq_of_data
    exact normalizeMessage_no_key_lowered m hkey
  · apply string_eq_of_data
    exact normalizeMessage_no_key m hascii hkey

theorem normalizeMessage_contract_witness :
    normalizeMessage (some "  Hello, World_1 \n") =
      String.mk (trim (toLowerCase "  Hello, World_1 \n".data)) := by
  refine (normalizeMessage_contract.2.2 "  Hello, World_1 \n").2.2.2.2 (by decide) ?_
  intro e he w hw
  have hmem := containsWord_mem _ _ hw
  have hall : ∀ v ∈ wholeWords "  Hello, World_1 \n".data, ∀ k ∈ typoMap,
      toLowerCase v ≠ k.1.data := by decide
  exact hall w hmem e he

/-- C14 (as stated) fails: the input `ta` followed by the Kelvin sign U+212A has the one
whole word `ta`, which is no key of `typoMap` in any letter case; its lower case is
`tak`, a key, and the result is `take`, not `trim (toLowerCase input)`. -/
theorem normalizeMessage_kelvin_counterexample :
    wholeWords ("ta".data ++ [Char.ofNat 0x212A]) = ["ta".data] ∧
      (∀ e ∈ typoMap, toLowerCase "ta".data ≠ e.1.data) ∧
      toLowerCase ("ta".data ++ [Char.ofNat 0x212A]) = "tak".data ∧
      trim (toLowerCase ("ta".data ++ [Char.ofNat 0x212A])) = "tak".data ∧
      normalizeMessage (some (String.mk ("ta".data ++ [Char.ofNat 0x212A]))) = "take" := by
  decide

/-! ## Theorems: power distribution, continued -/

theorem distributeZone_deficit_pool (p : Int) (z : Zone)
    (h : (distributeZone p z).1.deficit > 0) : (distributeZone p z).2 = 0 := by
  unfold distributeZone at h ⊢
  by_cases h1 : z.usage ≤ z.threshold
  · simp [h1] at h
  · by_cases h2 : p ≥ z.usage - z.threshold
    · simp [h1, h2] at h
    · simp [h1, h2]

theorem distributeZone_empty_pool (z : Zone) :
    (distributeZone 0 z).2 = 0 ∧
      (z.usage > z.threshold → (distributeZone 0 z).1.bessUsed = 0 ∧
        (distributeZone 0 z).1.deficit = z.usage - z.threshold) := by
  unfold distributeZone
  by_cases h1 : z.usage ≤ z.threshold
  · simp [h1]
  · have h2 : ¬ (0 ≥ z.usage - z.threshold) := by omega
    simp [h1, h2]

theorem distributeFrom_empty_pool (zones : List Zone) :
    ∀ (j : Nat) (zj : Zone) (dj : DistributedZone), zones[j]? = some zj →
      (distributeFrom 0 zones).1[j]? = some dj → zj.usage > zj.threshold →
      dj.bessUsed = 0 ∧ dj.deficit = zj.usage - zj.threshold := by
  induction zones with
  | nil => intro j zj dj hz; simp at hz
  | cons z rest ih =>
    intro j zj dj hz hd hover
    have hpool := (distributeZone_empty_pool z).1
    cases j with
    | zero =>
      simp only [List.getElem?_cons_zero, Option.some.injEq] at hz
      simp only [distributeFrom, List.getElem?_cons_zero, Option.some.injEq] at hd
      subst hz; subst hd
      exact (distributeZone_empty_pool z).2 hover
    | succ j' =>
      simp only [List.getElem?_cons_succ] at hz
      simp only [distributeFrom, List.getElem?_cons_succ, hpool] at hd
      exact ih j' zj dj hz hd hover

theorem distributeFrom_starved (zones : List Zone) :
    ∀ (p : Int) (i j : Nat) (di dj : DistributedZone) (zj : Zone), i < j →
      (distributeFrom p zones).1[i]? = some di → di.deficit > 0 →
      zones[j]? = some zj → zj.usage > zj.threshold →
      (distributeFrom p zones).1[j]? = some dj →
      dj.bessUsed = 0 ∧ dj.deficit = zj.usage - zj.threshold := by
  induction zones with
  | nil => intro p i j di dj zj _ hdi; simp [distributeFrom] at hdi
  | cons z rest ih =>
    intro p i j di dj zj hij hdi hdef hzj hover hdj
    cases j with
    | zero => omega
    | succ j' =>
      simp only [List.getElem?_cons_succ] at hzj
      simp only [distributeFrom, List.getElem?_cons_succ] at hdj
      cases i with
      | zero =>
        simp only [distributeFrom, List.getElem?_cons_zero, Option.some.injEq] at hdi
        subst hdi
        rw [distributeZone_deficit_pool p z hdef] at hdj
        exact distributeFrom_empty_pool rest j' zj dj hzj hdj hover
      | succ i' =>
        simp only [distributeFrom, List.getElem?_cons_succ] at hdi
        exact ih _ i' j' di dj zj (by omega) hdi hdef hzj hover hdj

/-- C23: allocation is first-come-first-served: if some zone `i` ends with
`deficit > 0`, every later zone `j > i` with `usage > threshold` receives
`bessUsed = 0` and `deficit = usage - threshold`, whatever its need; and there are
valid inputs where swapping two zones changes which zone carries the deficit. -/
theorem calculateDistribution_first_come_first_served :
    (∀ (bessPower : Int) (zones : List Zone) (i j : Nat) (di dj : DistributedZone) (zj : Zone),
      ValidZones zones → 0 ≤ bessPower → i < j →
      (calculateDistribution bessPower zones)[i]? = some di → di.deficit > 0 →
      zones[j]? = some zj → zj.usage > zj.threshold →
      (calculateDistribution bessPower zones)[j]? = some dj →
      dj.bessUsed = 0 ∧ dj.deficit = zj.usage - zj.threshold) ∧
    (∃ (bessPower : Int) (a b : Zone), ValidZones [a, b] ∧ 0 ≤ bessPower ∧
      (calculateDistribution bessPower [a, b]).map (fun d => (d.id, d.deficit)) =
        [("zone1", 0), ("zone2", 50000)] ∧
      (calculateDistribution bessPower [b, a]).map (fun d => (d.id, d.deficit)) =
        [("zone2", 0), ("zone1", 50000)]) := by
  constructor
  · intro bessPower zones i j di dj zj _ _ hij hdi hdef hzj hover hdj
    exact distributeFrom_starved zones bessPower i j di dj zj hij hdi hdef hzj hover hdj
  · exact ⟨100000, ⟨"Zone 1", "zone1", 600000, 500000⟩, ⟨"Zone 2", "zone2", 450000, 400000⟩,
      by decide, by decide, by decide, by decide⟩

theorem calculateDistribution_first_come_first_served_witness :
    ∃ dj, (calculateDistribution 120000 initialZones)[2]? = some dj ∧
      dj.bessUsed = 0 ∧ dj.deficit = 380000 - 350000 := by
  refine ⟨⟨"Zone 3", "zone3", 380000, 350000, 350000, 0, 30000⟩, by decide, ?_⟩
  exact calculateDistribution_first_come_first_served.1 120000 initialZones 1 2
    ⟨"Zone 2", "zone2", 450000, 400000, 400000, 20000, 30000⟩
    ⟨"Zone 3", "zone3", 380000, 350000, 350000, 0, 30000⟩
    ⟨"Zone 3", "zone3", 380000, 350000⟩
    (by decide) (by decide) (by decide) (by decide) (by decide) (by decide) (by decide)
    (by decide)

theorem distributeZone_fields (p : Int) (z : Zone) :
    (distributeZone p z).1.name = z.name ∧ (distributeZone p z).1.id = z.id ∧
      (distributeZone p z).1.usage = z.usage ∧ (distributeZone p z).1.threshold = z.threshold := by
  unfold distributeZone
  by_cases h : z.usage ≤ z.threshold
  · simp [h]
  · by_cases h2 : p ≥ z.usage - z.threshold
    · simp [h, h2]
    · simp [h, h2]

theorem distributeZone_nonneg (p : Int) (z : Zone) (hp : 0 ≤ p) (hu : 0 ≤ z.usage)
    (ht : 0 ≤ z.threshold) :
    0 ≤ (distributeZone p z).1.regular ∧ 0 ≤ (distributeZone p z).1.bessUsed ∧
      0 ≤ (distributeZone p z).1.deficit := by
  unfold distributeZone
  by_cases h : z.usage ≤ z.threshold
  · simp [h, hu]
  · by_cases h2 : p ≥ z.usage - z.threshold
    · simp only [h, h2, if_true, if_false]
      refine ⟨ht, ?_, le_refl _⟩
      omega
    · simp only [h, h2, if_false]
      refine ⟨ht, hp, ?_⟩
      omega

theorem distributeFrom_fields (zones : List Zone) :
    ∀ (p : Int) (i : Nat) (z : Zone), zones[i]? = some z →
      ∃ d, (distributeFrom p zones).1[i]? = some d ∧ d.name = z.name ∧ d.id = z.id ∧
        d.usage = z.usage ∧ d.threshold = z.threshold := by
  induction zones with
  | nil => intro p i z hz; simp at hz
  | cons y rest ih =>
    intro p i z hz
    cases i with
    | zero =>
      simp only [List.getElem?_cons_zero, Option.some.injEq] at hz
      subst hz
      exact ⟨(distributeZone p y).1, by simp [distributeFrom], distributeZone_fields p y⟩
    | succ i' =>
      simp only [List.getElem?_cons_succ] at hz
      obtain ⟨d, hd, hrest⟩ := ih (distributeZone p y).2 i' z hz
      exact ⟨d, by simpa [distributeFrom] using hd, hrest⟩

theorem distributeFrom_nonneg (zones : List Zone) :
    ∀ p : Int, 0 ≤ p → ValidZones zones →
      ∀ d ∈ (distributeFrom p zones).1, 0 ≤ d.regular ∧ 0 ≤ d.bessUsed ∧ 0 ≤ d.deficit := by
  induction zones with
  | nil => intro p _ _ d hd; simp [distributeFrom] at hd
  | cons y rest ih =>
    intro p hp hvalid d hd
    have hy := hvalid y (List.mem_cons_self _ _)
    have hrest : ValidZones rest := fun z hz => hvalid z (List.mem_cons_of_mem _ hz)
    simp only [distributeFrom, List.mem_cons] at hd
    rcases hd with rfl | hd
    · exact distributeZone_nonneg p y hp hy.1 hy.2
    · exact ih _ (distributeZone_pool p y hp).2 hrest d hd

/-- C29: `calculateDistribution` preserves the input: the result has the length of the
zone list, its i-th entry belongs to the i-th zone and keeps `name`, `id`, `usage` and
`threshold`, and the added `regular`, `bessUsed` and `deficit` are all `≥ 0` for valid
inputs. -/
theorem calculateDistribution_preserves_input (bessPower : Int) (zones : List Zone) :
    (calculateDistribution bessPower zones).length = zones.length ∧
      ∀ (i : Nat) (z : Zone), zones[i]? = some z →
        ∃ d, (calculateDistribution bessPower zones)[i]? = some d ∧
          d.name = z.name ∧ d.id = z.id ∧ d.usage = z.usage ∧ d.threshold = z.threshold ∧
          (ValidZones zones → 0 ≤ bessPower →
            0 ≤ d.regular ∧ 0 ≤ d.bessUsed ∧ 0 ≤ d.deficit) := by
  refine ⟨distributeFrom_length zones bessPower, ?_⟩
  intro i z hz
  obtain ⟨d, hd, h1, h2, h3, h4⟩ := distributeFrom_fields zones bessPower i z hz
  refine ⟨d, hd, h1, h2, h3, h4, ?_⟩
  intro hvalid hp
  exact distributeFrom_nonneg zones bessPower hp hvalid d (List.getElem?_mem hd)

theorem calculateDistribution_preserves_input_witness :
    ∃ d, (calculateDistribution 120000 initialZones)[1]? = some d ∧
      d.name = "Zone 2" ∧ d.id = "zone2" ∧ d.usage = 450000 ∧ d.threshold = 400000 ∧
      0 ≤ d.regular ∧ 0 ≤ d.bessUsed ∧ 0 ≤ d.deficit := by
  obtain ⟨d, hd, h1, h2, h3, h4, h5⟩ :=
    (calculateDistribution_preserves_input 120000 initialZones).2 1
      ⟨"Zone 2", "zone2", 450000, 400000⟩ (by decide)
  exact ⟨d, hd, h1, h2, h3, h4, h5 (by decide) (by decide)⟩

/-- C22: `calculateDistribution` keeps no state between calls: a call leaves the
component state as it was, a second call returns what the first returned (it starts
again from `bessPower`, not from the pool the first call was left with), and calls on
states with equal zones and equal `bessPower` return equal results. -/
theorem render_stateless :
    (∀ st : Dashboard, st.render.2 = st ∧ st.render.2.render.1 = st.render.1) ∧
      (∀ st st' : Dashboard, st.zones = st'.zones → st.bessPower = st'.bessPower →
        st.render.1 = st'.render.1) ∧
      (poolRemainder 120000 initialZones = 0 ∧
        (Dashboard.render ⟨100000, 20000, 120000, initialZones⟩).2.render.1 =
          calculateDistribution 120000 initialZones) := by
  refine ⟨fun st => ⟨rfl, rfl⟩, ?_, by decide, rfl⟩
  intro st st' hz hp
  unfold Dashboard.render
  rw [hz, hp]

theorem render_stateless_witness :
    (Dashboard.render ⟨100000, 20000, 120000, initialZones⟩).1 =
      (Dashboard.render ⟨5000000, 1200000, 120000, initialZones⟩).1 :=
  render_stateless.2.1 ⟨100000, 20000, 120000, initialZones⟩
    ⟨5000000, 1200000, 120000, initialZones⟩ rfl rfl

theorem excess_nonneg (z : Zone) : 0 ≤ z.excess := le_max_left _ _

theorem totalExcess_nonneg (zones : List Zone) : 0 ≤ totalExcess zones := by
  induction zones with
  | nil => simp [totalExcess]
  | cons z rest ih =>
    have h := excess_nonneg z
    simp only [totalExcess, List.map_cons, List.sum_cons] at ih ⊢
    omega

theorem distributeZone_totals (p : Int) (z : Zone) (hp : 0 ≤ p) :
    (distributeZone p z).1.bessUsed = min p z.excess ∧
      (distributeZone p z).1.deficit = max 0 (z.excess - p) ∧
      (distributeZone p z).2 = p - min p z.excess := by
  unfold distributeZone Zone.excess
  by_cases h : z.usage ≤ z.threshold
  · have h0 : max 0 (z.usage - z.threshold) = 0 := max_eq_left (by omega)
    simp only [h, if_true, h0]
    refine ⟨?_, ?_, ?_⟩
    · rw [min_eq_right hp]
    · rw [max_eq_left (by omega)]
    · rw [min_eq_right hp]; omega
  · have h0 : max 0 (z.usage - z.threshold) = z.usage - z.threshold :=
      max_eq_right (by omega)
    by_cases h2 : p ≥ z.usage - z.threshold
    · simp only [h, h2, if_true, if_false, h0]
      refine ⟨?_, ?_, ?_⟩
      · rw [min_eq_right h2]
      · rw [max_eq_left (by omega)]
      · rw [min_eq_right h2]
    · simp only [h, h2, if_false, h0]
      have h3 : p ≤ z.usage - z.threshold := by omega
      refine ⟨?_, ?_, ?_⟩
      · rw [min_eq_left h3]
      · rw [max_eq_right (by omega)]
      · rw [min_eq_left h3]; omega

theorem distributeFrom_totals (zones : List Zone) :
    ∀ p : Int, 0 ≤ p →
      totalBessUsed (distributeFrom p zones).1 = min p (totalExcess zones) ∧
        totalDeficit (distributeFrom p zones).1 = max 0 (totalExcess zones - p) := by
  induction zones with
  | nil =>
    intro p hp
    simp only [distributeFrom, totalBessUsed, totalDeficit, totalExcess, List.map_nil,
      List.sum_nil]
    exact ⟨(min_eq_right hp).symm, (max_eq_left (by omega)).symm⟩
  | cons z rest ih =>
    intro p hp
    obtain ⟨h1, h2, h3⟩ := distributeZone_totals p z hp
    have hz := excess_nonneg z
    have hr := totalExcess_nonneg rest
    have hp' : 0 ≤ (distributeZone p z).2 := (distributeZone_pool p z hp).2
    obtain ⟨i1, i2⟩ := ih _ hp'
    simp only [totalBessUsed, totalDeficit, totalExcess, distributeFrom, List.map_cons,
      List.sum_cons] at i1 i2 hr ⊢
    rw [i1, i2, h1, h2, h3]
    constructor
    · rcases le_total p z.excess with hle | hle
      · rw [min_eq_left hle, min_eq_left (by omega : p - p ≤ _), min_eq_left (by omega)]
        omega
      · rw [min_eq_right hle]
        rcases le_total (p - z.excess) (List.map Zone.excess rest).sum with h4 | h4
        · rw [min_eq_left h4, min_eq_left (by omega)]; omega
        · rw [min_eq_right h4, min_eq_right (by omega)]
    · rcases le_total p z.excess with hle | hle
      · rw [min_eq_left hle, max_eq_right (by omega : (0 : Int) ≤ z.excess - p),
          max_eq_right (by omega), max_eq_right (by omega)]
        omega
      · rw [min_eq_right hle, max_eq_left (by omega : z.excess - p ≤ 0)]
        rcases le_total ((List.map Zone.excess rest).sum - (p - z.excess)) 0 with h4 | h4
        · rw [max_eq_left h4, max_eq_left (by omega)]; omega
        · rw [max_eq_right h4, max_eq_right (by omega)]; omega

/-! ## Theorems: chatbot engine, continued -/

set_option maxRecDepth 100000 in
theorem getGreeting_mem (rnd : Fin 3) : getGreeting rnd ∈ greetings := by
  revert rnd
  decide

set_option maxRecDepth 100000 in
theorem getGreeting_ne_others (rnd : Fin 3) :
    getGreeting rnd ≠ getBreachInfo ∧ getGreeting rnd ≠ getExplanation "explain this alert" := by
  have h : ∀ g ∈ greetings, g ≠ getBreachInfo ∧ g ≠ getExplanation "explain this alert" := by
    decide
  exact h _ (getGreeting_mem rnd)

theorem matchesPattern_of_includes (message keyword : String) (keywords : List String)
    (hmem : keyword ∈ keywords) (h : includes message keyword = true) :
    matchesPattern message keywords = true := by
  unfold matchesPattern
  rw [List.any_eq_true]
  exact ⟨keyword, hmem, h⟩

/-- C27: keywords are matched as substrings, so every message whose normalised form
contains "hi" anywhere resolves to the greeting intent, whatever else it contains; in
particular the quick question "Explain this alert" ("this" contains "hi") gets one of
the three greeting strings, not the breach text and not the explanation text. -/
theorem getResponse_hi_substring :
    (∀ (context : Context) (fetch : Option GridStats) (rnd : Fin 3)
        (userMessage : Option String),
      includes (normalizeMessage userMessage) "hi" = true →
      (getResponse context fetch rnd userMessage).result = .ok (.text (getGreeting rnd)) ∧
        getGreeting rnd ∈ greetings) ∧
    (∀ (context : Context) (fetch : Option GridStats) (rnd : Fin 3),
      (getResponse context fetch rnd (some "Explain this alert")).result =
          .ok (.text (getGreeting rnd)) ∧
        getGreeting rnd ∈ greetings ∧ getGreeting rnd ≠ getBreachInfo ∧
        getGreeting rnd ≠ getExplanation (normalizeMessage (some "Explain this alert"))) := by
  have key : ∀ (context : Context) (fetch : Option GridStats) (rnd : Fin 3)
      (userMessage : Option String),
      includes (normalizeMessage userMessage) "hi" = true →
      (getResponse context fetch rnd userMessage).result = .ok (.text (getGreeting rnd)) := by
    intro context fetch rnd userMessage hhi
    exact dispatch_first_match (refreshStats context fetch).1 rnd userMessage
      (normalizeMessage userMessage) .greeting
      (matchesPattern_of_includes _ "hi" _ (by simp [Intent.keywords]) hhi)
      (fun k hk => absurd hk (by cases k <;> decide))
  constructor
  · intro context fetch rnd userMessage hhi
    exact ⟨key context fetch rnd userMessage hhi, getGreeting_mem rnd⟩
  · intro context fetch rnd
    exact ⟨key context fetch rnd (some "Explain this alert") (by decide), getGreeting_mem rnd,
      (getGreeting_ne_others rnd).1, (getGreeting_ne_others rnd).2⟩

theorem getResponse_hi_substring_witness :
    (getResponse initialContext none 2 (some "Is this thing on?")).result =
        .ok (.text (getGreeting 2)) ∧
      getGreeting 2 ∈ greetings :=
  getResponse_hi_substring.1 initialContext none 2 (some "Is this thing on?") (by decide)

theorem orDefault_shows (field : Option Int) (fallback : Int) :
    Shows field fallback (orDefault field fallback) := by
  unfold Shows orDefault
  constructor
  · rintro (h | h) <;> rw [h]
    rfl
  · intro v hv h
    rw [h]
    simp [hv]

/-- C28: `getGridStatus` on cached statistics shows, for each of `critical_zones`,
`high_risk_zones`, `risk_distribution.Medium`, `risk_distribution.Low` and
`total_zones`, the hard-coded default (687, 58, 206, 49, 1000) when the statistic is
missing or `0`, and the statistic itself when it is a non-zero number. -/
theorem getGridStatus_shows (context : Context) (stats : GridStats)
    (hcached : context.gridStats = some stats) :
    ∃ critical high medium low total : Int,
      getGridStatus context =
        "⚡ **Live Grid Status Update:**\n\n📊 Zone Distribution:\n- 🔴 Critical: "
          ++ toString critical ++ "\n- 🟠 High Risk: " ++ toString high
          ++ "\n- 🟡 Medium: " ++ toString medium ++ "\n- 🟢 Low Risk: " ++ toString low
          ++ "\n\n💡 Total Monitored Zones: " ++ toString total
          ++ "\n\nWould you like details on any specific zone?" ∧
      Shows stats.critical_zones 687 critical ∧
      Shows stats.high_risk_zones 58 high ∧
      Shows (stats.risk_distribution.bind fun d => d.Medium) 206 medium ∧
      Shows (stats.risk_distribution.bind fun d => d.Low) 49 low ∧
      Shows stats.total_zones 1000 total := by
  refine ⟨_, _, _, _, _, ?_, orDefault_shows _ _, orDefault_shows _ _, orDefault_shows _ _,
    orDefault_shows _ _, orDefault_shows _ _⟩
  unfold getGridStatus
  rw [hcached]

set_option maxRecDepth 100000 in
theorem getGridStatus_shows_witness :
    getGridStatus ⟨"home", some ⟨some 0, none, some 950, some ⟨some 0, some 12⟩⟩, none⟩ =
      "⚡ **Live Grid Status Update:**\n\n📊 Zone Distribution:\n- 🔴 Critical: 687\n- 🟠 High Risk: 58\n- 🟡 Medium: 206\n- 🟢 Low Risk: 12\n\n💡 Total Monitored Zones: 950\n\nWould you like details on any specific zone?" := by
  obtain ⟨critical, high, medium, low, total, htext, h1, h2, h3, h4, h5⟩ :=
    getGridStatus_shows ⟨"home", some ⟨some 0, none, some 950, some ⟨some 0, some 12⟩⟩, none⟩
      ⟨some 0, none, some 950, some ⟨some 0, some 12⟩⟩ rfl
  rw [htext, h1.1 (Or.inr rfl), h2.1 (Or.inl rfl), h3.1 (Or.inr rfl),
    h4.2 12 (by decide) rfl, h5.2 950 (by decide) rfl]
  decide

/-! ## Theorems: chat widget -/

theorem applyOperations_log (operations : List LogOperation) :
    ∀ log : List ChatMessage, ∃ added : List ChatMessage,
      applyOperations log operations = log ++ added ∧ added.length = operations.length := by
  induction operations with
  | nil => intro log; exact ⟨[], by simp [applyOperations], rfl⟩
  | cons operation rest ih =>
    intro log
    obtain ⟨added, h1, h2⟩ := ih (operation.apply log)
    have hstep : ∃ entry, operation.apply log = log ++ [entry] := by
      cases operation with
      | user text now => exact ⟨_, rfl⟩
      | bot text now => exact ⟨_, rfl⟩
    obtain ⟨entry, he⟩ := hstep
    refine ⟨entry :: added, ?_, by simp [h2]⟩
    have : applyOperations log (operation :: rest) =
        applyOperations (operation.apply log) rest := rfl
    rw [this, h1, he]
    simp

/-- C24: the message log is append-only: `addUserMessage` and `addBotMessage` each give
the previous log followed by exactly one new entry `{ text, sender, timestamp }`, with
sender "user" and "bot"; and after any sequence of the widget's log operations the
earlier log is still there, entry by entry, as the leading part of the log. -/
theorem messages_append_only :
    (∀ (text : String) (now : Nat) (prev : List ChatMessage),
      addUserMessage text now prev = prev ++ [⟨text, "user", now⟩] ∧
      addBotMessage text now prev = prev ++ [⟨text, "bot", now⟩]) ∧
    (∀ (log : List ChatMessage) (operations : List LogOperation),
      log <+: applyOperations log operations ∧
      (applyOperations log operations).length = log.length + operations.length ∧
      ∀ (i : Nat) (entry : ChatMessage), log[i]? = some entry →
        (applyOperations log operations)[i]? = some entry) := by
  refine ⟨fun _ _ _ => ⟨rfl, rfl⟩, ?_⟩
  intro log operations
  obtain ⟨added, h1, h2⟩ := applyOperations_log operations log
  rw [h1]
  refine ⟨⟨added, rfl⟩, by simp [h2], ?_⟩
  intro i entry hi
  have hlt : i < log.length := by
    rcases Nat.lt_or_ge i log.length with h | h
    · exact h
    · rw [List.getElem?_eq_none h] at hi
      exact absurd hi (by simp)
  rw [List.getElem?_append_left hlt]
  exact hi

theorem messages_append_only_witness :
    (applyOperations [⟨"hello", "user", 1⟩, ⟨"Hi there!", "bot", 2⟩]
        [.user "grid status" 3, .bot "fetching" 4])[1]? =
      some ⟨"Hi there!", "bot", 2⟩ := by
  exact (messages_append_only.2 [⟨"hello", "user", 1⟩, ⟨"Hi there!", "bot", 2⟩]
    [.user "grid status" 3, .bot "fetching" 4]).2.2 1 ⟨"Hi there!", "bot", 2⟩ (by decide)

theorem dispatch_wellFormed (context : Context) (rnd : Fin 3) (userMessage message : String) :
    ∃ r, dispatch context rnd (some userMessage) message = .ok r ∧ r.WellFormed := by
  have htext : ∀ t : String,
      ∃ r, (Except.ok (Response.text t) : Except JsError Response) = .ok r ∧ r.WellFormed :=
    fun t => ⟨.text t, rfl, trivial⟩
  unfold dispatch
  refine wellFormed_ite (htext _) ?_
  refine wellFormed_ite (htext _) ?_
  refine wellFormed_ite (htext _) ?_
  refine wellFormed_ite (htext _) ?_
  refine wellFormed_ite (htext _) ?_
  refine wellFormed_ite (htext _) ?_
  refine wellFormed_ite (htext _) ?_
  refine wellFormed_ite ⟨_, rfl, getNavigationResponse_wellFormed _⟩ ?_
  refine wellFormed_ite (htext _) ?_
  refine wellFormed_ite (htext _) ?_
  obtain ⟨t, ht⟩ := getSmartFallback_some userMessage
  rw [ht]
  exact htext t

theorem navigationTargets_nonempty (target : String) (h : target ∈ navigationTargets) :
    target.data.isEmpty = false := by
  revert target
  decide

theorem handleSend_blank (input : String) (onNavigate : Bool)
    (engine : String → Except JsError Response) (h : trim input.data = []) :
    handleSend input onNavigate engine = [] := by
  unfold handleSend
  simp only []
  rw [h]
  rfl

theorem handleSend_sent (input : String) (onNavigate : Bool)
    (engine : String → Except JsError Response) (h : trim input.data ≠ []) :
    handleSend input onNavigate engine =
      [.addUserMessage (String.mk (trim input.data)), .setInput "", .setIsTyping true] ++
        match engine (String.mk (trim input.data)) with
        | .ok (.directive text action target) =>
          if action = "navigate" then
            [.addBotMessage text 800] ++
              (if onNavigate && !target.data.isEmpty then [.navigate target 1200] else [])
          else [.addBotObject (.directive text action target) 800]
        | .ok (.text response) => [.addBotMessage response 800]
        | .error _ =>
          [.logError, .addBotMessage "Sorry, I encountered an error. Please try again." 500] := by
  unfold handleSend
  simp only []
  have hne : (String.mk (trim input.data)).data.isEmpty = false := by
    cases htrim : trim input.data with
    | nil => exact absurd htrim h
    | cons c cs => rfl
  rw [hne]
  rfl

/-- C25: `handleSend` on the engine `getResponse`, with the host's `onNavigate` given:
white-space-only input does nothing; when the response is an object with
`action = "navigate"` the run appends `response.text` as the bot message and schedules
`onNavigate(response.target)`; when the response is a plain string the run appends that
string and schedules no navigation. So navigation is scheduled exactly when the
response is a navigation directive. -/
theorem handleSend_navigates (context : Context) (fetch : Option GridStats) (rnd : Fin 3)
    (input : String) :
    (trim input.data = [] →
      ∀ onNavigate : Bool, handleSend input onNavigate
        (fun message => (getResponse context fetch rnd (some message)).result) = []) ∧
    (trim input.data ≠ [] →
      (∀ text target : String,
        (getResponse context fetch rnd (some (String.mk (trim input.data)))).result =
          .ok (.directive text "navigate" target) →
        handleSend input true
            (fun message => (getResponse context fetch rnd (some message)).result) =
          [.addUserMessage (String.mk (trim input.data)), .setInput "", .setIsTyping true,
            .addBotMessage text 800, .navigate target 1200]) ∧
      (∀ response : String,
        (getResponse context fetch rnd (some (String.mk (trim input.data)))).result =
          .ok (.text response) →
        ∀ onNavigate : Bool, handleSend input onNavigate
            (fun message => (getResponse context fetch rnd (some message)).result) =
          [.addUserMessage (String.mk (trim input.data)), .setInput "", .setIsTyping true,
            .addBotMessage response 800]) ∧
      (schedulesNavigation (handleSend input true
          (fun message => (getResponse context fetch rnd (some message)).result)) = true ↔
        ∃ text target : String,
          (getResponse context fetch rnd (some (String.mk (trim input.data)))).result =
            .ok (.directive text "navigate" target))) := by
  constructor
  · intro hblank onNavigate
    exact handleSend_blank input onNavigate _ hblank
  · intro hsent
    obtain ⟨r, hr, hwf⟩ := dispatch_wellFormed (refreshStats context fetch).1 rnd
      (String.mk (trim input.data)) (normalizeMessage (some (String.mk (trim input.data))))
    have hres : (getResponse context fetch rnd (some (String.mk (trim input.data)))).result
        = .ok r := hr
    refine ⟨?_, ?_, ?_⟩
    · intro text target htarget
      rw [hres] at htarget
      have hr' : r = .directive text "navigate" target := by injection htarget
      rw [hr'] at hwf
      have hne := navigationTargets_nonempty target hwf.2
      rw [handleSend_sent input true _ hsent]
      simp only [hres, hr', hne]
      rfl
    · intro response hresponse onNavigate
      rw [handleSend_sent input onNavigate _ hsent]
      simp only [hresponse]
      rfl
    · rw [handleSend_sent input true _ hsent]
      simp only [hres]
      cases r with
      | text response =>
        constructor
        · intro h
          simp [schedulesNavigation] at h
        · rintro ⟨text, target, h⟩
          injection h with h
          injection h
      | directive text action target =>
        have hact : action = "navigate" := hwf.1
        have hne := navigationTargets_nonempty target hwf.2
        subst hact
        constructor
        · intro _; exact ⟨text, target, rfl⟩
        · intro _
          simp only [if_true, hne]
          rfl

theorem handleSend_navigates_witness :
    handleSend "  open map " true
        (fun message => (getResponse initialContext none 0 (some message)).result) =
      [.addUserMessage "open map", .setInput "", .setIsTyping true,
        .addBotMessage "🗺️ Opening Risk Map visualization..." 800, .navigate "risk-map" 1200] := by
  have h := ((handleSend_navigates initialContext none 0 "  open map ").2 (by decide)).1
    "🗺️ Opening Risk Map visualization..." "risk-map"
    (dispatch_first_match (refreshStats initialContext none).1 0
      (some (String.mk (trim "  open map ".data)))
      (normalizeMessage (some (String.mk (trim "  open map ".data)))) .navigation
      (by decide) (by intro k; cases k <;> decide))
  have htrim : String.mk (trim "  open map ".data) = "open map" := by decide
  rw [htrim] at h
  exact h

/-! ## Theorems: binary64 numbers -/

namespace Number

set_option exponentiation.threshold 5000

theorem roundHalfEven_exact (q d : Nat) (hd : 0 < d) : roundHalfEven (q * d) d = q := by
  unfold roundHalfEven
  have h1 : q * d / d = q := Nat.mul_div_cancel q hd
  have h2 : q * d % d = 0 := Nat.mul_mod_left q d
  simp only [h1, h2]
  rw [if_pos (by omega)]

theorem spacingExp_le : ∀ (fuel q t : Nat), q < 2 ^ 53 * 2 ^ t → spacingExp fuel q ≤ t := by
  intro fuel
  induction fuel with
  | zero => intro q t _; simp [spacingExp]
  | succ fuel ih =>
    intro q t h
    unfold spacingExp
    by_cases hq : q < 2 ^ 53
    · rw [if_pos hq]; omega
    · rw [if_neg hq]
      cases t with
      | zero => simp at h; omega
      | succ t =>
        have h2 : q / 2 < 2 ^ 53 * 2 ^ t := by
          rw [pow_succ] at h
          omega
        have := ih (q / 2) t h2
        omega

/-- A value `j * 2 ^ t` units with `j < 2 ^ 53` is a double: rounding returns it. -/
theorem roundUnits_exact (j t d : Nat) (hj : j < 2 ^ 53) (hd : 0 < d) :
    roundUnits (j * 2 ^ t * d) d = j * 2 ^ t := by
  unfold roundUnits
  have h1 : j * 2 ^ t * d / d = j * 2 ^ t := Nat.mul_div_cancel _ hd
  simp only [h1]
  have hk : spacingExp (j * 2 ^ t) (j * 2 ^ t) ≤ t :=
    spacingExp_le _ _ t (Nat.mul_lt_mul_of_pos_right hj (Nat.two_pow_pos _))
  obtain ⟨s, hs⟩ := Nat.exists_eq_add_of_le hk
  have h2 : j * 2 ^ t * d = (j * 2 ^ s) * (d * 2 ^ spacingExp (j * 2 ^ t) (j * 2 ^ t)) := by
    conv_lhs => rw [hs, pow_add]
    ring
  have hpos : 0 < d * 2 ^ spacingExp (j * 2 ^ t) (j * 2 ^ t) :=
    Nat.mul_pos hd (Nat.two_pow_pos _)
  rw [h2, roundHalfEven_exact _ _ hpos]
  conv_rhs => rw [hs, pow_add]
  ring

theorem natAbs_mul_units (n : Int) :
    (n * (unitsPerOne : Int)).natAbs = n.natAbs * 2 ^ 1074 := by
  rw [Int.natAbs_mul]
  rfl

theorem pow_lt_overflow (j t : Nat) (hj : j < 2 ^ 53) (ht : t ≤ 2045) :
    ¬ overflowUnits ≤ j * 2 ^ t := by
  unfold overflowUnits
  have h1 : j * 2 ^ t < 2 ^ 53 * 2 ^ t := Nat.mul_lt_mul_of_pos_right hj (Nat.two_pow_pos _)
  have h2 : 2 ^ 53 * 2 ^ t ≤ 2 ^ 2098 := by
    rw [← pow_add]
    exact Nat.pow_le_pow_right (by decide) (by omega)
  exact Nat.not_le.mpr (Nat.lt_of_lt_of_le h1 h2)

/-- Rounding leaves a value `± j * 2 ^ t` units with `j < 2 ^ 53` as it is. -/
theorem round_exact (num : Int) (j t : Nat) (hj : j < 2 ^ 53) (ht : t ≤ 2045)
    (h : num.natAbs = j * 2 ^ t) : round num 1 = finite num := by
  unfold round
  have hm : roundUnits num.natAbs 1 = j * 2 ^ t := by
    rw [h]
    have := roundUnits_exact j t 1 hj (by decide)
    rwa [Nat.mul_one] at this
  simp only [hm]
  rw [if_neg (pow_lt_overflow j t hj ht)]
  congr 1
  by_cases hneg : num < 0
  · rw [if_pos hneg]; omega
  · rw [if_neg hneg]; omega

/-- A whole number of magnitude up to `2 ^ 53` is a double. -/
theorem round_whole (n : Int) (h : n.natAbs ≤ 2 ^ 53) :
    round (n * (unitsPerOne : Int)) 1 = finite (n * (unitsPerOne : Int)) := by
  rcases Nat.lt_or_ge n.natAbs (2 ^ 53) with hlt | hge
  · exact round_exact _ n.natAbs 1074 hlt (by decide) (natAbs_mul_units n)
  · have heq : n.natAbs = 2 ^ 53 := Nat.le_antisymm h hge
    refine round_exact _ 1 1127 (by decide) (by decide) ?_
    rw [natAbs_mul_units, heq, ← pow_add, Nat.one_mul]

theorem ofInt_whole (n : Int) (h : n.natAbs ≤ 2 ^ 53) :
    ofInt n = finite (n * (unitsPerOne : Int)) := round_whole n h

theorem unitsPerOne_pos : (0 : Int) < (unitsPerOne : Int) := by
  unfold unitsPerOne
  exact Int.ofNat_lt.mpr (Nat.two_pow_pos 1074)

/-- Adding whole numbers is exact while the sum stays within `2 ^ 53`. -/
theorem add_whole (a b : Int) (ha : a.natAbs ≤ 2 ^ 53) (hb : b.natAbs ≤ 2 ^ 53)
    (h : (a + b).natAbs ≤ 2 ^ 53) : add (ofInt a) (ofInt b) = ofInt (a + b) := by
  rw [ofInt_whole a ha, ofInt_whole b hb, ofInt_whole (a + b) h]
  show round (a * (unitsPerOne : Int) + b * (unitsPerOne : Int)) 1 = _
  rw [← Int.add_mul]
  exact round_whole (a + b) h

/-- Subtracting whole numbers is exact while the difference stays within `2 ^ 53`. -/
theorem sub_whole (a b : Int) (ha : a.natAbs ≤ 2 ^ 53) (hb : b.natAbs ≤ 2 ^ 53)
    (h : (a - b).natAbs ≤ 2 ^ 53) : sub (ofInt a) (ofInt b) = ofInt (a - b) := by
  rw [ofInt_whole a ha, ofInt_whole b hb, ofInt_whole (a - b) h]
  show round (a * (unitsPerOne : Int) + -(b * (unitsPerOne : Int))) 1 = _
  have : a * (unitsPerOne : Int) + -(b * (unitsPerOne : Int)) =
      (a - b) * (unitsPerOne : Int) := by ring
  rw [this]
  exact round_whole (a - b) h

theorem le_whole (a b : Int) (ha : a.natAbs ≤ 2 ^ 53) (hb : b.natAbs ≤ 2 ^ 53) :
    le (ofInt a) (ofInt b) = decide (a ≤ b) := by
  rw [ofInt_whole a ha, ofInt_whole b hb]
  show decide (a * (unitsPerOne : Int) ≤ b * (unitsPerOne : Int)) = _
  rw [decide_eq_decide]
  exact mul_le_mul_right unitsPerOne_pos

theorem spacingExp_spec : ∀ (fuel q : Nat), q ≤ fuel →
    spacingExp fuel q = 0 ∨ 2 ^ 52 * 2 ^ spacingExp fuel q ≤ q := by
  intro fuel
  induction fuel with
  | zero => intro q _; left; rfl
  | succ fuel ih =>
    intro q hq
    unfold spacingExp
    by_cases h : q < 2 ^ 53
    · rw [if_pos h]; left; rfl
    · rw [if_neg h]
      right
      have h53 : (2 : Nat) ^ 53 = 2 ^ 52 * 2 := by decide
      rcases ih (q / 2) (by omega) with h0 | h1
      · rw [h0]
        omega
      · have e : 2 ^ 52 * 2 ^ (spacingExp fuel (q / 2) + 1) =
            (2 ^ 52 * 2 ^ spacingExp fuel (q / 2)) * 2 := by
          ring
        rw [e]
        omega

theorem roundHalfEven_scale (a d b : Nat) (hb : 0 < b) :
    roundHalfEven (a * b) (d * b) = roundHalfEven a d := by
  unfold roundHalfEven
  have h1 : a * b / (d * b) = a / d := Nat.mul_div_mul_right a d hb
  have h2 : a * b % (d * b) = a % d * b := Nat.mul_mod_mul_right b a d
  simp only [h1, h2]
  have e1 : (2 * (a % d * b) < d * b) ↔ (2 * (a % d) < d) := by
    rw [← Nat.mul_assoc]
    exact Nat.mul_lt_mul_right hb
  have e2 : (d * b < 2 * (a % d * b)) ↔ (d < 2 * (a % d)) := by
    rw [← Nat.mul_assoc]
    exact Nat.mul_lt_mul_right hb
  simp only [e1, e2]

theorem roundHalfEven_bounds (n d : Nat) :
    n / d ≤ roundHalfEven n d ∧ roundHalfEven n d ≤ n / d + 1 ∧
      (roundHalfEven n d = n / d + 1 → d ≤ 2 * (n % d)) := by
  unfold roundHalfEven
  dsimp only
  by_cases h1 : 2 * (n % d) < d
  · rw [if_pos h1]; omega
  · rw [if_neg h1]
    by_cases h2 : d < 2 * (n % d)
    · rw [if_pos h2]; omega
    · rw [if_neg h2]
      by_cases h3 : n / d % 2 = 0
      · rw [if_pos h3]; omega
      · rw [if_neg h3]; omega

/-- A value `q` units whose magnitude is `j * 2 ^ t` with `j < 2 ^ 53`, given as a
fraction with denominator `den`, rounds to itself. -/
theorem round_exact_den (q : Int) (den j t : Nat) (hden : 0 < den) (hj : j < 2 ^ 53)
    (ht : t ≤ 2045) (h : q.natAbs = j * 2 ^ t) : round (q * (den : Int)) den = finite q := by
  unfold round
  have hn : (q * (den : Int)).natAbs = j * 2 ^ t * den := by
    rw [Int.natAbs_mul, h, Int.natAbs_ofNat]
  have hm : roundUnits (q * (den : Int)).natAbs den = j * 2 ^ t := by
    rw [hn]
    exact roundUnits_exact j t den hj hden
  simp only [hm]
  rw [if_neg (pow_lt_overflow j t hj ht)]
  congr 1
  have hdpos : (0 : Int) < (den : Int) := Int.ofNat_lt.mpr hden
  by_cases hneg : q < 0
  · have : q * (den : Int) < 0 := Int.mul_neg_of_neg_of_pos hneg hdpos
    rw [if_pos this]; omega
  · have : ¬ q * (den : Int) < 0 := by
      have := Int.mul_nonneg (Int.not_lt.mp hneg) (Int.le_of_lt hdpos)
      omega
    rw [if_neg this]; omega

/-- Multiplying whole numbers is exact while the product stays within `2 ^ 53`. -/
theorem mul_whole (a b : Int) (ha : a.natAbs ≤ 2 ^ 53) (hb : b.natAbs ≤ 2 ^ 53)
    (h : (a * b).natAbs ≤ 2 ^ 53) : mul (ofInt a) (ofInt b) = ofInt (a * b) := by
  rw [ofInt_whole a ha, ofInt_whole b hb, ofInt_whole (a * b) h]
  show round (a * (unitsPerOne : Int) * (b * (unitsPerOne : Int))) unitsPerOne = _
  have e : a * (unitsPerOne : Int) * (b * (unitsPerOne : Int)) =
      (a * b * (unitsPerOne : Int)) * (unitsPerOne : Int) := by ring
  rw [e]
  have hpos : 0 < unitsPerOne := Nat.two_pow_pos 1074
  rcases Nat.lt_or_ge (a * b).natAbs (2 ^ 53) with hlt | hge
  · exact round_exact_den _ unitsPerOne (a * b).natAbs 1074 hpos hlt (by decide)
      (natAbs_mul_units (a * b))
  · have heq : (a * b).natAbs = 2 ^ 53 := Nat.le_antisymm h hge
    refine round_exact_den _ unitsPerOne 1 1127 hpos (by decide) (by decide) ?_
    rw [natAbs_mul_units, heq, ← pow_add, Nat.one_mul]

theorem lt_whole (a b : Int) (ha : a.natAbs ≤ 2 ^ 53) (hb : b.natAbs ≤ 2 ^ 53) :
    lt (ofInt a) (ofInt b) = decide (a < b) := by
  rw [ofInt_whole a ha, ofInt_whole b hb]
  show decide (a * (unitsPerOne : Int) < b * (unitsPerOne : Int)) = _
  rw [decide_eq_decide]
  exact mul_lt_mul_right unitsPerOne_pos

/-- The double nearest to `x / 60` for a whole number `x < 2 ^ 53` lies between
`⌊x / 60⌋` and the next whole number: rounding never reaches the next whole number. -/
theorem roundUnits_div60 (x : Nat) (hx : x < 2 ^ 53) :
    roundUnits (x * 2 ^ 1074) 60 / 2 ^ 1074 = x / 60 ∧
      roundUnits (x * 2 ^ 1074) 60 < 2 ^ 53 * 2 ^ 1074 := by
  unfold roundUnits
  dsimp only
  generalize hq : x * 2 ^ 1074 / 60 = q
  have hqle : q * 60 ≤ x * 2 ^ 1074 := by rw [← hq]; exact Nat.div_mul_le_self _ _
  have hUpos : 0 < 2 ^ 1074 := Nat.two_pow_pos 1074
  have hqlt : q < 2 ^ 53 * 2 ^ 1074 := by
    have h1 : x * 2 ^ 1074 < 2 ^ 53 * 2 ^ 1074 := Nat.mul_lt_mul_of_pos_right hx hUpos
    have h2 : q ≤ q * 60 := Nat.le_mul_of_pos_right q (by decide)
    exact Nat.lt_of_le_of_lt (Nat.le_trans h2 hqle) h1
  have hk : spacingExp q q ≤ 1074 := spacingExp_le q q 1074 hqlt
  have hspec := spacingExp_spec q q (Nat.le_refl q)
  generalize spacingExp q q = k at hk hspec
  obtain ⟨s, hs⟩ := Nat.exists_eq_add_of_le hk
  have hU : 2 ^ 1074 = 2 ^ s * 2 ^ k := by rw [hs, pow_add, Nat.mul_comm]
  have hB : 0 < 2 ^ k := Nat.two_pow_pos k
  have hApos : 0 < 2 ^ s := Nat.two_pow_pos s
  have hA : 30 < 2 ^ s := by
    rcases hspec with h0 | h1
    · have hs' : s = 1074 := by omega
      rw [hs']
      calc 30 < 2 ^ 5 := by decide
        _ ≤ 2 ^ 1074 := Nat.pow_le_pow_right (by decide) (by decide)
    · have h2 : 2 ^ 52 * 2 ^ k * 60 ≤ x * 2 ^ s * 2 ^ k := by
        calc 2 ^ 52 * 2 ^ k * 60 ≤ q * 60 := Nat.mul_le_mul_right 60 h1
          _ ≤ x * 2 ^ 1074 := hqle
          _ = x * 2 ^ s * 2 ^ k := by rw [hU, Nat.mul_assoc]
      have h3 : 2 ^ 52 * 60 * 2 ^ k ≤ x * 2 ^ s * 2 ^ k := by
        have : 2 ^ 52 * 60 * 2 ^ k = 2 ^ 52 * 2 ^ k * 60 := by ring
        rw [this]; exact h2
      have h4 : 2 ^ 52 * 60 ≤ x * 2 ^ s := Nat.le_of_mul_le_mul_right h3 hB
      have h5 : x * 2 ^ s < 2 ^ 53 * 2 ^ s := Nat.mul_lt_mul_of_pos_right hx hApos
      generalize 2 ^ s = A at h4 h5 ⊢
      omega
  have hn : x * 2 ^ 1074 = x * 2 ^ s * 2 ^ k := by rw [hU, Nat.mul_assoc]
  rw [hn, roundHalfEven_scale (x * 2 ^ s) 60 (2 ^ k) hB]
  obtain ⟨hlo, hhi, hup⟩ := roundHalfEven_bounds (x * 2 ^ s) 60
  generalize roundHalfEven (x * 2 ^ s) 60 = R at hlo hhi hup ⊢
  have hx60 : x = 60 * (x / 60) + x % 60 := (Nat.div_add_mod x 60).symm
  have hr : x % 60 < 60 := Nat.mod_lt x (by decide)
  have hP : x * 2 ^ s = 60 * (x / 60 * 2 ^ s) + x % 60 * 2 ^ s := by
    conv_lhs => rw [hx60]
    ring
  have hrA : x % 60 * 2 ^ s ≤ 59 * 2 ^ s := Nat.mul_le_mul_right _ (by omega)
  have hdm : x * 2 ^ s = 60 * (x * 2 ^ s / 60) + x * 2 ^ s % 60 :=
    (Nat.div_add_mod _ 60).symm
  have hm : x * 2 ^ s % 60 < 60 := Nat.mod_lt _ (by decide)
  generalize x * 2 ^ s / 60 = q' at hlo hhi hup hdm
  generalize x * 2 ^ s % 60 = r' at hup hdm hm
  generalize hyA : x / 60 * 2 ^ s = yA at hP
  generalize x % 60 * 2 ^ s = rA at hP hrA
  generalize hAA : 2 ^ s = A at hA hApos hP hrA hyA hdm
  have hbounds : yA ≤ R ∧ R < yA + A := by
    constructor
    · omega
    · by_cases hcase : R = q' + 1
      · have := hup hcase
        omega
      · omega
  have hdiv : R / A = x / 60 := by
    apply Nat.div_eq_of_lt_le
    · rw [hyA]; exact hbounds.1
    · have : (x / 60 + 1) * A = yA + A := by rw [← hyA]; ring
      rw [this]; exact hbounds.2
  constructor
  · rw [hs]
    have : 2 ^ (k + s) = A * 2 ^ k := by rw [pow_add, hAA, Nat.mul_comm]
    rw [this, Nat.mul_div_mul_right R A hB, hdiv]
  · have h1 : R * 2 ^ k < (yA + A) * 2 ^ k := Nat.mul_lt_mul_of_pos_right hbounds.2 hB
    have h2 : yA + A ≤ 2 ^ 53 * A := by
      have : x / 60 + 1 ≤ 2 ^ 53 := by omega
      calc yA + A = (x / 60 + 1) * A := by rw [← hyA]; ring
        _ ≤ 2 ^ 53 * A := Nat.mul_le_mul_right A this
    have h3 : (yA + A) * 2 ^ k ≤ 2 ^ 53 * 2 ^ 1074 := by
      calc (yA + A) * 2 ^ k ≤ 2 ^ 53 * A * 2 ^ k := Nat.mul_le_mul_right _ h2
        _ = 2 ^ 53 * 2 ^ 1074 := by rw [hU, ← hAA, Nat.mul_assoc]
    exact Nat.lt_of_lt_of_le h1 h3

theorem round_def (num : Int) (den : Nat) :
    round num den =
      if overflowUnits ≤ roundUnits num.natAbs den then
        (if num < 0 then negInfinity else posInfinity)
      else finite (if num < 0 then -((roundUnits num.natAbs den : Nat) : Int)
        else ((roundUnits num.natAbs den : Nat) : Int)) := rfl

theorem floor_finite (a : Int) :
    floor (finite a) = finite (a / (unitsPerOne : Int) * (unitsPerOne : Int)) := rfl

theorem divWhole_finite (a : Int) (d : Nat) : divWhole (finite a) d = round a d := rfl

theorem mod_finite (a b : Int) :
    mod (finite a) (finite b) =
      if b = 0 then nan
      else if a < 0 then finite (-((a.natAbs % b.natAbs : Nat) : Int))
      else finite ((a.natAbs % b.natAbs : Nat) : Int) := rfl

theorem toString_finite (a : Int) :
    toString (finite a) =
      if a < 0 then '-' :: magnitudeToString a.natAbs else magnitudeToString a.natAbs := rfl

theorem ofInt_nat (x : Nat) (hx : x ≤ 2 ^ 53) :
    ofInt (x : Int) = finite (((x * 2 ^ 1074 : Nat)) : Int) := by
  rw [ofInt_whole (x : Int) (by omega)]
  unfold unitsPerOne
  rw [Int.natCast_mul]

/-- For a whole number `x < 2 ^ 53`, `Math.floor(x / 60)` is the whole quotient. -/
theorem floor_div_whole (x : Nat) (hx : x < 2 ^ 53) :
    floor (divWhole (ofInt (x : Int)) 60) = ofInt ((x / 60 : Nat) : Int) := by
  obtain ⟨hdiv, hlt⟩ := roundUnits_div60 x hx
  have hx60 : x / 60 ≤ 2 ^ 53 := by omega
  rw [ofInt_nat x (by omega), ofInt_nat (x / 60) hx60]
  rw [divWhole_finite, round_def, Int.natAbs_ofNat]
  have hover : ¬ overflowUnits ≤ roundUnits (x * 2 ^ 1074) 60 := by
    unfold overflowUnits
    have h2 : 2 ^ 53 * 2 ^ 1074 ≤ 2 ^ 2098 := by
      rw [← pow_add]
      exact Nat.pow_le_pow_right (by decide) (by decide)
    exact Nat.not_le.mpr (Nat.lt_of_lt_of_le hlt h2)
  have hneg : ¬ ((x * 2 ^ 1074 : Nat) : Int) < 0 := Int.not_lt.mpr (Int.ofNat_nonneg _)
  rw [if_neg hover, if_neg hneg, floor_finite]
  unfold unitsPerOne
  rw [← Int.natCast_div, hdiv, ← Int.natCast_mul]

/-- For a whole number `x ≤ 2 ^ 53`, `x % 60` is the whole remainder. -/
theorem mod_whole (x : Nat) (hx : x ≤ 2 ^ 53) :
    mod (ofInt (x : Int)) (ofInt 60) = ofInt ((x % 60 : Nat) : Int) := by
  have h60 : ofInt 60 = finite (((60 * 2 ^ 1074 : Nat)) : Int) := ofInt_nat 60 (by decide)
  have hr : x % 60 ≤ 2 ^ 53 := Nat.le_trans (Nat.mod_le x 60) hx
  rw [ofInt_nat x hx, h60, ofInt_nat (x % 60) hr, mod_finite]
  have hb : ¬ ((60 * 2 ^ 1074 : Nat) : Int) = 0 := by
    have : 0 < 60 * 2 ^ 1074 := Nat.mul_pos (by decide) (Nat.two_pow_pos 1074)
    omega
  have ha : ¬ ((x * 2 ^ 1074 : Nat) : Int) < 0 := Int.not_lt.mpr (Int.ofNat_nonneg _)
  rw [if_neg hb, if_neg ha, Int.natAbs_ofNat, Int.natAbs_ofNat, Nat.mul_mod_mul_right]

/-- A whole number below `2 ^ 53` is printed as its decimal digits. -/
theorem toString_whole (v : Nat) (hv : v < 2 ^ 53) :
    toString (ofInt (v : Int)) = Nat.toDigits 10 v := by
  rw [ofInt_nat v (by omega), toString_finite]
  have ha : ¬ ((v * 2 ^ 1074 : Nat) : Int) < 0 := Int.not_lt.mpr (Int.ofNat_nonneg _)
  rw [if_neg ha, Int.natAbs_ofNat]
  unfold magnitudeToString unitsPerOne
  have h1 : v * 2 ^ 1074 % 2 ^ 1074 = 0 := Nat.mul_mod_left v _
  have h2 : v * 2 ^ 1074 / 2 ^ 1074 = v := Nat.mul_div_cancel v (Nat.two_pow_pos 1074)
  rw [if_pos ⟨h1, by rw [h2]; exact hv⟩, h2]

theorem isNaN_ofInt (n : Int) (h : n.natAbs ≤ 2 ^ 53) : (ofInt n).isNaN = false := by
  rw [ofInt_whole n h]
  rfl

end Number

/-! ## Theorems: power distribution in binary64 -/

theorem natAbs_le_of_range (n : Int) (h0 : 0 ≤ n) (h1 : n ≤ 2 ^ 53) : n.natAbs ≤ 2 ^ 53 := by
  omega

/-- On whole-number inputs up to `2 ^ 53` the binary64 callback computes what the
exact callback computes: every operation is exact. -/
theorem distributeZone_whole (p : Int) (z : Zone) (hp0 : 0 ≤ p) (hp1 : p ≤ 2 ^ 53)
    (hu0 : 0 ≤ z.usage) (hu1 : z.usage ≤ 2 ^ 53) (ht0 : 0 ≤ z.threshold)
    (ht1 : z.threshold ≤ 2 ^ 53) :
    Binary64.distributeZone (Number.ofInt p) (Binary64.Zone.ofWhole z) =
      (Binary64.DistributedZone.ofWhole (distributeZone p z).1,
        Number.ofInt (distributeZone p z).2) := by
  have hp := natAbs_le_of_range p hp0 hp1
  have hu := natAbs_le_of_range _ hu0 hu1
  have ht := natAbs_le_of_range _ ht0 ht1
  unfold Binary64.distributeZone distributeZone Binary64.Zone.ofWhole
    Binary64.DistributedZone.ofWhole
  dsimp only
  rw [Number.le_whole _ _ hu ht]
  by_cases h : z.usage ≤ z.threshold
  · rw [decide_eq_true h, if_pos rfl, if_pos h]
  · rw [decide_eq_false h, if_neg (by decide), if_neg h]
    have he0 : 0 ≤ z.usage - z.threshold := by omega
    have he1 : z.usage - z.threshold ≤ 2 ^ 53 := by omega
    have he := natAbs_le_of_range _ he0 he1
    rw [Number.sub_whole _ _ hu ht he]
    unfold Number.ge
    rw [Number.le_whole _ _ he hp]
    by_cases h2 : p ≥ z.usage - z.threshold
    · rw [decide_eq_true h2, if_pos rfl, if_pos h2,
        Number.sub_whole _ _ hp he (natAbs_le_of_range _ (by omega) (by omega))]
    · have h3 : ¬ z.usage - z.threshold ≤ p := h2
      rw [decide_eq_false h3, if_neg (by decide), if_neg h2,
        Number.sub_whole _ _ he hp (natAbs_le_of_range _ (by omega) (by omega))]

theorem distributeFrom_whole (zones : List Zone) :
    ∀ p : Int, 0 ≤ p → p ≤ 2 ^ 53 → WholeZones zones →
      Binary64.distributeFrom (Number.ofInt p) (zones.map Binary64.Zone.ofWhole) =
        ((distributeFrom p zones).1.map Binary64.DistributedZone.ofWhole,
          Number.ofInt (distributeFrom p zones).2) := by
  induction zones with
  | nil => intro p _ _ _; rfl
  | cons z rest ih =>
    intro p hp0 hp1 hw
    obtain ⟨hu0, hu1, ht0, ht1⟩ := hw z (List.mem_cons_self _ _)
    have hrest : WholeZones rest := fun y hy => hw y (List.mem_cons_of_mem _ hy)
    have hpool := distributeZone_pool p z hp0
    have hstep := distributeZone_whole p z hp0 hp1 hu0 hu1 ht0 ht1
    have htail := ih (distributeZone p z).2 hpool.2 (by omega) hrest
    simp only [List.map_cons, Binary64.distributeFrom, distributeFrom, hstep, htail]

/-- On whole-number inputs up to `2 ^ 53` the binary64 calculator returns the figures
of the exact calculator. -/
theorem calculateDistribution_whole (bessPower : Int) (zones : List Zone)
    (hp0 : 0 ≤ bessPower) (hp1 : bessPower ≤ 2 ^ 53) (hw : WholeZones zones) :
    Binary64.calculateDistribution (Number.ofInt bessPower)
        (zones.map Binary64.Zone.ofWhole) =
      (calculateDistribution bessPower zones).map Binary64.DistributedZone.ofWhole := by
  unfold Binary64.calculateDistribution calculateDistribution
  rw [distributeFrom_whole zones bessPower hp0 hp1 hw]

theorem distributeFrom_mem (zones : List Zone) :
    ∀ p : Int, 0 ≤ p → ∀ d ∈ (distributeFrom p zones).1,
      ∃ z ∈ zones, ∃ q : Int, 0 ≤ q ∧ d = (distributeZone q z).1 := by
  induction zones with
  | nil => intro p _ d hd; simp [distributeFrom] at hd
  | cons y rest ih =>
    intro p hp d hd
    simp only [distributeFrom, List.mem_cons] at hd
    rcases hd with rfl | hd
    · exact ⟨y, List.mem_cons_self _ _, p, hp, rfl⟩
    · obtain ⟨z, hz, q, hq, hd⟩ := ih _ (distributeZone_pool p y hp).2 d hd
      exact ⟨z, List.mem_cons_of_mem _ hz, q, hq, hd⟩

theorem binary64_distributeFrom_mem (zones : List Binary64.Zone) :
    ∀ (p : Number), ∀ d ∈ (Binary64.distributeFrom p zones).1,
      ∃ z ∈ zones, ∃ q : Number, d = (Binary64.distributeZone q z).1 := by
  induction zones with
  | nil => intro p d hd; simp [Binary64.distributeFrom] at hd
  | cons y rest ih =>
    intro p d hd
    simp only [Binary64.distributeFrom, List.mem_cons] at hd
    rcases hd with rfl | hd
    · exact ⟨y, List.mem_cons_self _ _, p, rfl⟩
    · obtain ⟨z, hz, q, hd⟩ := ih _ d hd
      exact ⟨z, List.mem_cons_of_mem _ hz, q, hd⟩

theorem binary64_distributeFrom_length (zones : List Binary64.Zone) :
    ∀ p : Number, (Binary64.distributeFrom p zones).1.length = zones.length := by
  induction zones with
  | nil => intro p; rfl
  | cons y rest ih =>
    intro p
    simp only [Binary64.distributeFrom, List.length_cons, ih]

theorem binary64_distributeZone_fields (p : Number) (z : Binary64.Zone) :
    (Binary64.distributeZone p z).1.name = z.name ∧
      (Binary64.distributeZone p z).1.id = z.id ∧
      (Binary64.distributeZone p z).1.usage = z.usage ∧
      (Binary64.distributeZone p z).1.threshold = z.threshold := by
  unfold Binary64.distributeZone
  dsimp only
  by_cases h : Number.le z.usage z.threshold = true
  · rw [if_pos h]; exact ⟨rfl, rfl, rfl, rfl⟩
  · rw [if_neg h]
    by_cases h2 : Number.ge p (Number.sub z.usage z.threshold) = true
    · rw [if_pos h2]; exact ⟨rfl, rfl, rfl, rfl⟩
    · rw [if_neg h2]; exact ⟨rfl, rfl, rfl, rfl⟩

theorem binary64_distributeFrom_fields (zones : List Binary64.Zone) :
    ∀ (p : Number) (i : Nat) (z : Binary64.Zone), zones[i]? = some z →
      ∃ d, (Binary64.distributeFrom p zones).1[i]? = some d ∧ d.name = z.name ∧
        d.id = z.id ∧ d.usage = z.usage ∧ d.threshold = z.threshold := by
  induction zones with
  | nil => intro p i z hz; simp at hz
  | cons y rest ih =>
    intro p i z hz
    cases i with
    | zero =>
      simp only [List.getElem?_cons_zero, Option.some.injEq] at hz
      subst hz
      exact ⟨(Binary64.distributeZone p y).1, by simp [Binary64.distributeFrom],
        binary64_distributeZone_fields p y⟩
    | succ i =>
      simp only [List.getElem?_cons_succ] at hz
      obtain ⟨d, hd, h⟩ := ih (Binary64.distributeZone p y).2 i z hz
      exact ⟨d, by simpa [Binary64.distributeFrom] using hd, h⟩

theorem le_self_of_le (a x : Number) (h : Number.le a x = true) : Number.le x x = true := by
  cases x with
  | finite u => exact decide_eq_true (le_refl u)
  | posInfinity => rfl
  | negInfinity => rfl
  | nan => cases a <;> simp [Number.le] at h

theorem binary64_distributeZone_regular_le (p : Number) (z : Binary64.Zone)
    (ht : Number.le (Number.ofInt 0) z.threshold = true) :
    Number.le (Binary64.distributeZone p z).1.regular
      (Binary64.distributeZone p z).1.threshold = true := by
  unfold Binary64.distributeZone
  dsimp only
  by_cases h : Number.le z.usage z.threshold = true
  · rw [if_pos h]; exact h
  · rw [if_neg h]
    by_cases h2 : Number.ge p (Number.sub z.usage z.threshold) = true
    · rw [if_pos h2]; exact le_self_of_le _ _ ht
    · rw [if_neg h2]; exact le_self_of_le _ _ ht

theorem supplied_whole (d : DistributedZone) (hr : 0 ≤ d.regular) (hb : 0 ≤ d.bessUsed)
    (hf : 0 ≤ d.deficit) (hsum : d.regular + d.bessUsed + d.deficit = d.usage)
    (hu : d.usage ≤ 2 ^ 53) :
    (Binary64.DistributedZone.ofWhole d).supplied = (Binary64.DistributedZone.ofWhole d).usage := by
  unfold Binary64.DistributedZone.supplied Binary64.DistributedZone.ofWhole
  dsimp only
  rw [Number.add_whole _ _ (by omega) (by omega) (by omega),
    Number.add_whole _ _ (by omega) (by omega) (by omega), hsum]

/-- C1 (as amended): for zones with `usage ≥ 0` and `threshold ≥ 0` and a pool `≥ 0`, in
binary64 arithmetic every returned zone has `regular ≤ threshold`; and when `usage`,
`threshold` and the pool are whole numbers up to `2 ^ 53`, every returned zone also has
`regular + bessUsed + deficit = usage`, no operation being rounded. -/
theorem calculateDistribution_split_invariant :
    (∀ (bessPower : Number) (zones : List Binary64.Zone),
      (∀ z ∈ zones, Number.le (Number.ofInt 0) z.usage = true ∧
        Number.le (Number.ofInt 0) z.threshold = true) →
      Number.le (Number.ofInt 0) bessPower = true →
      ∀ d ∈ Binary64.calculateDistribution bessPower zones,
        Number.le d.regular d.threshold = true) ∧
    (∀ (bessPower : Int) (zones : List Zone),
      WholeZones zones → 0 ≤ bessPower → bessPower ≤ 2 ^ 53 →
      ∀ d ∈ Binary64.calculateDistribution (Number.ofInt bessPower)
          (zones.map Binary64.Zone.ofWhole),
        d.supplied = d.usage ∧ Number.le d.regular d.threshold = true) := by
  constructor
  · intro bessPower zones hz _ d hd
    obtain ⟨z, hmem, q, rfl⟩ := binary64_distributeFrom_mem zones bessPower d hd
    exact binary64_distributeZone_regular_le q z (hz z hmem).2
  · intro bessPower zones hw hp0 hp1 d hd
    rw [calculateDistribution_whole bessPower zones hp0 hp1 hw, List.mem_map] at hd
    obtain ⟨d0, hd0, rfl⟩ := hd
    obtain ⟨z, hz, q, hq, rfl⟩ := distributeFrom_mem zones bessPower hp0 d0 hd0
    obtain ⟨hu0, hu1, ht0, ht1⟩ := hw z hz
    have hn := distributeZone_nonneg q z hq hu0 ht0
    have hsum := distributeZone_sum q z
    have huse := distributeZone_usage q z
    have hreg := distributeZone_regular_le q z
    constructor
    · exact supplied_whole _ hn.1 hn.2.1 hn.2.2 (by rw [hsum, huse.1]) (by rw [huse.1]; exact hu1)
    · unfold Binary64.DistributedZone.ofWhole
      dsimp only
      rw [Number.le_whole _ _ (by omega) (by rw [huse.2]; omega), huse.2]
      exact decide_eq_true hreg

theorem calculateDistribution_split_invariant_witness :
    WholeZones initialZones ∧ (0 : Int) ≤ 120000 ∧ (120000 : Int) ≤ 2 ^ 53 ∧
      ∀ d ∈ Binary64.calculateDistribution (Number.ofInt 120000)
          (initialZones.map Binary64.Zone.ofWhole),
        d.supplied = d.usage ∧ Number.le d.regular d.threshold = true :=
  ⟨by decide, by decide, by decide,
    calculateDistribution_split_invariant.2 120000 initialZones (by decide) (by decide)
      (by decide)⟩

set_option exponentiation.threshold 5000 in
set_option maxRecDepth 100000 in
/-- C1 (as stated) fails in binary64: with pool 0.930035249179362, usage
402770.9743875843 and threshold 300000 (all `≥ 0`) the split is
(300000, 0.930035249179362, 102770.04435233513), and `regular + bessUsed + deficit`
is 402770.97438758425, not `usage`: the subtraction `excess - bessUsed` is rounded. -/
theorem calculateDistribution_split_rounding_counterexample :
    Number.le (Number.ofInt 0) (Number.ofDecimal 930035249179362 15) = true ∧
    Number.le (Number.ofInt 0) (Number.ofDecimal 4027709743875843 10) = true ∧
    (Binary64.calculateDistribution (Number.ofDecimal 930035249179362 15)
        [⟨"Zone 1", "zone1", Number.ofDecimal 4027709743875843 10, Number.ofInt 300000⟩]).map
        Binary64.DistributedZone.split =
      [(Number.ofInt 300000, Number.ofDecimal 930035249179362 15,
        Number.ofDecimal 10277004435233513 11)] ∧
    (Binary64.calculateDistribution (Number.ofDecimal 930035249179362 15)
        [⟨"Zone 1", "zone1", Number.ofDecimal 4027709743875843 10, Number.ofInt 300000⟩]).map
        Binary64.DistributedZone.supplied = [Number.ofDecimal 40277097438758425 11] ∧
    Number.ofDecimal 40277097438758425 11 ≠ Number.ofDecimal 4027709743875843 10 := by
  decide

/-- C21 (as amended): the calculator does not validate its input. For every pool value
and every zone list, negative figures, infinities and `NaN` included,
`calculateDistribution` returns one entry per zone, in order, each carrying the
`name`, `id`, `usage` and `threshold` of its zone; no input is rejected. -/
theorem calculateDistribution_total (bessPower : Number) (zones : List Binary64.Zone) :
    (Binary64.calculateDistribution bessPower zones).length = zones.length ∧
      ∀ (i : Nat) (z : Binary64.Zone), zones[i]? = some z →
        ∃ d, (Binary64.calculateDistribution bessPower zones)[i]? = some d ∧
          d.name = z.name ∧ d.id = z.id ∧ d.usage = z.usage ∧ d.threshold = z.threshold :=
  ⟨binary64_distributeFrom_length zones bessPower,
    binary64_distributeFrom_fields zones bessPower⟩

set_option exponentiation.threshold 5000 in
set_option maxRecDepth 100000 in
/-- C21 (as stated) fails: a negative pool, a negative usage and a negative threshold
are each accepted, and a split is returned that carries the negative figure. -/
theorem calculateDistribution_negative_counterexample :
    (Binary64.calculateDistribution (Number.ofInt (-5))
        [⟨"Zone 1", "zone1", Number.ofInt 600000, Number.ofInt 500000⟩]).map
        Binary64.DistributedZone.split =
      [(Number.ofInt 500000, Number.ofInt (-5), Number.ofInt 100005)] ∧
    (Binary64.calculateDistribution (Number.ofInt 100)
        [⟨"Zone 1", "zone1", Number.ofInt (-10), Number.ofInt 500⟩]).map
        Binary64.DistributedZone.split =
      [(Number.ofInt (-10), Number.ofInt 0, Number.ofInt 0)] ∧
    (Binary64.calculateDistribution (Number.ofInt 100)
        [⟨"Zone 1", "zone1", Number.ofInt 10, Number.ofInt (-20)⟩]).map
        Binary64.DistributedZone.split =
      [(Number.ofInt (-20), Number.ofInt 30, Number.ofInt 0)] := by
  decide

theorem foldl_add_whole (l : List Int) :
    ∀ a : Int, 0 ≤ a → (∀ x ∈ l, 0 ≤ x) → a + l.sum ≤ 2 ^ 53 →
      (l.map Number.ofInt).foldl Number.add (Number.ofInt a) = Number.ofInt (a + l.sum) := by
  induction l with
  | nil => intro a _ _ _; simp
  | cons x rest ih =>
    intro a ha hl hsum
    have hx : 0 ≤ x := hl x (List.mem_cons_self _ _)
    have hrest : ∀ y ∈ rest, 0 ≤ y := fun y hy => hl y (List.mem_cons_of_mem _ hy)
    have hr : 0 ≤ rest.sum := List.sum_nonneg hrest
    rw [List.sum_cons] at hsum
    rw [List.map_cons, List.foldl_cons,
      Number.add_whole a x (by omega) (by omega) (by omega),
      ih (a + x) (by omega) hrest (by omega), List.sum_cons, Int.add_assoc]

/-- Adding up whole numbers `≥ 0` is exact while the total stays within `2 ^ 53`. -/
theorem sum_whole (l : List Int) (hl : ∀ x ∈ l, 0 ≤ x) (hsum : l.sum ≤ 2 ^ 53) :
    Binary64.sum (l.map Number.ofInt) = Number.ofInt l.sum := by
  unfold Binary64.sum
  rw [foldl_add_whole l 0 (le_refl 0) hl (by omega), Int.zero_add]

theorem totals_whole (zones : List Zone) (bessPower : Int) (hw : WholeZones zones)
    (hp0 : 0 ≤ bessPower) (hp1 : bessPower ≤ 2 ^ 53) (he : totalExcess zones ≤ 2 ^ 53) :
    Binary64.totalBessUsed (Binary64.calculateDistribution (Number.ofInt bessPower)
        (zones.map Binary64.Zone.ofWhole)) =
      Number.ofInt (min bessPower (totalExcess zones)) ∧
    Binary64.totalDeficit (Binary64.calculateDistribution (Number.ofInt bessPower)
        (zones.map Binary64.Zone.ofWhole)) =
      Number.ofInt (max 0 (totalExcess zones - bessPower)) := by
  have hvalid : ValidZones zones := fun z hz => ⟨(hw z hz).1, (hw z hz).2.2.1⟩
  have hnn := distributeFrom_nonneg zones bessPower hp0 hvalid
  obtain ⟨hb, hd⟩ := distributeFrom_totals zones bessPower hp0
  have hE := totalExcess_nonneg zones
  unfold totalBessUsed at hb
  unfold totalDeficit at hd
  rw [calculateDistribution_whole bessPower zones hp0 hp1 hw]
  unfold Binary64.totalBessUsed Binary64.totalDeficit calculateDistribution
  have e1 : ((distributeFrom bessPower zones).1.map Binary64.DistributedZone.ofWhole).map
      Binary64.DistributedZone.bessUsed =
        ((distributeFrom bessPower zones).1.map DistributedZone.bessUsed).map Number.ofInt := by
    rw [List.map_map, List.map_map]
    apply List.map_congr_left
    intro d _
    simp only [Function.comp_apply, Binary64.DistributedZone.ofWhole]
  have e2 : ((distributeFrom bessPower zones).1.map Binary64.DistributedZone.ofWhole).map
      Binary64.DistributedZone.deficit =
        ((distributeFrom bessPower zones).1.map DistributedZone.deficit).map Number.ofInt := by
    rw [List.map_map, List.map_map]
    apply List.map_congr_left
    intro d _
    simp only [Function.comp_apply, Binary64.DistributedZone.ofWhole]
  rw [e1, e2]
  constructor
  · rw [sum_whole _ _ (by rw [hb]; exact le_trans (min_le_left _ _) hp1), hb]
    intro x hx
    obtain ⟨d, hd', rfl⟩ := List.mem_map.mp hx
    exact (hnn d hd').2.1
  · rw [sum_whole _ _ (by rw [hd]; exact max_le (by omega) (by omega)), hd]
    intro x hx
    obtain ⟨d, hd', rfl⟩ := List.mem_map.mp hx
    exact (hnn d hd').2.2

/-- C26 (as amended): for zones and a pool `P` whose figures are whole numbers between `0`
and `2 ^ 53`, with `E` the sum over the zones of `max(0, usage - threshold)` and
`E ≤ 2 ^ 53`, in binary64 arithmetic the sum of `bessUsed` is `min(P, E)` and the sum of
`deficit` is `max(0, E - P)`; hence both totals are the same for every reordering of
the zones. -/
theorem calculateDistribution_totals :
    (∀ (bessPower : Int) (zones : List Zone), WholeZones zones → 0 ≤ bessPower →
      bessPower ≤ 2 ^ 53 → totalExcess zones ≤ 2 ^ 53 →
      Binary64.totalBessUsed (Binary64.calculateDistribution (Number.ofInt bessPower)
          (zones.map Binary64.Zone.ofWhole)) =
        Number.ofInt (min bessPower (totalExcess zones)) ∧
      Binary64.totalDeficit (Binary64.calculateDistribution (Number.ofInt bessPower)
          (zones.map Binary64.Zone.ofWhole)) =
        Number.ofInt (max 0 (totalExcess zones - bessPower))) ∧
    (∀ (bessPower : Int) (zones reordered : List Zone), WholeZones zones → 0 ≤ bessPower →
      bessPower ≤ 2 ^ 53 → totalExcess zones ≤ 2 ^ 53 → zones.Perm reordered →
      Binary64.totalBessUsed (Binary64.calculateDistribution (Number.ofInt bessPower)
          (reordered.map Binary64.Zone.ofWhole)) =
        Binary64.totalBessUsed (Binary64.calculateDistribution (Number.ofInt bessPower)
          (zones.map Binary64.Zone.ofWhole)) ∧
      Binary64.totalDeficit (Binary64.calculateDistribution (Number.ofInt bessPower)
          (reordered.map Binary64.Zone.ofWhole)) =
        Binary64.totalDeficit (Binary64.calculateDistribution (Number.ofInt bessPower)
          (zones.map Binary64.Zone.ofWhole))) := by
  constructor
  · intro bessPower zones hw hp0 hp1 he
    exact totals_whole zones bessPower hw hp0 hp1 he
  · intro bessPower zones reordered hw hp0 hp1 he hperm
    have hw' : WholeZones reordered := fun z hz => hw z (hperm.mem_iff.mpr hz)
    have hsame : totalExcess reordered = totalExcess zones := by
      unfold totalExcess
      exact ((hperm.map Zone.excess).sum_eq).symm
    have h1 := totals_whole zones bessPower hw hp0 hp1 he
    have h2 := totals_whole reordered bessPower hw' hp0 hp1 (by rw [hsame]; exact he)
    rw [h1.1, h1.2, h2.1, h2.2, hsame]
    exact ⟨rfl, rfl⟩

set_option maxRecDepth 100000 in
theorem calculateDistribution_totals_witness :
    (Binary64.totalBessUsed (Binary64.calculateDistribution (Number.ofInt 120000)
          (initialZones.map Binary64.Zone.ofWhole)) =
        Number.ofInt (min 120000 (totalExcess initialZones)) ∧
      Binary64.totalDeficit (Binary64.calculateDistribution (Number.ofInt 120000)
          (initialZones.map Binary64.Zone.ofWhole)) =
        Number.ofInt (max 0 (totalExcess initialZones - 120000))) ∧
    (Binary64.totalBessUsed (Binary64.calculateDistribution (Number.ofInt 120000)
          (initialZones.reverse.map Binary64.Zone.ofWhole)) =
        Binary64.totalBessUsed (Binary64.calculateDistribution (Number.ofInt 120000)
          (initialZones.map Binary64.Zone.ofWhole)) ∧
      Binary64.totalDeficit (Binary64.calculateDistribution (Number.ofInt 120000)
          (initialZones.reverse.map Binary64.Zone.ofWhole)) =
        Binary64.totalDeficit (Binary64.calculateDistribution (Number.ofInt 120000)
          (initialZones.map Binary64.Zone.ofWhole))) :=
  ⟨calculateDistribution_totals.1 120000 initialZones (by decide) (by decide) (by decide)
      (by decide),
    calculateDistribution_totals.2 120000 initialZones initialZones.reverse (by decide)
      (by decide) (by decide) (by decide) (List.reverse_perm initialZones).symm⟩

set_option exponentiation.threshold 5000 in
set_option maxRecDepth 100000 in
/-- C26 (as stated) fails in binary64: with pool 0.366 and the zones (usage 600000.072,
threshold 500000) and (usage 450000.536, threshold 400000), all `≥ 0`, the sum of the
deficits is 150000.2420000001, it is 150000.24200000006 when the two zones are swapped,
and `E - P` is 150000.24200000006 in either order. -/
theorem calculateDistribution_totals_rounding_counterexample :
    Binary64.totalDeficit (Binary64.calculateDistribution (Number.ofDecimal 366 3)
        [⟨"Zone 1", "zone1", Number.ofDecimal 600000072 3, Number.ofInt 500000⟩,
         ⟨"Zone 2", "zone2", Number.ofDecimal 450000536 3, Number.ofInt 400000⟩]) =
      Number.ofDecimal 1500002420000001 10 ∧
    Binary64.totalDeficit (Binary64.calculateDistribution (Number.ofDecimal 366 3)
        [⟨"Zone 2", "zone2", Number.ofDecimal 450000536 3, Number.ofInt 400000⟩,
         ⟨"Zone 1", "zone1", Number.ofDecimal 600000072 3, Number.ofInt 500000⟩]) =
      Number.ofDecimal 15000024200000006 11 ∧
    Number.ofDecimal 1500002420000001 10 ≠ Number.ofDecimal 15000024200000006 11 ∧
    Number.sub (Binary64.sum
        [Number.sub (Number.ofDecimal 600000072 3) (Number.ofInt 500000),
         Number.sub (Number.ofDecimal 450000536 3) (Number.ofInt 400000)])
        (Number.ofDecimal 366 3) = Number.ofDecimal 15000024200000006 11 ∧
    Number.sub (Binary64.sum
        [Number.sub (Number.ofDecimal 450000536 3) (Number.ofInt 400000),
         Number.sub (Number.ofDecimal 600000072 3) (Number.ofInt 500000)])
        (Number.ofDecimal 366 3) = Number.ofDecimal 15000024200000006 11 := by
  decide

/-! ## Theorems: hospital countdown -/

theorem isDigits_iff (s : List Char) :
    isDigits s = true ↔ s ≠ [] ∧ ∀ c ∈ s, c.isDigit = true := by
  unfold isDigits
  cases s <;> simp

theorem digit_not_space (c : Char) (h : c.isDigit = true) : isJsWhiteSpace c = false := by
  rw [isDigit_iff] at h
  rw [Bool.eq_false_iff, Ne, isJsWhiteSpace_iff]
  simp only [List.mem_cons, List.mem_singleton, List.not_mem_nil, or_false]
  omega

theorem digit_ne (c d : Char) (h : c.isDigit = true) (hd : d.isDigit = false) :
    (some c == some d) = false := by
  rw [Bool.eq_false_iff]
  intro heq
  have : c = d := by simpa using heq
  rw [this, hd] at h
  exact Bool.noConfusion h

theorem hasHexMarker_digits (s : List Char) (h : ∀ c ∈ s, c.isDigit = true) :
    hasHexMarker s = false := by
  unfold hasHexMarker
  cases s with
  | nil => rfl
  | cons c cs =>
    cases cs with
    | nil => simp
    | cons d ds =>
      have hd : d.isDigit = true := h d (by simp)
      have h1 := digit_ne d 'x' hd (by decide)
      have h2 := digit_ne d 'X' hd (by decide)
      simp only [List.tail_cons, List.head?_cons, h1, h2, Bool.or_self, Bool.and_false]

/-- On a non-empty run of decimal digits `parseInt` gives the double nearest to the
whole number they denote. -/
theorem parseInt_digits (s : List Char) (h : isDigits s = true) :
    parseInt s = Number.ofInt (decimalValue s : Int) := by
  rw [isDigits_iff] at h
  obtain ⟨hne, hall⟩ := h
  cases s with
  | nil => exact absurd rfl hne
  | cons c cs =>
    have hc : c.isDigit = true := hall c (List.mem_cons_self _ _)
    have hdrop : (c :: cs).dropWhile isJsWhiteSpace = c :: cs := by
      rw [List.dropWhile_cons, digit_not_space c hc]
      simp
    have hminus := digit_ne c '-' hc (by decide)
    have hplus := digit_ne c '+' hc (by decide)
    have hhex := hasHexMarker_digits (c :: cs) hall
    have htake : (c :: cs).takeWhile Char.isDigit = c :: cs :=
      List.takeWhile_eq_self_iff.mpr hall
    unfold parseInt
    dsimp only
    rw [hdrop]
    simp only [List.head?_cons, hminus, hplus, Bool.or_self, Bool.false_eq_true, if_false,
      hhex, htake]
    exact if_neg (by simp)

theorem splitGo_part (separator : Char) (rest : List Char) :
    ∀ (a acc : List Char), (∀ c ∈ a, (c == separator) = false) →
      splitGo separator acc (a ++ rest) = splitGo separator (acc ++ a) rest := by
  intro a
  induction a with
  | nil => intro acc _; simp
  | cons x a ih =>
    intro acc h
    have hx : (x == separator) = false := h x (List.mem_cons_self _ _)
    rw [List.cons_append, splitGo, hx, ih (acc ++ [x]) (fun c hc => h c (List.mem_cons_of_mem _ hc))]
    simp

theorem digits_no_colon (s : List Char) (h : ∀ c ∈ s, c.isDigit = true) :
    ∀ c ∈ s, (c == ':') = false := by
  intro c hc
  rw [Bool.eq_false_iff]
  intro heq
  have : c = ':' := by simpa using heq
  have hd := h c hc
  rw [this] at hd
  exact absurd hd (by decide)

theorem split_clock (mm ss : List Char) (hm : ∀ c ∈ mm, c.isDigit = true)
    (hs : ∀ c ∈ ss, c.isDigit = true) : split (mm ++ ':' :: ss) ':' = [mm, ss] := by
  unfold split
  rw [splitGo_part ':' _ mm [] (digits_no_colon mm hm), List.nil_append, splitGo]
  simp only [beq_self_eq_true, if_true]
  have h := splitGo_part ':' [] ss [] (digits_no_colon ss hs)
  rw [List.append_nil, List.nil_append] at h
  rw [h, splitGo]

theorem includes_colon (status : String) (mm ss : List Char)
    (h : status.data = mm ++ ':' :: ss) : includes status ":" = true := by
  unfold includes
  rw [includesChars_iff, h]
  exact ⟨mm, ss, by simp⟩

theorem includes_colon_digits (status : String) (h : ∀ c ∈ status.data, c.isDigit = true) :
    includes status ":" = false := by
  rw [Bool.eq_false_iff]
  intro hinc
  unfold includes at hinc
  rw [includesChars_iff] at hinc
  obtain ⟨a, b, hab⟩ := hinc
  have hmem : ':' ∈ status.data := by
    rw [← hab]
    simp
  exact absurd (h ':' hmem) (by decide)

/-- The callback reads the minutes and the seconds off a clock status. -/
theorem clockStatus_read (status : String) (total : Nat) (h : ClockStatus status total) :
    ∃ minutes seconds : Nat, statusMinutes status = Number.ofInt (minutes : Int) ∧
      statusSeconds status = Number.ofInt (seconds : Int) ∧ total = 60 * minutes + seconds := by
  rcases h with ⟨mm, ss, hmm, hss, hdata, htotal⟩ | ⟨hmm, htotal⟩
  · have hm := (isDigits_iff mm).mp hmm
    have hs := (isDigits_iff ss).mp hss
    refine ⟨decimalValue mm, decimalValue ss, ?_, ?_, htotal⟩
    · unfold statusMinutes
      rw [includes_colon status mm ss hdata, if_pos rfl, hdata, split_clock mm ss hm.2 hs.2]
      exact parseInt_digits mm hmm
    · unfold statusSeconds
      rw [includes_colon status mm ss hdata, if_pos rfl, hdata, split_clock mm ss hm.2 hs.2]
      exact parseInt_digits ss hss
  · have hm := (isDigits_iff status.data).mp hmm
    refine ⟨decimalValue status.data, 0, ?_, ?_, by omega⟩
    · unfold statusMinutes
      rw [includes_colon_digits status hm.2]
      exact parseInt_digits status.data hmm
    · unfold statusSeconds
      rw [includes_colon_digits status hm.2, if_neg Bool.false_ne_true, Nat.cast_zero]

theorem digitChar_digit : ∀ k, k < 10 →
    (Nat.digitChar k).isDigit = true ∧ digitValue (Nat.digitChar k) = k := by
  decide

theorem toDigitsCore_value : ∀ (fuel n : Nat) (ds : List Char), n < fuel →
    (Nat.toDigitsCore 10 fuel n ds).foldl (fun acc c => acc * 10 + digitValue c) 0 =
      ds.foldl (fun acc c => acc * 10 + digitValue c) n := by
  intro fuel
  induction fuel with
  | zero => intro n ds h; omega
  | succ fuel ih =>
    intro n ds h
    have hd := (digitChar_digit (n % 10) (Nat.mod_lt _ (by decide))).2
    unfold Nat.toDigitsCore
    dsimp only
    by_cases h0 : n / 10 = 0
    · rw [if_pos h0, List.foldl_cons, hd]
      have : 0 * 10 + n % 10 = n := by omega
      rw [this]
    · rw [if_neg h0, ih (n / 10) _ (by omega), List.foldl_cons, hd]
      have : n / 10 * 10 + n % 10 = n := by omega
      rw [this]

theorem toDigitsCore_digits : ∀ (fuel n : Nat) (ds : List Char),
    (∀ c ∈ ds, c.isDigit = true) → ∀ c ∈ Nat.toDigitsCore 10 fuel n ds, c.isDigit = true := by
  intro fuel
  induction fuel with
  | zero => intro n ds h; exact h
  | succ fuel ih =>
    intro n ds h
    have hd := (digitChar_digit (n % 10) (Nat.mod_lt _ (by decide))).1
    have hcons : ∀ c ∈ Nat.digitChar (n % 10) :: ds, c.isDigit = true := by
      intro c hc
      rcases List.mem_cons.mp hc with rfl | hc
      · exact hd
      · exact h c hc
    unfold Nat.toDigitsCore
    dsimp only
    by_cases h0 : n / 10 = 0
    · rw [if_pos h0]
      exact hcons
    · rw [if_neg h0]
      exact ih (n / 10) _ hcons

theorem toDigitsCore_ne_nil : ∀ (fuel n : Nat) (ds : List Char),
    ds ≠ [] → Nat.toDigitsCore 10 fuel n ds ≠ [] := by
  intro fuel
  induction fuel with
  | zero => intro n ds h; exact h
  | succ fuel ih =>
    intro n ds _
    unfold Nat.toDigitsCore
    dsimp only
    by_cases h0 : n / 10 = 0
    · rw [if_pos h0]
      exact List.cons_ne_nil _ _
    · rw [if_neg h0]
      exact ih (n / 10) _ (List.cons_ne_nil _ _)

/-- The decimal rendering of a number is a non-empty run of digits. -/
theorem isDigits_toDigits (n : Nat) : isDigits (Nat.toDigits 10 n) = true := by
  rw [isDigits_iff]
  constructor
  · unfold Nat.toDigits Nat.toDigitsCore
    dsimp only
    by_cases h0 : n / 10 = 0
    · rw [if_pos h0]
      exact List.cons_ne_nil _ _
    · rw [if_neg h0]
      exact toDigitsCore_ne_nil n (n / 10) _ (List.cons_ne_nil _ _)
  · exact toDigitsCore_digits (n + 1) n [] (fun c hc => absurd hc (List.not_mem_nil c))

/-- The decimal rendering of a number denotes that number. -/
theorem decimalValue_toDigits (n : Nat) : decimalValue (Nat.toDigits 10 n) = n := by
  unfold decimalValue Nat.toDigits
  rw [toDigitsCore_value (n + 1) n [] (Nat.lt_succ_self n)]
  rfl

theorem foldl_zeros (k : Nat) :
    (List.replicate k '0').foldl (fun acc c => acc * 10 + digitValue c) 0 = 0 := by
  induction k with
  | zero => rfl
  | succ k ih =>
    rw [List.replicate_succ, List.foldl_cons]
    exact ih

theorem decimalValue_padStart2 (s : List Char) : decimalValue (padStart2 s) = decimalValue s := by
  unfold decimalValue padStart2
  rw [List.foldl_append, foldl_zeros]

theorem isDigits_padStart2 (s : List Char) (h : isDigits s = true) :
    isDigits (padStart2 s) = true := by
  rw [isDigits_iff] at h ⊢
  unfold padStart2
  constructor
  · intro hnil
    exact h.1 (List.append_eq_nil.mp hnil).2
  · intro c hc
    rcases List.mem_append.mp hc with hc | hc
    · rw [(List.mem_replicate.mp hc).2]
      decide
    · exact h.2 c hc

/-- The rendering of a number of seconds is a clock status of that total. -/
theorem clockText_clock (n : Nat) : ClockStatus (clockText n) n := by
  refine Or.inl ⟨padStart2 (Nat.toDigits 10 (n / 60)), padStart2 (Nat.toDigits 10 (n % 60)),
    isDigits_padStart2 _ (isDigits_toDigits _), isDigits_padStart2 _ (isDigits_toDigits _),
    rfl, ?_⟩
  rw [decimalValue_padStart2, decimalValue_padStart2, decimalValue_toDigits,
    decimalValue_toDigits]
  omega

/-- For a clock status with total up to `2 ^ 53` the callback computes the total
exactly. -/
theorem statusTotal_of_clock (status : String) (total : Nat) (h : ClockStatus status total)
    (hT : total ≤ 2 ^ 53) :
    statusTotal status = Number.ofInt (total : Int) ∧
      (statusMinutes status).isNaN = false := by
  obtain ⟨m, s, hm, hs, htotal⟩ := clockStatus_read status total h
  unfold statusTotal
  rw [hm, hs]
  have h60 : ((m : Int) * 60).natAbs ≤ 2 ^ 53 := by omega
  constructor
  · rw [Number.mul_whole (m : Int) 60 (by omega) (by decide) h60,
      Number.add_whole _ _ h60 (by omega) (by omega), htotal]
    congr 1
    push_cast
    ring
  · exact Number.isNaN_ofInt _ (by omega)

/-- The string the callback builds for a whole number of seconds below `2 ^ 53` is its
zero-padded `MM:SS` rendering. -/
theorem formatClock_whole (x : Nat) (hx : x < 2 ^ 53) :
    formatClock (Number.ofInt (x : Int)) = clockText x := by
  unfold formatClock clockText
  rw [Number.floor_div_whole x hx, Number.mod_whole x (by omega),
    Number.toString_whole (x / 60) (by omega), Number.toString_whole (x % 60) (by omega)]

theorem tickHospital_of_clock (h : Hospital) (total : Nat)
    (hc : ClockStatus h.backup_status total) (hT : total ≤ 2 ^ 53) :
    tickHospital h =
      if 0 < total then { h with backup_status := clockText (total - 1) } else h := by
  obtain ⟨htot, hnan⟩ := statusTotal_of_clock h.backup_status total hc hT
  unfold tickHospital
  rw [hnan, htot]
  dsimp only
  unfold Number.gt
  rw [Number.lt_whole 0 (total : Int) (by decide) (by omega)]
  by_cases hpos : 0 < total
  · have h1 : (0 : Int) < (total : Int) := by omega
    have h2 : ((total : Int) - 1) = ((total - 1 : Nat) : Int) := by omega
    simp only [Bool.not_false, if_true, decide_eq_true h1, if_pos hpos]
    rw [Number.sub_whole (total : Int) 1 (by omega) (by decide) (by omega), h2,
      formatClock_whole (total - 1) (by omega)]
  · have h1 : ¬ (0 : Int) < (total : Int) := by omega
    simp only [Bool.not_false, if_true, decide_eq_false h1, if_neg hpos]
    rfl

theorem lt_nan (x : Number) : Number.lt x Number.nan = false := by
  cases x <;> rfl

theorem tickHospital_of_nan (h : Hospital) (ht : (statusTotal h.backup_status).isNaN = true) :
    tickHospital h = h := by
  unfold tickHospital
  by_cases hm : (statusMinutes h.backup_status).isNaN = true
  · rw [hm]; rfl
  · have hm' : (statusMinutes h.backup_status).isNaN = false := by
      cases hb : (statusMinutes h.backup_status).isNaN
      · rfl
      · exact absurd hb hm
    rw [hm']
    have hgt : Number.gt (statusTotal h.backup_status) (Number.ofInt 0) = false := by
      cases hv : statusTotal h.backup_status with
      | nan => exact lt_nan _
      | finite a => rw [hv] at ht; cases ht
      | posInfinity => rw [hv] at ht; cases ht
      | negInfinity => rw [hv] at ht; cases ht
    simp only [Bool.not_false, if_true, hgt]
    rfl

theorem tickHospital_fields (h : Hospital) :
    (tickHospital h).name = h.name ∧ (tickHospital h).icu_patients = h.icu_patients ∧
      (tickHospital h).why_matters = h.why_matters ∧ (tickHospital h).others = h.others := by
  unfold tickHospital
  by_cases hm : (!(statusMinutes h.backup_status).isNaN) = true
  · rw [if_pos hm]
    dsimp only
    by_cases hg : Number.gt (statusTotal h.backup_status) (Number.ofInt 0) = true
    · rw [if_pos hg]; exact ⟨rfl, rfl, rfl, rfl⟩
    · rw [if_neg hg]; exact ⟨rfl, rfl, rfl, rfl⟩
  · rw [if_neg hm]; exact ⟨rfl, rfl, rfl, rfl⟩

/-- C30 (as amended): one countdown tick takes exactly one second off the backup time
and never goes below zero, while the total is within binary64's exact whole numbers.
For a status that is `MM:SS` or a bare minute count, with total
`T = 60 * minutes + seconds` and `T ≤ 2 ^ 53`: when `T > 0` the new status is the
two-place zero-padded `MM:SS` rendering of `T - 1`, which reads back as `T - 1`; when
`T = 0` the record is returned as it is. A status whose total is `NaN` leaves the
record as it is, and every other field of the record is kept in all cases. -/
theorem tickHospital_countdown (h : Hospital) :
    (∀ T : Nat, ClockStatus h.backup_status T → T ≤ 2 ^ 53 →
      (0 < T →
        tickHospital h = { h with backup_status := clockText (T - 1) } ∧
          ClockStatus (clockText (T - 1)) (T - 1) ∧
          statusTotal (clockText (T - 1)) = Number.ofInt ((T - 1 : Nat) : Int)) ∧
      (T = 0 → tickHospital h = h)) ∧
    ((statusTotal h.backup_status).isNaN = true → tickHospital h = h) ∧
    (tickHospital h).name = h.name ∧ (tickHospital h).icu_patients = h.icu_patients ∧
      (tickHospital h).why_matters = h.why_matters ∧ (tickHospital h).others = h.others := by
  refine ⟨?_, tickHospital_of_nan h, tickHospital_fields h⟩
  intro T hclock hT
  have htick := tickHospital_of_clock h T hclock hT
  constructor
  · intro hpos
    rw [if_pos hpos] at htick
    exact ⟨htick, clockText_clock (T - 1),
      (statusTotal_of_clock _ (T - 1) (clockText_clock (T - 1)) (by omega)).1⟩
  · intro hzero
    rw [if_neg (by omega)] at htick
    exact htick

set_option exponentiation.threshold 5000 in
set_option maxRecDepth 100000 in
/-- Witness for C30: a bare count of 45 minutes ticks to `44:59`, a clock status of
2699 seconds, and `00:00` and `N/A` are left as they are. -/
theorem tickHospital_countdown_witness :
    tickHospital ⟨"City General", "45", 12, "ventilators", []⟩ =
        ⟨"City General", "44:59", 12, "ventilators", []⟩ ∧
      ClockStatus "44:59" 2699 ∧
      tickHospital ⟨"City General", "00:00", 12, "ventilators", []⟩ =
        ⟨"City General", "00:00", 12, "ventilators", []⟩ ∧
      tickHospital ⟨"City General", "N/A", 12, "ventilators", []⟩ =
        ⟨"City General", "N/A", 12, "ventilators", []⟩ :=
  ⟨((tickHospital_countdown ⟨"City General", "45", 12, "ventilators", []⟩).1 2700
      (Or.inr ⟨by decide, by decide⟩) (by decide)).1 (by decide) |>.1,
    ((tickHospital_countdown ⟨"City General", "45", 12, "ventilators", []⟩).1 2700
      (Or.inr ⟨by decide, by decide⟩) (by decide)).1 (by decide) |>.2.1,
    ((tickHospital_countdown ⟨"City General", "00:00", 12, "ventilators", []⟩).1 0
      (Or.inl ⟨['0', '0'], ['0', '0'], by decide, by decide, by decide, by decide⟩)
      (by decide)).2 rfl,
    (tickHospital_countdown ⟨"City General", "N/A", 12, "ventilators", []⟩).2.1 (by decide)⟩

set_option exponentiation.threshold 5000 in
set_option maxRecDepth 100000 in
/-- C30 (as stated) fails above `2 ^ 53`. The status `150119987579016:33` has the total
`2 ^ 53 + 1`; the tick gives `150119987579016:31`, two seconds less, not
`150119987579016:32`. The bare minute count `99999999999999999999` ticks to
`100000000000000000000:00`, which is more than before. -/
theorem tickHospital_rounding_counterexample :
    ClockStatus "150119987579016:33" (2 ^ 53 + 1) ∧
    (tickHospital ⟨"City General", "150119987579016:33", 12, "ventilators", []⟩).backup_status =
      "150119987579016:31" ∧
    clockText (2 ^ 53 + 1 - 1) = "150119987579016:32" ∧
    ClockStatus "99999999999999999999" (60 * 99999999999999999999) ∧
    (tickHospital ⟨"City General", "99999999999999999999", 12, "ventilators",
      []⟩).backup_status = "100000000000000000000:00" ∧
    clockText (60 * 99999999999999999999 - 1) = "99999999999999999998:59" := by
  refine ⟨Or.inl ⟨"150119987579016".data, "33".data, by decide, by decide, by decide,
    by decide⟩, by decide, by decide, Or.inr ⟨by decide, by decide⟩, by decide, by decide⟩

end ElectroWizard
